import Mathlib

/-!
# ClavTarot: the card-draw engine of `test-local.js` and the installer's merges

A shallow embedding of the draw engine of the ClavTarot demo script
(`src/test-local.js`) and of the configuration and persona updates of the installer
(`src/bin/cli.js`), together with the properties their specification states.

Modelling conventions.

* JavaScript arrays are Lean lists; `a[i]` is `a[i]?`.
* JavaScript numbers that the code divides are rationals (`ℚ`), with
  `Math.floor` the integer floor.  All the integers the code multiplies stay
  far below `2^53`, where double arithmetic is exact.
* `Math.random()` is a stream `rnd : ℕ → ℚ`; `rnd k` is the value returned by
  the `k`-th call made during one invocation.
* A call's outcome is an `Except String _`: `.error name` is a thrown error of
  that name, `.ok v` is a normal return of `v`.
* The deck document `./data/tarot-cards.json` is a parameter.
* Texts the code scans are lists of characters; a length counts characters.
* Where a statement is about what a call changes, objects and arrays live in an explicit
  store and are referred to by index.
-/

namespace ClavTarot

/-! ## Data model -/

/-- One facet (`upright` or `reversed`) of a card in the deck document. -/
structure Facet where
  keywords : List String
  meaning : String
  love : Option String
  career : Option String
  health : Option String
deriving DecidableEq

/-- A card record of the deck document.  The major cards are the ones that carry a
`numeral` and the minor cards a `rank`, both strings; `none` is a label the record does not
have. -/
structure Card where
  id : Nat
  name : String
  upright : Facet
  reversed : Facet
  element : Option String
  numeral : Option String
  rank : Option String
deriving DecidableEq

/-- The object `{ ...card, isReversed }` built by `drawCards` and `dailyFortune`. -/
structure DrawnCard where
  card : Card
  isReversed : Bool
deriving DecidableEq

/-- The deck document: `deck.majorArcana` and `deck.minorArcana.<suit>.cards`. -/
structure Deck where
  majorArcana : List Card
  wands : List Card
  cups : List Card
  swords : List Card
  pentacles : List Card

/-- The module-level constant `allCards` (lines 41-47): the five lists spread in order. -/
def allCards (deck : Deck) : List Card :=
  deck.majorArcana ++ deck.wands ++ deck.cups ++ deck.swords ++ deck.pentacles

/-! ## Shuffle and draw (lines 51-66) -/

/-- The destructuring swap `[a[i], a[j]] = [a[j], a[i]]`: both reads happen first, then
`a[i]` and `a[j]` are written in that order.  Both indices are inside the array at every
call the shuffle makes (see `randomIndex_le`); outside it the list is left as it is. -/
def swapAt {α : Type} (a : List α) (i j : Nat) : List α :=
  match a[i]?, a[j]? with
  | some x, some y => (a.set i y).set j x
  | _, _ => a

/-- The loop `for (let i = ...; i > 0; i--)` of `shuffle`, entered at index `i`, where
`choose i` is the index `j` picked at loop index `i`. -/
def shuffleLoop {α : Type} (choose : Nat → Nat) : Nat → List α → List α
  | 0, a => a
  | i + 1, a => shuffleLoop choose i (swapAt a (i + 1) (choose (i + 1)))

/-- The function `shuffle` as a function of its swap choices: the copy `[...arr]` is run
through the loop from `i = arr.length - 1`. -/
def shuffleBy {α : Type} (choose : Nat → Nat) (arr : List α) : List α :=
  shuffleLoop choose (arr.length - 1) arr

/-- The index `Math.floor(Math.random() * (i + 1))` for a random value `r`. -/
def randomIndex (r : ℚ) (i : Nat) : Nat :=
  (⌊r * ((i : ℚ) + 1)⌋).toNat

/-- The function `shuffle(arr)`: the `k`-th call of `Math.random()` is made at loop index
`arr.length - 1 - k`, so loop index `i` reads `rnd (arr.length - 1 - i)`. -/
def shuffle {α : Type} (rnd : Nat → ℚ) (arr : List α) : List α :=
  shuffleBy (fun i => randomIndex (rnd (arr.length - 1 - i)) i) arr

/-- The call `a.slice(0, n)`: a negative end counts from the end of the array. -/
def slice0 {α : Type} (a : List α) (n : Int) : List α :=
  if 0 ≤ n then a.take n.toNat else a.take (a.length - (-n).toNat)

/-- The function `drawCards(n)` over the catalog `cards`.  The shuffle makes the first
`cards.length - 1` calls of `Math.random()`; the `map` callback then makes one call per
drawn card, in order.  The function has no `throw`, so it always returns. -/
def drawCards (cards : List Card) (rnd : Nat → ℚ) (n : Int) : Except String (List DrawnCard) :=
  let shuffled := shuffle rnd cards
  .ok ((slice0 shuffled n).enum.map fun p =>
    { card := p.2, isReversed := decide (rnd (cards.length - 1 + p.1) > 1 / 2) })

/-! ## The seeded generator and the daily selector (lines 68-74, 370-376) -/

/-- The closure returned by `seededRandom`: its captured variable `s`. -/
structure Rng where
  s : Int
deriving DecidableEq

/-- The function `seededRandom(seed)`: a closure whose state starts at `seed`. -/
def seededRandom (seed : Int) : Rng := ⟨seed⟩

/-- One call of the closure: `s = (s * 16807) % 2147483647; return (s - 1) / 2147483646`.
JavaScript `%` takes the sign of the dividend, which is `Int.tmod`.  The product is the
exact one, which is the double the code computes whenever it is below `2^53` in size, as
it is for every date seed and every later state; `Rng.callDouble` rounds it and covers the
seeds beyond. -/
def Rng.call (g : Rng) : ℚ × Rng :=
  let s := Int.tmod (g.s * 16807) 2147483647
  (((s : ℚ) - 1) / 2147483646, ⟨s⟩)

/-- The fields of the `Date` object `new Date()` as the local-time getters return them;
`month` is `getMonth()`, counted from 0. -/
structure JsDate where
  fullYear : Int
  month : Int
  date : Int
  hours : Int
  minutes : Int
  seconds : Int
  milliseconds : Int
deriving DecidableEq

/-- The constant `dateSeed` of `dailyFortune` (line 372). -/
def dateSeed (today : JsDate) : Int :=
  today.fullYear * 10000 + (today.month + 1) * 100 + today.date

/-- The read `a[i]` for a number `i`: `undefined` (here `none`) outside the array. -/
def jsGet {α : Type} (a : List α) (i : Int) : Option α :=
  if 0 ≤ i then a[i.toNat]? else none

/-- What `dailyFortune` selects: the index, the catalog entry read at it (`none` when the
read misses and the copy `{ ...undefined }` has no card field) and the orientation. -/
structure DailyPick where
  cardIndex : Int
  card : Option Card
  isReversed : Bool
deriving DecidableEq

/-- The selection made by `dailyFortune` (lines 371-376) for the date `today` over the
catalog `cards`.  It reads the date and the catalog only; `Math.random` is not called. -/
def dailyFortune (today : JsDate) (cards : List Card) : DailyPick :=
  let rng := seededRandom (dateSeed today)
  let r1 := rng.call
  let cardIndex := ⌊r1.1 * (cards.length : ℚ)⌋
  let card := jsGet cards cardIndex
  let r2 := r1.2.call
  { cardIndex := cardIndex, card := card, isReversed := decide (r2.1 > 1 / 2) }

/-! ## The five spreads (lines 115-129, 234-368) -/

/-- One call of `revealCard`: the card shown, the position printed in the header (`none`
for the plain header) and the delay slept first. -/
structure Reveal where
  card : DrawnCard
  position : Option String
  delayMs : Nat
deriving DecidableEq

/-- The header choice `if (position)` of `revealCard`: an absent or empty position gives
the plain header. -/
def revealCard (card : DrawnCard) (position : Option String) (delayMs : Nat) : Reveal :=
  match position with
  | some p => if p = "" then ⟨card, none, delayMs⟩ else ⟨card, some p, delayMs⟩
  | none => ⟨card, none, delayMs⟩

/-- The loop `for (let i = 0; i < cards.length; i++) await revealCard(cards[i], positions[i], d)`. -/
def revealAll (cards : List DrawnCard) (positions : List String) (delayMs : Nat) : List Reveal :=
  cards.enum.map fun p => revealCard p.2 positions[p.1]? delayMs

/-- The function `singleCard`: `const [card] = drawCards(1); await revealCard(card)`.  With
nothing drawn `card` is `undefined` and `card.isReversed` throws a `TypeError`. -/
def singleCard (cards : List Card) (rnd : Nat → ℚ) : Except String (List Reveal) :=
  match drawCards cards rnd 1 with
  | .error e => .error e
  | .ok (card :: _) => .ok [revealCard card none 600]
  | .ok [] => .error "TypeError"

/-- The array `positions` of `threeCardSpread`. -/
def threePositions : List String :=
  ["① Past — What brought you here", "② Present — Where you stand now",
   "③ Future — What awaits ahead"]

/-- The function `threeCardSpread`. -/
def threeCardSpread (cards : List Card) (rnd : Nat → ℚ) : Except String (List Reveal) :=
  match drawCards cards rnd 3 with
  | .error e => .error e
  | .ok drawn => .ok (revealAll drawn threePositions 800)

/-- The array `positions` of `loveSpread`. -/
def lovePositions : List String :=
  ["① Your Feelings — What your heart holds",
   "② Their Feelings — What their heart holds",
   "③ The Connection — The energy between you",
   "④ The Challenge — What tests your bond",
   "⑤ The Potential — Where love could lead"]

/-- The function `loveSpread`. -/
def loveSpread (cards : List Card) (rnd : Nat → ℚ) : Except String (List Reveal) :=
  match drawCards cards rnd 5 with
  | .error e => .error e
  | .ok drawn => .ok (revealAll drawn lovePositions 800)

/-- The array `positions` of `careerSpread`. -/
def careerPositions : List String :=
  ["① Current Position — Where you stand",
   "② Obstacles — What blocks your path",
   "③ Hidden Influence — The unseen factor",
   "④ Best Action — Your wisest next move"]

/-- The function `careerSpread`. -/
def careerSpread (cards : List Card) (rnd : Nat → ℚ) : Except String (List Reveal) :=
  match drawCards cards rnd 4 with
  | .error e => .error e
  | .ok drawn => .ok (revealAll drawn careerPositions 800)

/-- The array `positions` of `celticCross`. -/
def celticPositions : List String :=
  ["① Present Situation — The heart of the matter",
   "② The Challenge — What crosses you",
   "③ Foundation — The root cause",
   "④ Recent Past — What's fading away",
   "⑤ Crown — The best possible outcome",
   "⑥ Near Future — What approaches",
   "⑦ Your Attitude — How you see yourself",
   "⑧ External Influences — How others affect you",
   "⑨ Hopes & Fears — Your deepest desires and anxieties",
   "⑩ Final Outcome — The destiny that forms"]

/-- The function `celticCross`. -/
def celticCross (cards : List Card) (rnd : Nat → ℚ) : Except String (List Reveal) :=
  match drawCards cards rnd 10 with
  | .error e => .error e
  | .ok drawn => .ok (revealAll drawn celticPositions 600)

/-- The name a position label carries: the text between the leading numeral and the
separator `" — "`. -/
def labelNameChars : List Char → List Char
  | [] => []
  | c :: cs => if c = ' ' ∧ cs.head? = some '—' then [] else c :: labelNameChars cs

/-- The name of a position label such as `"① Past — What brought you here"`. -/
def labelName (label : String) : String :=
  String.mk (labelNameChars ((label.data.dropWhile fun c => c ≠ ' ').drop 1))

/-- Modelled from the spec: the table of recognized spreads of section 4.4 (identifier,
count, ordered positions); the source holds no such table, each spread function carries
its own count and labels. -/
def spreadTable : List (String × Nat × List String) :=
  [("single", 1, ["The Message"]),
   ("three", 3, ["Past", "Present", "Future"]),
   ("love", 5, ["Your Feelings", "Their Feelings", "The Connection", "The Challenge",
      "The Potential"]),
   ("career", 4, ["Current Position", "Obstacles", "Hidden Influence", "Best Action"]),
   ("celtic", 10, ["Present Situation", "The Challenge", "Foundation", "Recent Past",
      "Crown(Best Outcome)", "Near Future", "Your Attitude", "External Influences",
      "Hopes & Fears", "Final Outcome"])]

/-- The name of a table position without its parenthesised gloss:
`"Crown(Best Outcome)"` names the position `"Crown"`. -/
def positionName (position : String) : String :=
  String.mk (position.data.takeWhile fun c => c ≠ '(')

/-! ## Command dispatch (lines 619-654) -/

/-- The functions the entry `switch` can start. -/
inductive Action where
  | singleCard
  | threeCardSpread
  | loveSpread
  | careerSpread
  | celticCross
  | dailyFortune
  | showDeck
  | showHowToPlay
  | mainMenu
deriving DecidableEq

/-- The entry point: `command = process.argv[2] || ""` and the `switch` over it; `arg` is
`process.argv[2]`.  No branch throws. -/
def dispatch (arg : Option String) : Except String Action :=
  let command := arg.getD ""
  if command = "single" then .ok Action.singleCard
  else if command = "three" then .ok Action.threeCardSpread
  else if command = "love" then .ok Action.loveSpread
  else if command = "career" then .ok Action.careerSpread
  else if command = "celtic" then .ok Action.celticCross
  else if command = "daily" then .ok Action.dailyFortune
  else if command = "deck" then .ok Action.showDeck
  else if command = "how" ∨ command = "guide" ∨ command = "help" ∨ command = "--help"
      ∨ command = "-h" then .ok Action.showHowToPlay
  else .ok Action.mainMenu

/-- The argument of the `drawCards` call an action makes when it starts; `none` for the
actions that start without drawing. -/
def Action.drawSize : Action → Option Int
  | .singleCard => some 1
  | .threeCardSpread => some 3
  | .loveSpread => some 5
  | .careerSpread => some 4
  | .celticCross => some 10
  | _ => none

/-! ## Catalog load (lines 39-47) -/

/-- Loading the catalog at module start: `allCards` is built from the deck document with
no check of its size or ids, so for a document holding the five lists it always
succeeds. -/
def loadCatalog (deck : Deck) : Except String (List Card) :=
  .ok (allCards deck)

/-! ## Sample data -/

/-- A facet used in sample cards. -/
def sampleFacet : Facet := ⟨["keyword"], "meaning", none, none, none⟩

/-- A sample card with the given id. -/
def sampleCard (id : Nat) : Card :=
  ⟨id, "card", sampleFacet, sampleFacet, none, some "XIV", some "Ace"⟩

/-- The sample cards with ids `start, start + 1, ...`, `count` of them. -/
def sampleCards (start count : Nat) : List Card :=
  (List.range count).map fun i => sampleCard (start + i)

/-- A well-formed deck: 22 major cards and four suits of 14, ids 0 to 77. -/
def sampleDeck : Deck := ⟨sampleCards 0 22, sampleCards 22 14, sampleCards 36 14,
  sampleCards 50 14, sampleCards 64 14⟩

/-- A deck of 77 cards: one major card is missing. -/
def shortDeck : Deck := ⟨sampleCards 1 21, sampleCards 22 14, sampleCards 36 14,
  sampleCards 50 14, sampleCards 64 14⟩

/-- A deck of 78 cards in which the id 22 occurs twice. -/
def duplicateDeck : Deck := ⟨sampleCards 1 22, sampleCards 22 14, sampleCards 36 14,
  sampleCards 50 14, sampleCards 64 14⟩

/-- A major card whose record has no numeral. -/
def unnumberedCard : Card := ⟨0, "The Fool", sampleFacet, sampleFacet, none, none, none⟩

/-- A deck of 78 cards whose first major card has no numeral. -/
def unnumberedDeck : Deck := ⟨unnumberedCard :: sampleCards 1 21, sampleCards 22 14,
  sampleCards 36 14, sampleCards 50 14, sampleCards 64 14⟩

/-- A random source that cycles through 0, 1/7, ..., 6/7. -/
def sampleRnd (k : Nat) : ℚ := ((k % 7 : Nat) : ℚ) / 7

/-- The values `Math.random()` can return lie in `[0, 1)`. -/
def RandomSource (rnd : Nat → ℚ) : Prop := ∀ k, 0 ≤ rnd k ∧ rnd k < 1

/-- The calendar dates of the claims: a year from 0 on, a month index 0-11 (months 1-12)
and a day 1-31. -/
def CalendarDate (d : JsDate) : Prop :=
  0 ≤ d.fullYear ∧ 0 ≤ d.month ∧ d.month ≤ 11 ∧ 1 ≤ d.date ∧ d.date ≤ 31

/-- The date `d1` is chronologically before `d2`. -/
def Earlier (d1 d2 : JsDate) : Prop :=
  d1.fullYear < d2.fullYear ∨ (d1.fullYear = d2.fullYear ∧
    (d1.month < d2.month ∨ (d1.month = d2.month ∧ d1.date < d2.date)))

/-- The swap choices the loop may make on an array of length `m`: an index in `[0, i]`
at every loop index `i` from `m - 1` down to 1. -/
def ValidChoices (m : Nat) (c : Nat → Nat) : Prop := ∀ i, 1 ≤ i → i < m → c i ≤ i

/-- A spread run is aligned with its draw: the draw returned `count` cards, `labels` holds
`count` labels, the run made `count` reveals, and the `i`-th reveal shows the `i`-th drawn
card under the `i`-th label after `delayMs`. -/
def RevealsAligned (run : Except String (List Reveal)) (draw : Except String (List DrawnCard))
    (count : Nat) (labels : List String) (delayMs : Nat) : Prop :=
  ∃ drawn reveals, draw = .ok drawn ∧ run = .ok reveals ∧ drawn.length = count ∧
    labels.length = count ∧ reveals.length = count ∧
    ∀ (i : Nat) (c : DrawnCard), drawn[i]? = some c →
      ∃ label, labels[i]? = some label ∧ reveals[i]? = some (Reveal.mk c (some label) delayMs)

/-- The commands the entry `switch` has a `case` for. -/
def recognizedCommands : List String :=
  ["single", "three", "love", "career", "celtic", "daily", "deck", "how", "guide", "help",
   "--help", "-h"]

/-! ## The interactive menu (lines 87-93, 450-515) -/

/-- The white space and line terminator characters that `String.prototype.trim` strips. -/
def isJsWhitespace (c : Char) : Bool :=
  decide (c.toNat ∈ [9, 10, 11, 12, 13, 32, 160, 5760, 8232, 8233, 8239, 8287, 12288, 65279])
    || (decide (8192 ≤ c.toNat) && decide (c.toNat ≤ 8202))

/-- The method `trim` on the characters of a string. -/
def trimChars (cs : List Char) : List Char :=
  ((cs.dropWhile isJsWhitespace).reverse.dropWhile isJsWhitespace).reverse

/-- The method `trim`; `ask` resolves to `answer.trim()`. -/
def jsTrim (s : String) : String := String.mk (trimChars s.data)

/-- The whole call `dailyFortune()`: the selection, then `revealCard(card, "Card of the
Day")`.  When the catalog read misses, `card` has no facet and `data.keywords` throws a
`TypeError`. -/
def dailyReveal (today : JsDate) (cards : List Card) : Except String Reveal :=
  match (dailyFortune today cards).card with
  | some c => .ok (revealCard ⟨c, (dailyFortune today cards).isReversed⟩ (some "Card of the Day") 600)
  | none => .error "TypeError"

/-- The length of a string, counted in UTF-16 code units as `padEnd` counts it. -/
def utf16Length (s : String) : Nat :=
  (s.data.map fun ch => if ch.toNat < 65536 then 1 else 2).sum

/-- The method `padEnd(n)`: spaces are added at the end up to the length `n`. -/
def padEnd (s : String) (n : Nat) : String :=
  s ++ String.mk (List.replicate (n - utf16Length s) ' ')

/-- One entry of the deck listing: the padded label, the name, and the keywords of the two
facets joined by `, `. -/
structure DeckEntry where
  label : String
  name : String
  upright : String
  reversed : String
deriving DecidableEq

/-- The callback of `deck.majorArcana.forEach` in `showDeck` (lines 417-422):
`card.numeral.padEnd(4)` throws a `TypeError` on a card without a numeral. -/
def majorEntry (card : Card) : Except String DeckEntry :=
  match card.numeral with
  | some numeral =>
    .ok ⟨padEnd numeral 4, card.name, ", ".intercalate card.upright.keywords,
      ", ".intercalate card.reversed.keywords⟩
  | none => .error "TypeError"

/-- The loop `deck.majorArcana.forEach(...)`: it ends at the first card that throws. -/
def majorEntries : List Card → Except String (List DeckEntry)
  | [] => .ok []
  | card :: rest =>
    match majorEntry card with
    | .error e => .error e
    | .ok entry =>
      match majorEntries rest with
      | .error e => .error e
      | .ok entries => .ok (entry :: entries)

/-- The callback of `deck.minorArcana[suit].cards.forEach` (lines 435-440), with the label
`(card.rank || "").padEnd(6)`. -/
def minorEntry (card : Card) : DeckEntry :=
  ⟨padEnd (card.rank.getD "") 6, card.name, ", ".intercalate card.upright.keywords,
    ", ".intercalate card.reversed.keywords⟩

/-- What `showDeck` prints: the major entries, the entries of the suits `wands`, `cups`,
`swords` and `pentacles` in that order, and the three counts of the last line. -/
structure DeckListing where
  major : List DeckEntry
  suits : List (String × List DeckEntry)
  total : Nat
  majorCount : Nat
  minorCount : Nat
deriving DecidableEq

/-- The function `showDeck` (lines 409-444) over the deck document. -/
def showDeck (deck : Deck) : Except String DeckListing :=
  match majorEntries deck.majorArcana with
  | .error e => .error e
  | .ok major =>
    .ok ⟨major, [("wands", deck.wands.map minorEntry), ("cups", deck.cups.map minorEntry),
        ("swords", deck.swords.map minorEntry), ("pentacles", deck.pentacles.map minorEntry)],
      (allCards deck).length, deck.majorArcana.length,
      (allCards deck).length - deck.majorArcana.length⟩

/-- What one round of the menu loop does after reading the choice. -/
inductive MenuEvent where
  | reveals (rs : List Reveal)
  | deck (listing : DeckListing)
  | guide
  | unrecognized
  | farewell
deriving DecidableEq

/-- Where the menu session stands once the given input lines are used up. -/
inductive MenuStatus where
  | closed
  | awaitingChoice
  | awaitingEnter
deriving DecidableEq

/-- What a menu session runs in: the deck document, the values `Math.random()` returns over
the session, and the value of `new Date()` during each round of the loop. -/
structure MenuEnv where
  deck : Deck
  rnd : Nat → ℚ
  today : Nat → JsDate

/-- The catalog `allCards` of the session. -/
def MenuEnv.cards (env : MenuEnv) : List Card := allCards env.deck

/-- The number of `Math.random()` calls `drawCards(n)` makes: one per shuffle step and one
per drawn card. -/
def randomCalls (cards : List Card) (n : Int) : Nat :=
  cards.length - 1 + (slice0 cards n).length

/-- A spread started from the menu after `calls` earlier calls of `Math.random()`. -/
def runSpread (run : List Card → (Nat → ℚ) → Except String (List Reveal)) (env : MenuEnv)
    (calls : Nat) (n : Int) : Except String (MenuEvent × Nat) :=
  match run env.cards (fun k => env.rnd (calls + k)) with
  | .error e => .error e
  | .ok rs => .ok (MenuEvent.reveals rs, calls + randomCalls env.cards n)

/-- The inputs that end the session: the `case "0": case "q": case "quit": case "exit":`
labels. -/
def exitWords : List String := ["0", "q", "quit", "exit"]

/-- The inputs that start an action: the labels `"1"` to `"8"`. -/
def menuNumbers : List String := ["1", "2", "3", "4", "5", "6", "7", "8"]

/-- The `switch (choice)` of `mainMenu` in round `round`, after `calls` calls of
`Math.random()`: the event and the number of calls made by then.  An awaited action that
throws makes the loop fail with its error. -/
def menuChoice (env : MenuEnv) (round calls : Nat) (choice : String) :
    Except String (MenuEvent × Nat) :=
  if choice = "1" then runSpread singleCard env calls 1
  else if choice = "2" then runSpread threeCardSpread env calls 3
  else if choice = "3" then runSpread loveSpread env calls 5
  else if choice = "4" then runSpread careerSpread env calls 4
  else if choice = "5" then runSpread celticCross env calls 10
  else if choice = "6" then
    match dailyReveal (env.today round) env.cards with
    | .error e => .error e
    | .ok r => .ok (MenuEvent.reveals [r], calls)
  else if choice = "7" then
    match showDeck env.deck with
    | .error e => .error e
    | .ok listing => .ok (MenuEvent.deck listing, calls)
  else if choice = "8" then .ok (MenuEvent.guide, calls)
  else if choice = "0" ∨ choice = "q" ∨ choice = "quit" ∨ choice = "exit" then
    .ok (MenuEvent.farewell, calls)
  else .ok (MenuEvent.unrecognized, calls)

/-- The loop `while (true)` of `mainMenu` over the lines typed by the user: each round reads
the choice (trimmed by `ask`), runs the `switch`, returns on an exit word and otherwise
reads one more line at `Press Enter to return to the menu...` before the next round. -/
def mainMenuLoop (env : MenuEnv) : Nat → Nat → List String →
    Except String (List MenuEvent × MenuStatus)
  | _, _, [] => .ok ([], MenuStatus.awaitingChoice)
  | round, calls, [line] =>
    match menuChoice env round calls (jsTrim line) with
    | .error e => .error e
    | .ok (MenuEvent.farewell, _) => .ok ([MenuEvent.farewell], MenuStatus.closed)
    | .ok (ev, _) => .ok ([ev], MenuStatus.awaitingEnter)
  | round, calls, line :: _ :: rest =>
    match menuChoice env round calls (jsTrim line) with
    | .error e => .error e
    | .ok (MenuEvent.farewell, _) => .ok ([MenuEvent.farewell], MenuStatus.closed)
    | .ok (ev, calls') =>
      match mainMenuLoop env (round + 1) calls' rest with
      | .error e => .error e
      | .ok (trace, status) => .ok (ev :: trace, status)

/-- The function `mainMenu` over the lines typed by the user. -/
def mainMenu (env : MenuEnv) (inputs : List String) : Except String (List MenuEvent × MenuStatus) :=
  mainMenuLoop env 0 0 inputs

/-- The lines read at the choice prompt when no round ends the session: every second
line, from the first. -/
def choiceLines : List String → List String
  | [] => []
  | [line] => [line]
  | line :: _ :: rest => line :: choiceLines rest

/-- A session environment with the 78-card catalog, dates of the years 1 to 9999 and major
cards that carry their numeral. -/
def MenuEnv.WellFormed (env : MenuEnv) : Prop :=
  env.cards.length = 78 ∧ (∀ k, (1 ≤ (env.today k).fullYear ∧ (env.today k).fullYear ≤ 9999) ∧
    (0 ≤ (env.today k).month ∧ (env.today k).month ≤ 11) ∧
    (1 ≤ (env.today k).date ∧ (env.today k).date ≤ 31)) ∧
  ∀ card ∈ env.deck.majorArcana, card.numeral ≠ none

/-- A sample session: the sample catalog and random source on 15 March 2024. -/
def sampleEnv : MenuEnv := ⟨sampleDeck, sampleRnd, fun _ => ⟨2024, 2, 15, 9, 0, 0, 0⟩⟩

/-- The same session over the deck whose first major card has no numeral. -/
def unnumberedEnv : MenuEnv := ⟨unnumberedDeck, sampleRnd, fun _ => ⟨2024, 2, 15, 9, 0, 0, 0⟩⟩

/-! ## The configuration merge of the installer (`src/bin/cli.js`, lines 113-127) -/

/-- A JSON value, as `JSON.parse` returns it and as object literals build it.  An object
is the list of its own properties in insertion order (JavaScript lists integer-like keys
first; nothing here reads the order).  The numbers of the installer's documents are
integers, and only their test against zero is read. -/
inductive Json where
  | null
  | bool (b : Bool)
  | num (n : Int)
  | str (s : String)
  | arr (items : List Json)
  | obj (fields : List (String × Json))

/-- The assignment `result[key] = value` on the own properties of a plain object: an
existing property keeps its place, a new one is added at the end. -/
def setKey (fields : List (String × Json)) (key : String) (value : Json) :
    List (String × Json) :=
  match fields with
  | [] => [(key, value)]
  | (k, v) :: rest => if k = key then (key, value) :: rest else (k, v) :: setKey rest key value

/-- The truth value of a JSON value in a condition: `null`, `false`, `0` and `""` are
falsy. -/
def Json.truthy : Json → Bool
  | .null => false
  | .bool b => b
  | .num n => decide (n ≠ 0)
  | .str s => decide (s ≠ "")
  | .arr _ => true
  | .obj _ => true

/-- The own enumerable properties that the spread `{ ...target }` copies and `for ... in`
lists: the fields of an object, the indices of an array or of a string, nothing for the
other values. -/
def ownProps : Json → List (String × Json)
  | .obj fields => fields
  | .arr items => items.enum.map fun p => (toString p.1, p.2)
  | .str s => s.data.enum.map fun p => (toString p.1, Json.str (String.singleton p.2))
  | _ => []

/-- The expression `result[key] || {}`: a missing or falsy value gives the empty object.
(A key that `result` only inherits reads a function or `Object.prototype`, whose spread
is empty as well.) -/
def orEmpty (v : Option Json) : Json :=
  match v with
  | some x => if x.truthy then x else Json.obj []
  | none => Json.obj []

mutual
/-- The function `deepMerge(target, source)`: `result = { ...target }`, then the loop over
the keys of `source`. -/
def deepMerge (target : Json) : Json → Json
  | .obj fields => .obj (mergeFields (ownProps target) fields)
  | .arr items => .obj (mergeItems (ownProps target) 0 items)
  | .str s => .obj ((ownProps (.str s)).foldl (fun r p => setKey r p.1 p.2) (ownProps target))
  | _ => .obj (ownProps target)
/-- The loop `for (const key in source)` over the fields of an object `source`: a value
that is a non-null, non-array object is merged into `result[key] || {}`, any other value
is assigned. -/
def mergeFields (result : List (String × Json)) : List (String × Json) → List (String × Json)
  | [] => result
  | (key, value) :: rest =>
    match value with
    | .obj _ => mergeFields (setKey result key (deepMerge (orEmpty (result.lookup key)) value)) rest
    | _ => mergeFields (setKey result key value) rest
/-- The same loop over the indices of an array `source`, from index `i`. -/
def mergeItems (result : List (String × Json)) (i : Nat) : List Json → List (String × Json)
  | [] => result
  | value :: rest =>
    match value with
    | .obj _ =>
      mergeItems (setKey result (toString i) (deepMerge (orEmpty (result.lookup (toString i))) value))
        (i + 1) rest
    | _ => mergeItems (setKey result (toString i) value) (i + 1) rest
end

mutual
/-- A plain JSON document: in every object the keys are pairwise distinct and none is
`__proto__` (the one name an assignment routes to the prototype instead of a property). -/
def Json.plain : Json → Bool
  | .obj fields => plainFields fields && decide ((fields.map Prod.fst).Nodup)
  | .arr items => plainItems items
  | _ => true
/-- Every value of the fields is plain and no key is `__proto__`. -/
def plainFields : List (String × Json) → Bool
  | [] => true
  | (key, value) :: rest => decide (key ≠ "__proto__") && value.plain && plainFields rest
/-- Every item is plain. -/
def plainItems : List Json → Bool
  | [] => true
  | value :: rest => value.plain && plainItems rest
end

/-- The read `j[key]` of an own property of an object. -/
def Json.get (j : Json) (key : String) : Option Json :=
  match j with
  | .obj fields => fields.lookup key
  | _ => none

/-- The read `j[k1][k2]...` along a path of keys through nested objects. -/
def Json.getPath : Json → List String → Option Json
  | j, [] => some j
  | j, key :: rest =>
    match j.get key with
    | some v => Json.getPath v rest
    | none => none

/-- The object `source` does not define the path: following it through the objects of
`source`, some key is absent. -/
def Untouched : Json → List String → Prop
  | _, [] => False
  | source, key :: rest =>
    match source.get key with
    | none => True
    | some (.obj sub) => Untouched (.obj sub) rest
    | some _ => False

/-- The value the loop body assigns to `result[key]` when the old value is `old`. -/
def mergedValue (old : Option Json) (value : Json) : Json :=
  match value with
  | .obj _ => deepMerge (orEmpty old) value
  | _ => value

/-- A sample existing configuration. -/
def sampleConfig : Json :=
  .obj [("theme", .str "dark"),
    ("skills", .obj [("entries", .obj [("weather", .obj [("enabled", .bool true)])]),
      ("load", .obj [("extraDirs", .arr [.str "/opt/skills"])])])]

/-- A sample merge source of the shape of `skillConfig`. -/
def sampleSkillConfig : Json :=
  .obj [("skills", .obj [("entries", .obj [("clavtarot", .obj [("enabled", .bool true),
    ("apiKey", .str "key-0123456789"), ("env", .obj [("FAL_KEY", .str "key-0123456789")])])])])]

/-! ## The draw over an explicit store (test-local.js, lines 51-66 and 374-376) -/

/-- An object of the store: the card fields it holds (`none` for an object without them)
and its `isReversed` field, if it has one. -/
structure CardObj where
  fields : Option Card
  isReversed : Option Bool
deriving DecidableEq

/-- The store of a run: objects and arrays, each referred to by its index; an array holds
references to objects. -/
structure Store where
  objs : List CardObj
  arrs : List (List Nat)

/-- The elements of the array `a` of the store. -/
def Store.array (st : Store) (a : Nat) : List Nat := (st.arrs[a]?).getD []

/-- A new array with the given elements; the result is the store and the new reference. -/
def Store.newArray (st : Store) (items : List Nat) : Store × Nat :=
  ({ st with arrs := st.arrs ++ [items] }, st.arrs.length)

/-- A new object; the result is the store and the new reference. -/
def Store.newObject (st : Store) (o : CardObj) : Store × Nat :=
  ({ st with objs := st.objs ++ [o] }, st.objs.length)

/-- The swap `[a[i], a[j]] = [a[j], a[i]]` written into the array `a` of the store. -/
def Store.swapIn (st : Store) (a i j : Nat) : Store :=
  { st with arrs := st.arrs.set a (swapAt (st.array a) i j) }

/-- The write `o.isReversed = b` on the object `o` of the store. -/
def Store.setReversed (st : Store) (o : Nat) (b : Bool) : Store :=
  match st.objs[o]? with
  | some x => { st with objs := st.objs.set o { x with isReversed := some b } }
  | none => st

/-- The loop of `shuffle` writing into the array `a` of the store. -/
def shuffleLoopStore (choose : Nat → Nat) : Nat → Store → Nat → Store
  | 0, st, _ => st
  | i + 1, st, a => shuffleLoopStore choose i (st.swapIn a (i + 1) (choose (i + 1))) a

/-- The function `shuffle(arr)` over the store: `a = [...arr]` is a new array holding the
same object references, and the loop writes into `a` only. -/
def shuffleStore (rnd : Nat → ℚ) (st : Store) (arr : Nat) : Store × Nat :=
  let copy := st.newArray (st.array arr)
  (shuffleLoopStore (fun i => randomIndex (rnd ((st.array arr).length - 1 - i)) i)
    ((st.array arr).length - 1) copy.1 copy.2, copy.2)

/-- The callback of `map` over the sliced array, from position `t`: for each element a new
object `{ ...card, isReversed: Math.random() > 0.5 }`. -/
def mapDrawn (rnd : Nat → ℚ) (offset : Nat) : List Nat → Nat → Store → Store × List Nat
  | [], _, st => (st, [])
  | ref :: rest, t, st =>
    let made := st.newObject
      { fields := (st.objs[ref]?).bind fun o => o.fields,
        isReversed := some (decide (rnd (offset + t) > 1 / 2)) }
    let more := mapDrawn rnd offset rest (t + 1) made.1
    (more.1, made.2 :: more.2)

/-- The function `drawCards(n)` over the store, `allCards` being the catalog array: the
shuffled copy, the new array of `slice`, the new objects and the new array of `map`. -/
def drawCardsStore (rnd : Nat → ℚ) (st : Store) (allCards : Nat) (n : Int) : Store × Nat :=
  let shuffled := shuffleStore rnd st allCards
  let sliced := shuffled.1.newArray (slice0 (shuffled.1.array shuffled.2) n)
  let mapped := mapDrawn rnd ((st.array allCards).length - 1) (sliced.1.array sliced.2) 0 sliced.1
  mapped.1.newArray mapped.2

/-- The selection of `dailyFortune` over the store: `card = { ...allCards[cardIndex] }` is
a new object, and `card.isReversed = rng() > 0.5` writes to it. -/
def dailyFortuneStore (today : JsDate) (st : Store) (allCards : Nat) : Store × Nat :=
  let r1 := (seededRandom (dateSeed today)).call
  let cardIndex := ⌊r1.1 * ((st.array allCards).length : ℚ)⌋
  let source := (jsGet (st.array allCards) cardIndex).bind fun ref => st.objs[ref]?
  let card := st.newObject
    { fields := source.bind fun o => o.fields, isReversed := source.bind fun o => o.isReversed }
  let r2 := r1.2.call
  (card.1.setReversed card.2 (decide (r2.1 > 1 / 2)), card.2)

/-- The objects the array `a` of the store refers to, in order. -/
def Store.cardsOf (st : Store) (a : Nat) : List (Option CardObj) :=
  (st.array a).map fun ref => st.objs[ref]?

/-- The store `st` keeps everything of `base`: the objects and arrays of `base` are, at
the same references and unchanged, the first objects and arrays of `st`. -/
def Store.Keeps (base st : Store) : Prop :=
  base.objs <+: st.objs ∧ base.arrs <+: st.arrs

/-- A sample store: the sample catalog as 78 objects without `isReversed` and the array
`allCards` at reference 0. -/
def sampleStore : Store :=
  ⟨(allCards sampleDeck).map fun c => ⟨some c, none⟩, [List.range 78]⟩

/-! ## The persona section of `SOUL.md` (`src/bin/cli.js`, lines 463-482) -/

/-- The test `text.includes(needle)` on characters. -/
def includesChars (needle : List Char) : List Char → Bool
  | [] => needle.isPrefixOf []
  | c :: cs => needle.isPrefixOf (c :: cs) || includesChars needle cs

/-- The header the expression looks for, with the line break before it: `\n## ClavTarot`. -/
def sectionHeader : List Char := "\n## ClavTarot".data

/-- The lookahead `(?=\n## |\n# |$)` at the text that remains: a header of the same or a
higher level starts here, or the document ends here. -/
def atSectionEnd (s : List Char) : Bool :=
  "\n## ".data.isPrefixOf s || "\n# ".data.isPrefixOf s || s.isEmpty

/-- The lazy part `[\s\S]*?` followed by the lookahead: characters are consumed up to the
first place where the lookahead holds; what remains is returned. -/
def skipSection : List Char → List Char
  | [] => []
  | c :: cs => if atSectionEnd (c :: cs) then c :: cs else skipSection cs

/-- The call `currentSoul.replace(/\n## ClavTarot[\s\S]*?(?=\n## |\n# |$)/, "")`: the first
match, if any, is removed. -/
def removeSection : List Char → List Char
  | [] => []
  | c :: cs =>
    if sectionHeader.isPrefixOf (c :: cs) then skipSection ((c :: cs).drop 13)
    else c :: removeSection cs

/-- The content of `SOUL.md` after `injectPersona`, from its content `currentSoul` once the
file exists, the persona text and the line answered to `Update persona section? (y/N)`:
with `ClavTarot` in the document the update runs only on the answer `y` (any case), first
removing the section; the text `"\n" + personaText.trim() + "\n"` is then appended. -/
def injectPersona (currentSoul personaText answer : String) : String :=
  if includesChars "ClavTarot".data currentSoul.data then
    if jsTrim answer = "y" ∨ jsTrim answer = "Y" then
      String.mk (removeSection currentSoul.data ++ '\n' :: trimChars personaText.data ++ ['\n'])
    else currentSoul
  else String.mk (currentSoul.data ++ '\n' :: trimChars personaText.data ++ ['\n'])

/-- No match of the header starts inside `before` when `rest` follows it. -/
def noHeaderInside : List Char → List Char → Bool
  | [], _ => true
  | c :: cs, rest => !sectionHeader.isPrefixOf (c :: cs ++ rest) && noHeaderInside cs rest

/-- No header of the same or a higher level starts inside `body` when `after` follows it. -/
def noEndInside : List Char → List Char → Bool
  | [], _ => true
  | c :: cs, after => !atSectionEnd (c :: cs ++ after) && noEndInside cs after

/-- A persona document: a title, the ClavTarot section with a subsection, another section. -/
def sampleSoulBefore : List Char := "# Agent Soul\n".data

/-- The body of the ClavTarot section of the sample document, after its header. -/
def sampleSoulBody : List Char := " — Mystical Tarot Reader\nold text\n### Reading Style\nmore\n".data

/-- The part of the sample document after the ClavTarot section. -/
def sampleSoulAfter : List Char := "\n## Other\nkeep\n".data

/-! ## The generator as a sequence (test-local.js, lines 68-74) -/

/-- The variable `s` of the closure after `k` calls of `Rng.call`: `s_0 = seed` and
`s_k = (s_(k-1) * 16807) % 2147483647`, with the JavaScript remainder and the exact
product (the code's product for a seed up to 535919512985 in size). -/
def lehmerState (seed : Int) : Nat → Int
  | 0 => seed
  | k + 1 => Int.tmod (lehmerState seed k * 16807) 2147483647

/-- The same recurrence with the mathematical remainder, as the specification words it:
`s_k = (s_(k-1) * 16807) mod 2147483647`. -/
def lehmerSpec (seed : Int) : Nat → Int
  | 0 => seed
  | k + 1 => (lehmerSpec seed k * 16807) % 2147483647

/-- The generator after `k` calls. -/
def Rng.after (g : Rng) : Nat → Rng
  | 0 => g
  | k + 1 => (Rng.after g k).call.2

/-- The value the `k`-th call returns, for `k` from 1 on. -/
def Rng.output (g : Rng) (k : Nat) : ℚ := (g.after (k - 1)).call.1

/-! ## The generator on doubles (test-local.js, lines 68-74)

The variable `s` is a JavaScript number, a double.  `Rng.call` above multiplies exactly,
which is what the code computes as long as the product `s * 16807` is below `2^53` in size:
that holds for every date seed and at every state after the first call.  The definitions
below round the product as the double multiplication does and so follow the code on the
seeds beyond that as well. -/

/-- The number of low binary digits a double cannot keep of the natural number `n`: none
below `2^53`, one more for every further binary digit (`fuel` bounds the count). -/
def droppedBits : Nat → Nat → Nat
  | 0, _ => 0
  | fuel + 1, n => if n < 2 ^ 53 then 0 else droppedBits fuel (n / 2) + 1

/-- The double nearest to the integer `x`, which is what a product of two integer-valued
doubles evaluates to when `x` is the exact product: the 53 leading binary digits are kept
and the rest is rounded to nearest, a tie going to the even neighbour.  (For `x` below
`2^1024` in size; beyond that the double is `Infinity`.) -/
def roundToDouble (x : Int) : Int :=
  let n := x.natAbs
  let d := droppedBits 1024 n
  let q := n / 2 ^ d
  let r := n % 2 ^ d
  let up := decide (2 ^ d < 2 * r) || (decide (2 * r = 2 ^ d) && decide (q % 2 = 1))
  Int.sign x * (((if up then q + 1 else q) * 2 ^ d : Nat) : Int)

/-- One call of the closure on doubles: `s = (s * 16807) % 2147483647` with the product
rounded to a double before the remainder is taken (the remainder of two doubles is exact),
then `return (s - 1) / 2147483646`, the quotient kept as a rational as in `Rng.call`. -/
def Rng.callDouble (g : Rng) : ℚ × Rng :=
  let s := Int.tmod (roundToDouble (g.s * 16807)) 2147483647
  (((s : ℚ) - 1) / 2147483646, ⟨s⟩)

/-- The generator after `k` calls on doubles. -/
def Rng.afterDouble (g : Rng) : Nat → Rng
  | 0 => g
  | k + 1 => (Rng.afterDouble g k).callDouble.2

/-- The value the `k`-th call on doubles returns, for `k` from 1 on. -/
def Rng.outputDouble (g : Rng) (k : Nat) : ℚ := (g.afterDouble (k - 1)).callDouble.1

/-! ## The wrap of the meaning text (test-local.js, lines 142-155) -/

/-- The call `meaning.split(" ")` on characters: the pieces between single spaces, an empty
piece where two spaces meet or the text starts or ends with one. -/
def splitSpaces : List Char → List (List Char)
  | [] => [[]]
  | c :: cs =>
    if c = ' ' then [] :: splitSpaces cs
    else match splitSpaces cs with
      | w :: ws => (c :: w) :: ws
      | [] => [[c]]

/-- The loop `for (const word of words)` of `revealCard` with the current `line`, and the
final `if (line.trim())`: the lines printed, each trimmed.  Lengths count characters. -/
def wrapLoop : List (List Char) → List Char → List (List Char)
  | [], line => if trimChars line ≠ [] then [trimChars line] else []
  | word :: rest, line =>
    if (line ++ ' ' :: word).length > 62 then trimChars line :: wrapLoop rest word
    else wrapLoop rest (line ++ ' ' :: word)

/-- The lines `revealCard` prints for the text `meaning`. -/
def wrapMeaning (meaning : String) : List String :=
  (wrapLoop (splitSpaces meaning.data) []).map String.mk

/-- A meaning of three words of 60, 30 and 31 characters. -/
def longMeaning : String :=
  String.mk (List.replicate 60 'a' ++ ' ' :: List.replicate 30 'b' ++ ' ' :: List.replicate 31 'c')

/-! ## The daily fortune setup of the installer (`src/bin/cli.js`, lines 287-323) -/

/-- The value of a character as a digit, letters counting from ten. -/
def digitValue (c : Char) : Option Nat :=
  if 48 ≤ c.toNat ∧ c.toNat ≤ 57 then some (c.toNat - 48)
  else if 97 ≤ c.toNat ∧ c.toNat ≤ 122 then some (c.toNat - 87)
  else if 65 ≤ c.toNat ∧ c.toNat ≤ 90 then some (c.toNat - 55)
  else none

/-- The longest run of digits below `radix` at the start of the text. -/
def takeDigits (radix : Nat) : List Char → List Nat
  | [] => []
  | c :: cs =>
    match digitValue c with
    | some d => if d < radix then d :: takeDigits radix cs else []
    | none => []

/-- The function `parseInt(text)` with no radix: leading white space, a sign, a `0x`
prefix for radix 16, then the longest run of digits; `none` is `NaN`.  (Past `2^53` the
result is rounded in JavaScript; not here.) -/
def parseInt (text : String) : Option Int :=
  let cs := text.data.dropWhile isJsWhitespace
  let negative := cs.head? = some '-'
  let unsigned := if cs.head? = some '-' ∨ cs.head? = some '+' then cs.drop 1 else cs
  let hex := "0x".data.isPrefixOf unsigned || "0X".data.isPrefixOf unsigned
  let radix := if hex then 16 else 10
  let digits := takeDigits radix (if hex then unsigned.drop 2 else unsigned)
  if digits = [] then none
  else
    let value : Int := (digits.foldl (fun acc d => acc * radix + d) 0 : Nat)
    some (if negative then -value else value)

/-- The expression `parseInt(text) || fallback`: `NaN` and `0` are falsy. -/
def parseIntOr (text : String) (fallback : Int) : Int :=
  match parseInt text with
  | some n => if n = 0 then fallback else n
  | none => fallback

/-- The object `setupDailyFortune` returns. -/
structure FortuneSchedule where
  enabled : Bool
  cron : String
  channel : Option String
  hour : Int
  minute : Int
deriving DecidableEq

/-- The function `setupDailyFortune` over the lines answered to its four questions (each
trimmed by `ask`): `null` on the answer `n`, otherwise the schedule built from
`parseInt(hour) || 8` and `parseInt(minute) || 0`. -/
def setupDailyFortune (enableDaily hour minute channel : String) : Option FortuneSchedule :=
  if jsTrim enableDaily = "n" ∨ jsTrim enableDaily = "N" then none
  else
    let cronHour := parseIntOr (jsTrim hour) 8
    let cronMinute := parseIntOr (jsTrim minute) 0
    some
      { enabled := true
        cron := toString cronMinute ++ " " ++ toString cronHour ++ " * * *"
        channel := if jsTrim channel = "" then none else some (jsTrim channel)
        hour := cronHour
        minute := cronMinute }

/-- The non-empty pieces of a text split on spaces: its words, in order. -/
def wordsOf (cs : List Char) : List (List Char) :=
  (splitSpaces cs).filter fun w => !w.isEmpty

/-- The only white space in the text is the space: its words hold no tab, line break or
other character that `trim` strips. -/
def OnlySpaces (cs : List Char) : Prop :=
  ∀ c ∈ cs, isJsWhitespace c = true → c = ' '

/-! ## The configuration update of the installer (`src/bin/cli.js`, lines 386-431) -/

/-- The value of `skillConfig.skills.entries` for the API key `falKey`. -/
def entriesConfig (falKey : String) : Json :=
  .obj [("clavtarot", .obj [("enabled", .bool true), ("apiKey", .str falKey),
    ("env", .obj [("FAL_KEY", .str falKey)])])]

/-- The object literal `skillConfig` (lines 391-403), `SKILL_NAME` being `clavtarot`. -/
def skillConfig (falKey : String) : Json :=
  .obj [("skills", .obj [("entries", entriesConfig falKey)])]

/-- The value a property holds after `if (!x.key) x.key = fallback`: its own value when that
is truthy, the fallback otherwise. -/
def orDefault (v : Option Json) (fallback : Json) : Json :=
  match v with
  | some x => if x.truthy then x else fallback
  | none => fallback

/-- The comparison `item === dir` for a string `dir`. -/
def Json.isStr (j : Json) (s : String) : Bool :=
  match j with
  | .str t => decide (t = s)
  | _ => false

/-- Line 410-412 on the truthy value `dirs` of `extraDirs`: an array gets `dir` pushed
unless it includes it; a string answers `includes` as a substring test and has no `push`;
any other value has no `includes`. -/
def dirsStep (dirs : Json) (dir : String) : Except String Json :=
  match dirs with
  | .arr items =>
    if items.any fun x => x.isStr dir then .ok (.arr items) else .ok (.arr (items ++ [.str dir]))
  | .str text => if includesChars dir.data text.data then .ok (.str text) else .error "TypeError"
  | _ => .error "TypeError"

/-- Lines 409-412 on the truthy value `load` of `config.skills.load`.  On an array the
property `extraDirs` is set on the array itself, which `JSON.stringify` does not write;
on a string, number or boolean the assignment is ignored and `undefined.includes`
throws. -/
def loadStep (load : Json) (dir : String) : Except String Json :=
  match load with
  | .obj fields =>
    match dirsStep (orDefault (fields.lookup "extraDirs") (.arr [])) dir with
    | .ok dirs => .ok (.obj (setKey fields "extraDirs" dirs))
    | .error e => .error e
  | .arr items => .ok (.arr items)
  | _ => .error "TypeError"

/-- Lines 408-412 on the fields of `config.skills`: the block `// Ensure skills
directory`. -/
def ensureExtraDirs (skills : List (String × Json)) (dir : String) :
    Except String (List (String × Json)) :=
  match loadStep (orDefault (skills.lookup "load") (.obj [])) dir with
  | .ok load => .ok (setKey skills "load" load)
  | .error e => .error e

/-- The job object of lines 419-424 for the schedule returned by `setupDailyFortune`. -/
def fortuneJob (schedule : FortuneSchedule) : Json :=
  .obj [("schedule", .str schedule.cron),
    ("message", .str "Draw my daily tarot fortune card and share the reading"),
    ("channel", match schedule.channel with
      | some c => .str c
      | none => .null),
    ("enabled", .bool true)]

/-- Line 419 on the truthy value `jobs` of `config.cron.jobs`: an object gets the job; on
an array the job becomes a named property that is not written, and on a string, number or
boolean the assignment is ignored. -/
def jobsStep (jobs : Json) (job : Json) : Json :=
  match jobs with
  | .obj fields => .obj (setKey fields "clavtarot-daily-fortune" job)
  | other => other

/-- Lines 417-424 on the truthy value `cron` of `config.cron`; on a string, number or
boolean `cron.jobs` stays `undefined` and the assignment into it throws. -/
def cronStep (cron : Json) (job : Json) : Except String Json :=
  match cron with
  | .obj fields =>
    .ok (.obj (setKey fields "jobs" (jobsStep (orDefault (fields.lookup "jobs") (.obj [])) job)))
  | .arr items => .ok (.arr items)
  | _ => .error "TypeError"

/-- Lines 416-424 on the fields of `config`. -/
def ensureCronJob (config : List (String × Json)) (schedule : FortuneSchedule) :
    Except String (List (String × Json)) :=
  match cronStep (orDefault (config.lookup "cron") (.obj [])) (fortuneJob schedule) with
  | .ok cron => .ok (setKey config "cron" cron)
  | .error e => .error e

/-- The function `updateOpenClawConfig(falKey, dailyFortune)`: `existing` is what
`readJsonFile(OPENCLAW_CONFIG)` returns (`none` for `null`), `skillsDir` is
`OPENCLAW_SKILLS_DIR`; the result is the document handed to `writeJsonFile`, or the error
thrown before the write. -/
def updateOpenClawConfig (existing : Option Json) (falKey : String)
    (dailyFortune : Option FortuneSchedule) (skillsDir : String) : Except String Json :=
  match deepMerge (orEmpty existing) (skillConfig falKey) with
  | .obj config =>
    match config.lookup "skills" with
    | some (.obj skills) =>
      match ensureExtraDirs skills skillsDir with
      | .error e => .error e
      | .ok skills1 =>
        match dailyFortune with
        | some schedule =>
          if schedule.enabled then
            match ensureCronJob (setKey config "skills" (.obj skills1)) schedule with
            | .error e => .error e
            | .ok config1 => .ok (.obj config1)
          else .ok (.obj (setKey config "skills" (.obj skills1)))
        | none => .ok (.obj (setKey config "skills" (.obj skills1)))
    | _ => .error "TypeError"
  | _ => .error "TypeError"

/-- The value `config.skills.load` reads after the merge; the merge leaves it as the
existing configuration has it. -/
def existingLoad (existing : Option Json) : Option Json :=
  (ownProps (orEmpty ((ownProps (orEmpty existing)).lookup "skills"))).lookup "load"

/-- The items of `skills.load.extraDirs` in the existing configuration when `skills.load`
is missing, falsy or an object and `extraDirs` is missing, falsy or an array; `none` for
any other shape. -/
def existingDirs (existing : Option Json) : Option (List Json) :=
  match orDefault (existingLoad existing) (.obj []) with
  | .obj fields =>
    match orDefault (fields.lookup "extraDirs") (.arr []) with
    | .arr items => some items
    | _ => none
  | _ => none

/-- The existing `cron` is missing, falsy, an object or an array: the shapes on which
adding the job does not throw. -/
def cronShape (existing : Option Json) : Bool :=
  match orDefault ((ownProps (orEmpty existing)).lookup "cron") (.obj []) with
  | .obj _ => true
  | .arr _ => true
  | _ => false

/-- A configuration whose `extraDirs` is a string, not a list. -/
def stringDirsConfig : Json :=
  .obj [("skills", .obj [("load", .obj [("extraDirs", .str "elsewhere")])])]

/-- A daily-fortune setting as `setupDailyFortune` returns it. -/
def sampleSchedule : FortuneSchedule := ⟨true, "0 8 * * *", some "#general", 8, 0⟩

/-! ## Lemmas on the swap and the loop -/

theorem length_swapAt {α : Type} (a : List α) (i j : Nat) :
    (swapAt a i j).length = a.length := by
  unfold swapAt
  split <;> simp

theorem swapAt_eq {α : Type} (a : List α) (i j : Nat) (hi : i < a.length) (hj : j < a.length) :
    swapAt a i j = (a.set i a[j]).set j a[i] := by
  unfold swapAt
  rw [List.getElem?_eq_getElem hi, List.getElem?_eq_getElem hj]

theorem swapAt_perm {α : Type} (a : List α) (i j : Nat) : (swapAt a i j).Perm a := by
  classical
  by_cases hi : i < a.length
  · by_cases hj : j < a.length
    · rw [swapAt_eq a i j hi hj, List.perm_iff_count]
      intro x
      have hj2 : j < (a.set i a[j]).length := by simpa using hj
      rw [List.count_set _ _ _ _ hj2, List.count_set _ _ _ _ hi]
      have h1 : (a.set i a[j])[j] = a[j] := by
        rw [List.getElem_set]; split <;> rfl
      rw [h1]
      have h2 : (if a[i] == x then 1 else 0) ≤ a.count x := by
        split
        · rename_i h
          have : a[i] = x := by simpa using h
          have hm : x ∈ a := this ▸ List.getElem_mem hi
          exact List.count_pos_iff.mpr hm
        · omega
      omega
    · unfold swapAt
      rw [List.getElem?_eq_none (by omega : a.length ≤ j)]
      split
      · simp_all
      · exact List.Perm.refl _
  · unfold swapAt
    rw [List.getElem?_eq_none (by omega : a.length ≤ i)]

theorem getElem?_swapAt_of_ne {α : Type} (a : List α) (i j k : Nat) (hki : k ≠ i) (hkj : k ≠ j) :
    (swapAt a i j)[k]? = a[k]? := by
  unfold swapAt
  split
  · rw [List.getElem?_set, if_neg (Ne.symm hkj), List.getElem?_set, if_neg (Ne.symm hki)]
  · rfl

theorem getElem?_swapAt_left {α : Type} (a : List α) (i j : Nat) (hi : i < a.length)
    (hj : j < a.length) : (swapAt a i j)[i]? = a[j]? := by
  rw [swapAt_eq a i j hi hj, List.getElem?_set]
  by_cases h : j = i
  · subst h; simp [hj]
  · rw [if_neg h, List.getElem?_set, if_pos rfl, if_pos hi, List.getElem?_eq_getElem hj]

theorem length_shuffleLoop {α : Type} (c : Nat → Nat) (i : Nat) (a : List α) :
    (shuffleLoop c i a).length = a.length := by
  induction i generalizing a with
  | zero => rfl
  | succ i ih => rw [shuffleLoop, ih, length_swapAt]

theorem shuffleLoop_perm {α : Type} (c : Nat → Nat) (i : Nat) (a : List α) :
    (shuffleLoop c i a).Perm a := by
  induction i generalizing a with
  | zero => exact List.Perm.refl _
  | succ i ih => exact (ih _).trans (swapAt_perm a (i + 1) (c (i + 1)))

theorem shuffle_perm {α : Type} (rnd : Nat → ℚ) (arr : List α) : (shuffle rnd arr).Perm arr :=
  shuffleLoop_perm _ _ _

theorem shuffleLoop_frame {α : Type} (c : Nat → Nat) (i : Nat) (a : List α) (k : Nat)
    (hc : ∀ t, 1 ≤ t → t ≤ i → c t ≤ t) (hk : i < k) : (shuffleLoop c i a)[k]? = a[k]? := by
  induction i generalizing a with
  | zero => rfl
  | succ i ih =>
    rw [shuffleLoop, ih _ (fun t h1 h2 => hc t h1 (by omega)) (by omega)]
    have := hc (i + 1) (by omega) (by omega)
    exact getElem?_swapAt_of_ne a _ _ k (by omega) (by omega)

theorem shuffleLoop_top {α : Type} (c : Nat → Nat) (i : Nat) (a : List α)
    (hc : ∀ t, 1 ≤ t → t ≤ i + 1 → c t ≤ t) (hi : i + 1 < a.length) :
    (shuffleLoop c (i + 1) a)[i + 1]? = a[c (i + 1)]? := by
  have := hc (i + 1) (by omega) (by omega)
  rw [shuffleLoop, shuffleLoop_frame c i _ (i + 1) (fun t h1 h2 => hc t h1 (by omega)) (by omega)]
  exact getElem?_swapAt_left a _ _ hi (by omega)

theorem shuffleLoop_congr {α : Type} (c c' : Nat → Nat) (i : Nat) (a : List α)
    (h : ∀ t, 1 ≤ t → t ≤ i → c t = c' t) : shuffleLoop c i a = shuffleLoop c' i a := by
  induction i generalizing a with
  | zero => rfl
  | succ i ih =>
    rw [shuffleLoop, shuffleLoop, h (i + 1) (by omega) (by omega)]
    exact ih _ (fun t h1 h2 => h t h1 (by omega))

theorem shuffleLoop_injective {α : Type} (c c' : Nat → Nat) (i : Nat) (a : List α)
    (ha : a.Nodup) (hi : i < a.length) (hc : ∀ t, 1 ≤ t → t ≤ i → c t ≤ t)
    (hc' : ∀ t, 1 ≤ t → t ≤ i → c' t ≤ t) (h : shuffleLoop c i a = shuffleLoop c' i a) :
    ∀ t, 1 ≤ t → t ≤ i → c t = c' t := by
  induction i generalizing a with
  | zero => intro t h1 h2; omega
  | succ i ih =>
    have hb := hc (i + 1) (by omega) (by omega)
    have htop : a[c (i + 1)]? = a[c' (i + 1)]? := by
      rw [← shuffleLoop_top c i a hc hi, ← shuffleLoop_top c' i a hc' hi, h]
    have heq : c (i + 1) = c' (i + 1) := List.getElem?_inj (by omega) ha htop
    have hrest : shuffleLoop c i (swapAt a (i + 1) (c (i + 1)))
        = shuffleLoop c' i (swapAt a (i + 1) (c (i + 1))) := by
      have h' := h
      rw [shuffleLoop, shuffleLoop, ← heq] at h'
      exact h'
    have hnd : (swapAt a (i + 1) (c (i + 1))).Nodup :=
      (swapAt_perm a _ _).nodup_iff.mpr ha
    have hlen : i < (swapAt a (i + 1) (c (i + 1))).length := by
      rw [length_swapAt]; omega
    have IH := ih _ hnd hlen (fun t h1 h2 => hc t h1 (by omega))
      (fun t h1 h2 => hc' t h1 (by omega)) hrest
    intro t h1 h2
    by_cases ht : t = i + 1
    · rw [ht]; exact heq
    · exact IH t h1 (by omega)

theorem eq_of_perm_of_tail {α : Type} (a p : List α) (ha : a.Nodup) (hp : a.Perm p)
    (h : ∀ k, 0 < k → a[k]? = p[k]?) : a = p := by
  cases a with
  | nil => exact (List.nil_perm.mp hp).symm
  | cons x t =>
    cases p with
    | nil => exact absurd hp.length_eq (by simp)
    | cons y u =>
      have htu : t = u := by
        apply List.ext_getElem?
        intro k
        simpa using h (k + 1) (by omega)
      subst htu
      have hx : x ∈ y :: t := hp.mem_iff.mp (List.mem_cons_self x t)
      have hnx : x ∉ t := (List.nodup_cons.mp ha).1
      rcases List.mem_cons.mp hx with hxy | hxt
      · rw [hxy]
      · exact absurd hxt hnx

theorem shuffleLoop_surjective {α : Type} (i : Nat) (a p : List α) (ha : a.Nodup)
    (hp : a.Perm p) (hi : i < a.length) (h : ∀ k, i < k → a[k]? = p[k]?) :
    ∃ c : Nat → Nat, (∀ t, c t ≤ t) ∧ shuffleLoop c i a = p := by
  induction i generalizing a with
  | zero => exact ⟨fun _ => 0, fun t => Nat.zero_le t, eq_of_perm_of_tail a p ha hp h⟩
  | succ i ih =>
    have hlen : p.length = a.length := hp.length_eq.symm
    have hip : i + 1 < p.length := by omega
    have hpn : p.Nodup := hp.nodup_iff.mp ha
    have hmem : p[i + 1] ∈ a := hp.mem_iff.mpr (List.getElem_mem hip)
    obtain ⟨j, hj, hjy⟩ := List.getElem_of_mem hmem
    have hjle : j ≤ i + 1 := by
      by_contra hgt
      have h1 : a[j]? = p[j]? := h j (by omega)
      have h2 : p[j]? = p[i + 1]? := by
        rw [← h1, List.getElem?_eq_getElem hj, List.getElem?_eq_getElem hip, hjy]
      have := List.getElem?_inj (by omega) hpn h2
      omega
    have hperm := swapAt_perm a (i + 1) j
    have hframe : ∀ k, i < k → (swapAt a (i + 1) j)[k]? = p[k]? := by
      intro k hk
      by_cases hk1 : k = i + 1
      · rw [hk1, getElem?_swapAt_left a _ _ hi hj, List.getElem?_eq_getElem hj,
          List.getElem?_eq_getElem hip, hjy]
      · rw [getElem?_swapAt_of_ne a _ _ k hk1 (by omega)]
        exact h k (by omega)
    obtain ⟨c', hc', hrun⟩ := ih (swapAt a (i + 1) j) (hperm.nodup_iff.mpr ha)
      (hperm.trans hp) (by rw [length_swapAt]; omega) hframe
    refine ⟨fun t => if t = i + 1 then j else c' t, ?_, ?_⟩
    · intro t
      dsimp only
      split
      · omega
      · exact hc' t
    · rw [shuffleLoop]
      simp only [if_true]
      rw [← hrun]
      apply shuffleLoop_congr
      intro t h1 h2
      rw [if_neg (by omega)]

theorem randomIndex_le (r : ℚ) (i : Nat) (h1 : r < 1) : randomIndex r i ≤ i := by
  unfold randomIndex
  have hpos : (0 : ℚ) < (i : ℚ) + 1 := by positivity
  have hlt : r * ((i : ℚ) + 1) < ((i + 1 : Nat) : ℚ) := by
    have := mul_lt_mul_of_pos_right h1 hpos
    push_cast
    linarith
  have hfl : ⌊r * ((i : ℚ) + 1)⌋ < ((i + 1 : Nat) : Int) := by
    rw [Int.floor_lt]
    exact_mod_cast hlt
  omega

theorem randomIndex_div (j i : Nat) : randomIndex ((j : ℚ) / ((i : ℚ) + 1)) i = j := by
  unfold randomIndex
  have hpos : ((i : ℚ) + 1) ≠ 0 := by positivity
  rw [div_mul_cancel₀ _ hpos, Int.floor_natCast, Int.toNat_ofNat]

theorem shuffle_reaches {α : Type} (l p : List α) (hl : l.Nodup) (hp : p.Perm l) :
    ∃ rnd, RandomSource rnd ∧ shuffle rnd l = p := by
  by_cases hne : l.length = 0
  · have hnil : l = [] := List.length_eq_zero.mp hne
    subst hnil
    exact ⟨fun _ => 0, fun _ => ⟨le_refl _, by norm_num⟩, (List.perm_nil.mp hp).symm⟩
  · obtain ⟨c, hc, hrun⟩ := shuffleLoop_surjective (l.length - 1) l p hl hp.symm (by omega)
      (by
        intro k hk
        rw [List.getElem?_eq_none (by omega), List.getElem?_eq_none (by rw [hp.length_eq]; omega)])
    refine ⟨fun k => (c (l.length - 1 - k) : ℚ) / (((l.length - 1 - k : Nat) : ℚ) + 1), ?_, ?_⟩
    · intro k
      constructor
      · positivity
      · rw [div_lt_one (by positivity)]
        have := hc (l.length - 1 - k)
        have h2 : (c (l.length - 1 - k) : ℚ) ≤ ((l.length - 1 - k : Nat) : ℚ) := by
          exact_mod_cast this
        linarith
    · rw [← hrun]
      unfold shuffle shuffleBy
      apply shuffleLoop_congr
      intro t h1 h2
      have ht : l.length - 1 - (l.length - 1 - t) = t := by omega
      simp only [ht]
      exact randomIndex_div (c t) t

theorem sampleRnd_randomSource : RandomSource sampleRnd := by
  intro k
  unfold sampleRnd
  have h : k % 7 < 7 := Nat.mod_lt _ (by norm_num)
  have h2 : ((k % 7 : Nat) : ℚ) < 7 := by exact_mod_cast h
  constructor
  · positivity
  · rw [div_lt_one (by norm_num)]
    exact h2

theorem length_slice0 {α : Type} (a : List α) (n : Int) :
    (slice0 a n).length = if 0 ≤ n then min n.toNat a.length else a.length - (-n).toNat := by
  unfold slice0
  split
  · simp
  · simp

theorem drawCards_eq (cards : List Card) (rnd : Nat → ℚ) (n : Int) :
    ∃ drawn, drawCards cards rnd n = .ok drawn ∧
      drawn.map (fun d => d.card) = slice0 (shuffle rnd cards) n := by
  refine ⟨_, rfl, ?_⟩
  rw [List.map_map]
  have : ((fun d : DrawnCard => d.card) ∘ fun p : Nat × Card =>
      ({ card := p.2, isReversed := decide (rnd (cards.length - 1 + p.1) > 1 / 2) } : DrawnCard))
      = Prod.snd := rfl
  rw [this, List.enum_map_snd]

theorem slice0_sublist {α : Type} (a : List α) (n : Int) : (slice0 a n).Sublist a := by
  unfold slice0
  split <;> exact List.take_sublist _ _

theorem length_sampleCatalog : (allCards sampleDeck).length = 78 := by
  simp [allCards, sampleDeck, sampleCards]

theorem sampleCatalog_ids : (allCards sampleDeck).map Card.id = List.range 78 := by
  decide

/-- C1. For a 78-card catalog with pairwise-distinct ids, a random source with values in
`[0, 1)` and `1 ≤ n ≤ 78`, `drawCards(n)` returns (it does not fail) exactly `n` cards, no
two of them with the same id, each of them a catalog card; every swap index the shuffle
computed on the way lay in `[0, i]`. -/
theorem drawCards_distinct (cards : List Card) (rnd : Nat → ℚ) (n : Int)
    (hlen : cards.length = 78) (hid : (cards.map Card.id).Nodup)
    (hrnd : RandomSource rnd) (hn : 1 ≤ n ∧ n ≤ 78) :
    ∃ drawn, drawCards cards rnd n = .ok drawn ∧ (drawn.length : Int) = n ∧
      (drawn.map fun d => d.card.id).Nodup ∧ (∀ d ∈ drawn, d.card ∈ cards) ∧
      ValidChoices cards.length (fun i => randomIndex (rnd (cards.length - 1 - i)) i) := by
  obtain ⟨drawn, hok, hmap⟩ := drawCards_eq cards rnd n
  have hperm := shuffle_perm rnd cards
  have hsub := slice0_sublist (shuffle rnd cards) n
  refine ⟨drawn, hok, ?_, ?_, ?_, fun i _ _ => randomIndex_le _ i (hrnd _).2⟩
  · have h1 : drawn.length = (slice0 (shuffle rnd cards) n).length := by
      rw [← hmap, List.length_map]
    rw [h1, length_slice0, if_pos (by omega), hperm.length_eq, hlen]
    omega
  · have h2 : (drawn.map fun d => d.card.id) = (slice0 (shuffle rnd cards) n).map Card.id := by
      rw [← hmap, List.map_map]; rfl
    rw [h2]
    exact List.Nodup.sublist (hsub.map _) ((hperm.map Card.id).nodup_iff.mpr hid)
  · intro d hd
    have : d.card ∈ slice0 (shuffle rnd cards) n := by
      rw [← hmap]; exact List.mem_map_of_mem _ hd
    exact hperm.mem_iff.mp (hsub.subset this)

/-- Witness of C1: three cards drawn from the sample catalog. -/
theorem drawCards_distinct_witness :
    ∃ drawn, drawCards (allCards sampleDeck) sampleRnd 3 = .ok drawn ∧ (drawn.length : Int) = 3 ∧
      (drawn.map fun d => d.card.id).Nodup ∧ (∀ d ∈ drawn, d.card ∈ allCards sampleDeck) ∧
      ValidChoices (allCards sampleDeck).length
        (fun i => randomIndex (sampleRnd ((allCards sampleDeck).length - 1 - i)) i) :=
  drawCards_distinct (allCards sampleDeck) sampleRnd 3 length_sampleCatalog
    (by rw [sampleCatalog_ids]; exact List.nodup_range 78) sampleRnd_randomSource (by decide)

/-- C2. On a list of distinct elements, `shuffle` as a function of its swap choices (an
index `c i` in `[0, i]` for every loop index `i` from `m - 1` down to 1) yields a
permutation of the list, two choice sequences that yield the same list agree at every
loop index, and every permutation of the list is yielded by some choice sequence; the
choices read from a random source with values in `[0, 1)` form such a sequence, and every
permutation is the shuffle under some such source. -/
theorem shuffleBy_bijective {α : Type} (l : List α) (hl : l.Nodup) :
    (∀ c, ValidChoices l.length c → (shuffleBy c l).Perm l) ∧
    (∀ c c', ValidChoices l.length c → ValidChoices l.length c' →
      shuffleBy c l = shuffleBy c' l → ∀ i, 1 ≤ i → i < l.length → c i = c' i) ∧
    (∀ p : List α, p.Perm l → ∃ c, ValidChoices l.length c ∧ shuffleBy c l = p) ∧
    (∀ rnd, RandomSource rnd → ∃ c, ValidChoices l.length c ∧ shuffle rnd l = shuffleBy c l) ∧
    (∀ p : List α, p.Perm l → ∃ rnd, RandomSource rnd ∧ shuffle rnd l = p) := by
  refine ⟨fun c _ => shuffleLoop_perm c _ l, ?_, ?_, ?_, fun p hp => shuffle_reaches l p hl hp⟩
  · intro c c' hc hc' h i h1 h2
    exact shuffleLoop_injective c c' (l.length - 1) l hl (by omega)
      (fun t a b => hc t a (by omega)) (fun t a b => hc' t a (by omega)) h i h1 (by omega)
  · intro p hp
    by_cases hne : l.length = 0
    · have hnil : l = [] := List.length_eq_zero.mp hne
      subst hnil
      exact ⟨fun _ => 0, fun i _ _ => Nat.zero_le i, (List.perm_nil.mp hp).symm⟩
    · obtain ⟨c, hc, hrun⟩ := shuffleLoop_surjective (l.length - 1) l p hl hp.symm (by omega)
        (by
          intro k hk
          rw [List.getElem?_eq_none (by omega), List.getElem?_eq_none (by rw [hp.length_eq]; omega)])
      exact ⟨c, fun i _ _ => hc i, hrun⟩
  · intro rnd hrnd
    exact ⟨_, fun i _ _ => randomIndex_le _ i (hrnd _).2, rfl⟩

/-- Witness of C2: the shuffle of a three-element list. -/
theorem shuffleBy_bijective_witness :
    (∀ c, ValidChoices 3 c → (shuffleBy c [10, 20, 30]).Perm [10, 20, 30]) ∧
    (∀ c c', ValidChoices 3 c → ValidChoices 3 c' →
      shuffleBy c [10, 20, 30] = shuffleBy c' [10, 20, 30] → ∀ i, 1 ≤ i → i < 3 → c i = c' i) ∧
    (∀ p : List Nat, p.Perm [10, 20, 30] → ∃ c, ValidChoices 3 c ∧ shuffleBy c [10, 20, 30] = p) ∧
    (∀ rnd, RandomSource rnd →
      ∃ c, ValidChoices 3 c ∧ shuffle rnd [10, 20, 30] = shuffleBy c [10, 20, 30]) ∧
    (∀ p : List Nat, p.Perm [10, 20, 30] → ∃ rnd, RandomSource rnd ∧ shuffle rnd [10, 20, 30] = p) :=
  shuffleBy_bijective [10, 20, 30] (by decide)

theorem dailyFortune_eq (today : JsDate) (cards : List Card) :
    dailyFortune today cards =
      { cardIndex := ⌊(((Int.tmod (dateSeed today * 16807) 2147483647 : Int) : ℚ) - 1)
          / 2147483646 * (cards.length : ℚ)⌋,
        card := jsGet cards ⌊(((Int.tmod (dateSeed today * 16807) 2147483647 : Int) : ℚ) - 1)
          / 2147483646 * (cards.length : ℚ)⌋,
        isReversed := decide ((((Int.tmod (Int.tmod (dateSeed today * 16807) 2147483647 * 16807)
          2147483647 : Int) : ℚ) - 1) / 2147483646 > 1 / 2) } := rfl

/-- C3. Two dates with the same year, month and day give the same daily selection (index,
card and orientation) whatever their hour, minute, second and millisecond; the selector
takes no other input than the date and the catalog, the general random source included. -/
theorem dailyFortune_same_day (d1 d2 : JsDate) (cards : List Card)
    (hy : d1.fullYear = d2.fullYear) (hm : d1.month = d2.month) (hd : d1.date = d2.date) :
    dailyFortune d1 cards = dailyFortune d2 cards := by
  have hseed : dateSeed d1 = dateSeed d2 := by
    unfold dateSeed
    rw [hy, hm, hd]
  rw [dailyFortune_eq, dailyFortune_eq, hseed]

/-- Witness of C3: 15 March 2024 at 08:30 and at 23:59:59.999. -/
theorem dailyFortune_same_day_witness :
    dailyFortune ⟨2024, 2, 15, 8, 30, 0, 0⟩ (allCards sampleDeck)
      = dailyFortune ⟨2024, 2, 15, 23, 59, 59, 999⟩ (allCards sampleDeck) :=
  dailyFortune_same_day ⟨2024, 2, 15, 8, 30, 0, 0⟩ ⟨2024, 2, 15, 23, 59, 59, 999⟩
    (allCards sampleDeck) rfl rfl rfl

theorem dailyFortune_20240315 (h mi sec ms : Int) (cards : List Card) (hlen : cards.length = 78) :
    (dailyFortune ⟨2024, 2, 15, h, mi, sec, ms⟩ cards).cardIndex = 31 ∧
      (dailyFortune ⟨2024, 2, 15, h, mi, sec, ms⟩ cards).isReversed = false := by
  have h1 : Int.tmod (dateSeed ⟨2024, 2, 15, h, mi, sec, ms⟩ * 16807) 2147483647 = 876557979 := by
    show Int.tmod ((2024 * 10000 + (2 + 1) * 100 + 15) * 16807) 2147483647 = 876557979
    decide
  have h2 : Int.tmod (876557979 * 16807) 2147483647 = 572134633 := by decide
  rw [dailyFortune_eq, h1, h2, hlen]
  constructor
  · show ⌊_⌋ = (31 : Int)
    rw [Int.floor_eq_iff]
    norm_num
  · show decide _ = false
    rw [decide_eq_false_iff_not]
    norm_num

theorem dailyFortune_20240316 (h mi sec ms : Int) (cards : List Card) (hlen : cards.length = 78) :
    (dailyFortune ⟨2024, 2, 16, h, mi, sec, ms⟩ cards).cardIndex = 31 ∧
      (dailyFortune ⟨2024, 2, 16, h, mi, sec, ms⟩ cards).isReversed = false := by
  have h1 : Int.tmod (dateSeed ⟨2024, 2, 16, h, mi, sec, ms⟩ * 16807) 2147483647 = 876574786 := by
    show Int.tmod ((2024 * 10000 + (2 + 1) * 100 + 16) * 16807) 2147483647 = 876574786
    decide
  have h2 : Int.tmod (876574786 * 16807) 2147483647 = 854609882 := by decide
  rw [dailyFortune_eq, h1, h2, hlen]
  constructor
  · show ⌊_⌋ = (31 : Int)
    rw [Int.floor_eq_iff]
    norm_num
  · show decide _ = false
    rw [decide_eq_false_iff_not]
    norm_num

theorem dailyPick_ext (a b : DailyPick) (cards : List Card) (ha : a.card = jsGet cards a.cardIndex)
    (hb : b.card = jsGet cards b.cardIndex) (hi : a.cardIndex = b.cardIndex)
    (hr : a.isReversed = b.isReversed) : a = b := by
  cases a
  cases b
  simp_all

/-- C4 (the code at the failing input). Over the 78-card sample catalog the daily selection
for 2024-03-16 equals the one for 2024-03-15 in every field: both pick index 31, the same
card, upright. -/
theorem dailyFortune_march_15_16_equal :
    dailyFortune ⟨2024, 2, 16, 0, 0, 0, 0⟩ (allCards sampleDeck)
        = dailyFortune ⟨2024, 2, 15, 0, 0, 0, 0⟩ (allCards sampleDeck) ∧
      (dailyFortune ⟨2024, 2, 15, 0, 0, 0, 0⟩ (allCards sampleDeck)).cardIndex = 31 ∧
      (dailyFortune ⟨2024, 2, 15, 0, 0, 0, 0⟩ (allCards sampleDeck)).isReversed = false ∧
      (dailyFortune ⟨2024, 2, 16, 0, 0, 0, 0⟩ (allCards sampleDeck)).cardIndex = 31 ∧
      (dailyFortune ⟨2024, 2, 16, 0, 0, 0, 0⟩ (allCards sampleDeck)).isReversed = false := by
  have h15 := dailyFortune_20240315 0 0 0 0 (allCards sampleDeck) length_sampleCatalog
  have h16 := dailyFortune_20240316 0 0 0 0 (allCards sampleDeck) length_sampleCatalog
  refine ⟨?_, h15.1, h15.2, h16.1, h16.2⟩
  exact dailyPick_ext _ _ (allCards sampleDeck) rfl rfl (h16.1.trans h15.1.symm)
    (h16.2.trans h15.2.symm)

/-- C5. Over calendar dates (year from 0 on, month 1-12, day 1-31) the date seed
`year*10000 + month*100 + day` is collision-free and order-preserving: two dates that
differ in year, month or day have different seeds, and an earlier date has a strictly
smaller seed. -/
theorem dateSeed_injective_monotone (d1 d2 : JsDate) (h1 : CalendarDate d1)
    (h2 : CalendarDate d2) :
    ((d1.fullYear ≠ d2.fullYear ∨ d1.month ≠ d2.month ∨ d1.date ≠ d2.date) →
      dateSeed d1 ≠ dateSeed d2) ∧
    (Earlier d1 d2 → dateSeed d1 < dateSeed d2) := by
  unfold CalendarDate at h1 h2
  unfold dateSeed Earlier
  constructor
  · intro h
    omega
  · intro h
    omega

/-- Witness of C5: 31 December 2023 and 1 January 2024. -/
theorem dateSeed_injective_monotone_witness :
    ((((⟨2023, 11, 31, 0, 0, 0, 0⟩ : JsDate).fullYear ≠ (⟨2024, 0, 1, 0, 0, 0, 0⟩ : JsDate).fullYear
        ∨ (⟨2023, 11, 31, 0, 0, 0, 0⟩ : JsDate).month ≠ (⟨2024, 0, 1, 0, 0, 0, 0⟩ : JsDate).month
        ∨ (⟨2023, 11, 31, 0, 0, 0, 0⟩ : JsDate).date ≠ (⟨2024, 0, 1, 0, 0, 0, 0⟩ : JsDate).date) →
      dateSeed ⟨2023, 11, 31, 0, 0, 0, 0⟩ ≠ dateSeed ⟨2024, 0, 1, 0, 0, 0, 0⟩) ∧
    (Earlier ⟨2023, 11, 31, 0, 0, 0, 0⟩ ⟨2024, 0, 1, 0, 0, 0, 0⟩ →
      dateSeed ⟨2023, 11, 31, 0, 0, 0, 0⟩ < dateSeed ⟨2024, 0, 1, 0, 0, 0, 0⟩)) ∧
    Earlier ⟨2023, 11, 31, 0, 0, 0, 0⟩ ⟨2024, 0, 1, 0, 0, 0, 0⟩ :=
  ⟨dateSeed_injective_monotone ⟨2023, 11, 31, 0, 0, 0, 0⟩ ⟨2024, 0, 1, 0, 0, 0, 0⟩
    (by unfold CalendarDate; decide) (by unfold CalendarDate; decide),
    by unfold Earlier; decide⟩

theorem seededStep_range (seed : Int) (h0 : 0 < seed) (h1 : seed < 2147483647) :
    1 ≤ Int.tmod (seed * 16807) 2147483647 ∧ Int.tmod (seed * 16807) 2147483647 ≤ 2147483646 := by
  rw [Int.tmod_eq_emod (by positivity) (by norm_num)]
  have hne : (seed * 16807) % 2147483647 ≠ 0 := by
    intro h
    have hd : (2147483647 : Int) ∣ seed * 16807 := Int.dvd_of_emod_eq_zero h
    have hc : IsCoprime (2147483647 : Int) 16807 := by
      rw [Int.isCoprime_iff_gcd_eq_one]
      decide
    have := Int.le_of_dvd h0 (hc.dvd_of_dvd_mul_right hd)
    omega
  omega

theorem dailyFortune_hit (d : JsDate) (cards : List Card) (hlen : cards.length = 78)
    (hy : 1 ≤ d.fullYear ∧ d.fullYear ≤ 9999) (hm : 0 ≤ d.month ∧ d.month ≤ 11)
    (hd : 1 ≤ d.date ∧ d.date ≤ 31) :
    0 ≤ (dailyFortune d cards).cardIndex ∧ (dailyFortune d cards).cardIndex < 78 ∧
      ∃ c, (dailyFortune d cards).card = some c ∧ c ∈ cards := by
  have hs0 : 0 < dateSeed d := by unfold dateSeed; omega
  have hs1 : dateSeed d < 2147483647 := by unfold dateSeed; omega
  obtain ⟨hlo, hhi⟩ := seededStep_range (dateSeed d) hs0 hs1
  rw [dailyFortune_eq]
  generalize Int.tmod (dateSeed d * 16807) 2147483647 = s at hlo hhi
  have hlo' : (1 : ℚ) ≤ (s : ℚ) := by exact_mod_cast hlo
  have hhi' : (s : ℚ) ≤ 2147483646 := by exact_mod_cast hhi
  have hnn : (0 : ℚ) ≤ ((s : ℚ) - 1) / 2147483646 * ((cards.length : Nat) : ℚ) := by
    apply mul_nonneg
    · apply div_nonneg
      · linarith
      · norm_num
    · positivity
  have hlt : ((s : ℚ) - 1) / 2147483646 * ((cards.length : Nat) : ℚ) < ((78 : Int) : ℚ) := by
    rw [hlen]
    have : ((s : ℚ) - 1) / 2147483646 < 1 := by
      rw [div_lt_one (by norm_num)]
      linarith
    push_cast
    linarith
  have h0 : 0 ≤ ⌊((s : ℚ) - 1) / 2147483646 * ((cards.length : Nat) : ℚ)⌋ := Int.floor_nonneg.mpr hnn
  have h78 : ⌊((s : ℚ) - 1) / 2147483646 * ((cards.length : Nat) : ℚ)⌋ < 78 := Int.floor_lt.mpr hlt
  refine ⟨h0, h78, ?_⟩
  dsimp only
  unfold jsGet
  rw [if_pos h0]
  have hb : (⌊((s : ℚ) - 1) / 2147483646 * ((cards.length : Nat) : ℚ)⌋).toNat < cards.length := by
    omega
  exact ⟨cards[_], List.getElem?_eq_getElem hb, List.getElem_mem hb⟩

/-- C6. For every date with `1 ≤ year ≤ 9999`, month 1-12 (index 0-11) and day 1-31, over
a 78-card catalog the index `floor(r * 78)` computed by the daily selector lies in
`[0, 78)` and the read `allCards[index]` finds a catalog card. -/
theorem dailyFortune_index_in_range (d : JsDate) (cards : List Card) (hlen : cards.length = 78)
    (hy : 1 ≤ d.fullYear ∧ d.fullYear ≤ 9999) (hm : 0 ≤ d.month ∧ d.month ≤ 11)
    (hd : 1 ≤ d.date ∧ d.date ≤ 31) :
    0 ≤ (dailyFortune d cards).cardIndex ∧ (dailyFortune d cards).cardIndex < 78 ∧
      ∃ c, (dailyFortune d cards).card = some c ∧ c ∈ cards :=
  dailyFortune_hit d cards hlen hy hm hd

/-- Witness of C6: 29 February 2024 over the sample catalog. -/
theorem dailyFortune_index_in_range_witness :
    0 ≤ (dailyFortune ⟨2024, 1, 29, 12, 0, 0, 0⟩ (allCards sampleDeck)).cardIndex ∧
      (dailyFortune ⟨2024, 1, 29, 12, 0, 0, 0⟩ (allCards sampleDeck)).cardIndex < 78 ∧
      ∃ c, (dailyFortune ⟨2024, 1, 29, 12, 0, 0, 0⟩ (allCards sampleDeck)).card = some c ∧
        c ∈ allCards sampleDeck :=
  dailyFortune_index_in_range ⟨2024, 1, 29, 12, 0, 0, 0⟩ (allCards sampleDeck)
    length_sampleCatalog (by decide) (by decide) (by decide)

theorem length_drawCards (cards : List Card) (rnd : Nat → ℚ) (n : Int) :
    ∃ drawn, drawCards cards rnd n = .ok drawn ∧
      drawn.length = if 0 ≤ n then min n.toNat cards.length else cards.length - (-n).toNat := by
  obtain ⟨drawn, hok, hmap⟩ := drawCards_eq cards rnd n
  refine ⟨drawn, hok, ?_⟩
  have h1 : drawn.length = (slice0 (shuffle rnd cards) n).length := by
    rw [← hmap, List.length_map]
  rw [h1, length_slice0, (shuffle_perm rnd cards).length_eq]

/-- C7 as stated fails: over the 78-card sample catalog `drawCards(0)` and `drawCards(79)`
return normally, with no card and with 78 cards, although `0 < 1` and `79 > 78`. -/
theorem drawCards_out_of_range_returns :
    (∃ drawn, drawCards (allCards sampleDeck) sampleRnd 0 = .ok drawn ∧ drawn.length = 0) ∧
    (∃ drawn, drawCards (allCards sampleDeck) sampleRnd 79 = .ok drawn ∧ drawn.length = 78) := by
  constructor
  · obtain ⟨drawn, hok, hl⟩ := length_drawCards (allCards sampleDeck) sampleRnd 0
    exact ⟨drawn, hok, by rw [hl]; simp⟩
  · obtain ⟨drawn, hok, hl⟩ := length_drawCards (allCards sampleDeck) sampleRnd 79
    exact ⟨drawn, hok, by rw [hl, length_sampleCatalog]; decide⟩

/-- C7 amended. `drawCards(n)` never fails: it returns `min(n, len)` cards for `n ≥ 0` and
`max(len + n, 0)` cards for `n < 0`, so it returns exactly `n` cards if and only if
`0 ≤ n ≤ len`. -/
theorem drawCards_total (cards : List Card) (rnd : Nat → ℚ) (n : Int) :
    ∃ drawn, drawCards cards rnd n = .ok drawn ∧
      (drawn.length = if 0 ≤ n then min n.toNat cards.length else cards.length - (-n).toNat) ∧
      ((drawn.length : Int) = n ↔ 0 ≤ n ∧ n ≤ cards.length) := by
  obtain ⟨drawn, hok, hl⟩ := length_drawCards cards rnd n
  refine ⟨drawn, hok, hl, ?_⟩
  rw [hl]
  split <;> omega

theorem getElem?_revealAll (drawn : List DrawnCard) (positions : List String) (delayMs i : Nat) :
    (revealAll drawn positions delayMs)[i]?
      = drawn[i]?.map fun c => revealCard c positions[i]? delayMs := by
  unfold revealAll
  rw [List.getElem?_map, List.getElem?_enum]
  cases drawn[i]? <;> rfl

theorem length_revealAll (drawn : List DrawnCard) (positions : List String) (delayMs : Nat) :
    (revealAll drawn positions delayMs).length = drawn.length := by
  unfold revealAll
  rw [List.length_map, List.enum_length]

theorem revealCard_label (c : DrawnCard) (p : String) (delayMs : Nat) (hp : p ≠ "") :
    revealCard c (some p) delayMs = ⟨c, some p, delayMs⟩ := by
  unfold revealCard
  simp only [if_neg hp]

theorem revealsAligned_of_loop (cards : List Card) (rnd : Nat → ℚ) (n : Nat) (labels : List String)
    (delayMs : Nat) (run : Except String (List Reveal))
    (hrun : run = match drawCards cards rnd n with
      | .error e => .error e
      | .ok drawn => .ok (revealAll drawn labels delayMs))
    (hn : n ≤ cards.length) (hl : labels.length = n) (hne : ∀ l ∈ labels, l ≠ "") :
    RevealsAligned run (drawCards cards rnd n) n labels delayMs := by
  obtain ⟨drawn, hok, hlen⟩ := length_drawCards cards rnd n
  have hdl : drawn.length = n := by
    rw [hlen, if_pos (by omega)]
    simp only [Int.toNat_ofNat]
    omega
  rw [hok] at hrun
  refine ⟨drawn, revealAll drawn labels delayMs, hok, hrun, hdl, hl, ?_, ?_⟩
  · rw [length_revealAll, hdl]
  · intro i c hc
    have hi : i < drawn.length := by
      by_contra hge
      rw [List.getElem?_eq_none (by omega)] at hc
      exact absurd hc (by simp)
    have hil : i < labels.length := by omega
    refine ⟨labels[i], List.getElem?_eq_getElem hil, ?_⟩
    rw [getElem?_revealAll, hc, List.getElem?_eq_getElem hil]
    show some (revealCard c (some labels[i]) delayMs) = _
    rw [revealCard_label c _ delayMs (hne _ (List.getElem_mem hil))]

theorem singleCard_eq (cards : List Card) (rnd : Nat → ℚ) (h : 1 ≤ cards.length) :
    ∃ card, drawCards cards rnd 1 = .ok [card] ∧
      singleCard cards rnd = .ok [Reveal.mk card none 600] := by
  obtain ⟨drawn, hok, hlen⟩ := length_drawCards cards rnd 1
  have hdl : drawn.length = 1 := by
    rw [hlen, if_pos (by omega)]
    simp only [Int.toNat_one]
    omega
  obtain ⟨card, hcard⟩ := List.length_eq_one.mp hdl
  subst hcard
  refine ⟨card, hok, ?_⟩
  unfold singleCard
  rw [hok]
  rfl

/-- C8 as stated fails for the single spread: over the sample catalog `singleCard` reveals
its one card with no position label, while the table gives `single` the position
`The Message`. -/
theorem singleCard_reveals_without_label :
    (∃ r, singleCard (allCards sampleDeck) sampleRnd = .ok [r] ∧ r.position = none) ∧
      spreadTable.lookup "single" = some (1, ["The Message"]) := by
  obtain ⟨card, _, hrun⟩ := singleCard_eq (allCards sampleDeck) sampleRnd
    (by rw [length_sampleCatalog]; omega)
  exact ⟨⟨_, hrun, rfl⟩, by decide⟩

/-- C8 amended. Over a catalog of at least ten cards (the 78-card catalog is one), each of
the spreads three, love, career and celtic draws the table's count of cards (3, 5, 4, 10),
carries that many position labels and reveals the `i`-th card under the `i`-th label, and
the labels name the table's positions in the table's order (celtic's fifth label names
`Crown`, which the table glosses as `Crown(Best Outcome)`); the single spread draws the
table's one card and reveals it with no position label. -/
theorem spreads_aligned (cards : List Card) (rnd : Nat → ℚ) (hlen : 10 ≤ cards.length) :
    RevealsAligned (threeCardSpread cards rnd) (drawCards cards rnd 3) 3 threePositions 800 ∧
    RevealsAligned (loveSpread cards rnd) (drawCards cards rnd 5) 5 lovePositions 800 ∧
    RevealsAligned (careerSpread cards rnd) (drawCards cards rnd 4) 4 careerPositions 800 ∧
    RevealsAligned (celticCross cards rnd) (drawCards cards rnd 10) 10 celticPositions 600 ∧
    (∃ card, drawCards cards rnd 1 = .ok [card] ∧
      singleCard cards rnd = .ok [Reveal.mk card none 600]) ∧
    (spreadTable.lookup "single").map (fun e => e.1) = some 1 ∧
    (spreadTable.lookup "three").map (fun e => (e.1, e.2.map positionName))
      = some (3, threePositions.map labelName) ∧
    (spreadTable.lookup "love").map (fun e => (e.1, e.2.map positionName))
      = some (5, lovePositions.map labelName) ∧
    (spreadTable.lookup "career").map (fun e => (e.1, e.2.map positionName))
      = some (4, careerPositions.map labelName) ∧
    (spreadTable.lookup "celtic").map (fun e => (e.1, e.2.map positionName))
      = some (10, celticPositions.map labelName) := by
  refine ⟨?_, ?_, ?_, ?_, singleCard_eq cards rnd (by omega), by decide, by decide, by decide,
    by decide, by decide⟩
  · exact revealsAligned_of_loop cards rnd 3 threePositions 800 _ rfl (by omega) rfl (by decide)
  · exact revealsAligned_of_loop cards rnd 5 lovePositions 800 _ rfl (by omega) rfl (by decide)
  · exact revealsAligned_of_loop cards rnd 4 careerPositions 800 _ rfl (by omega) rfl (by decide)
  · exact revealsAligned_of_loop cards rnd 10 celticPositions 600 _ rfl (by omega) rfl (by decide)

/-- Witness of C8 amended: the five spreads over the sample catalog. -/
theorem spreads_aligned_witness :
    RevealsAligned (threeCardSpread (allCards sampleDeck) sampleRnd)
      (drawCards (allCards sampleDeck) sampleRnd 3) 3 threePositions 800 ∧
    RevealsAligned (celticCross (allCards sampleDeck) sampleRnd)
      (drawCards (allCards sampleDeck) sampleRnd 10) 10 celticPositions 600 :=
  have h := spreads_aligned (allCards sampleDeck) sampleRnd (by rw [length_sampleCatalog]; omega)
  ⟨h.1, h.2.2.2.1⟩

theorem dispatch_unrecognized (command : String) (h : command ∉ recognizedCommands) :
    dispatch (some command) = .ok Action.mainMenu := by
  simp only [recognizedCommands, List.mem_cons, List.mem_singleton, List.not_mem_nil, or_false,
    not_or] at h
  obtain ⟨h1, h2, h3, h4, h5, h6, h7, h8, h9, h10, h11, h12⟩ := h
  simp [dispatch, h1, h2, h3, h4, h5, h6, h7, h8, h9, h10, h11, h12]

/-- C9 as stated fails: the identifier `not-a-real-id` raises no error; the dispatch returns
normally and starts the interactive menu, an action other than a spread. -/
theorem dispatch_unknown_starts_menu :
    dispatch (some "not-a-real-id") = .ok Action.mainMenu :=
  dispatch_unrecognized "not-a-real-id" (by decide)

/-- C9 amended. For an identifier that is none of the recognized commands the dispatch
raises no error, draws no card and starts none of the five spreads, the daily selector,
the deck view or the guide. -/
theorem dispatch_unrecognized_draws_nothing (command : String)
    (h : command ∉ recognizedCommands) :
    ∃ a, dispatch (some command) = .ok a ∧ a.drawSize = none ∧ a ≠ Action.dailyFortune ∧
      a ≠ Action.showDeck ∧ a ≠ Action.showHowToPlay :=
  ⟨Action.mainMenu, dispatch_unrecognized command h, rfl, by decide, by decide, by decide⟩

/-- Witness of C9 amended: the identifier `not-a-real-id`. -/
theorem dispatch_unrecognized_draws_nothing_witness :
    ∃ a, dispatch (some "not-a-real-id") = .ok a ∧ a.drawSize = none ∧
      a ≠ Action.dailyFortune ∧ a ≠ Action.showDeck ∧ a ≠ Action.showHowToPlay :=
  dispatch_unrecognized_draws_nothing "not-a-real-id" (by decide)

/-- C10 as stated fails: a deck document of 77 cards and one of 78 cards with a repeated
id both load without error. -/
theorem loadCatalog_accepts_malformed :
    (∃ cards, loadCatalog shortDeck = .ok cards ∧ cards.length = 77) ∧
    (∃ cards, loadCatalog duplicateDeck = .ok cards ∧ cards.length = 78 ∧
      ¬ (cards.map Card.id).Nodup) :=
  ⟨⟨_, rfl, by decide⟩, ⟨_, rfl, by decide, by decide⟩⟩

/-- C10 amended. Building the catalog from a deck document that holds the five card lists
never fails and makes no check of count or ids: the catalog is the major arcana followed
by the wands, cups, swords and pentacles cards, in that order, as many as the lists hold. -/
theorem loadCatalog_total (deck : Deck) :
    loadCatalog deck = .ok (deck.majorArcana ++ deck.wands ++ deck.cups ++ deck.swords
      ++ deck.pentacles) ∧
    (allCards deck).length = deck.majorArcana.length + deck.wands.length + deck.cups.length
      + deck.swords.length + deck.pentacles.length := by
  refine ⟨rfl, ?_⟩
  simp only [allCards, List.length_append]

theorem spread_returns (cards : List Card) (rnd : Nat → ℚ) :
    (∃ rs, threeCardSpread cards rnd = .ok rs) ∧ (∃ rs, loveSpread cards rnd = .ok rs) ∧
    (∃ rs, careerSpread cards rnd = .ok rs) ∧ (∃ rs, celticCross cards rnd = .ok rs) :=
  ⟨⟨_, rfl⟩, ⟨_, rfl⟩, ⟨_, rfl⟩, ⟨_, rfl⟩⟩

theorem runSpread_ok (run : List Card → (Nat → ℚ) → Except String (List Reveal)) (env : MenuEnv)
    (calls : Nat) (n : Int) (h : ∃ rs, run env.cards (fun k => env.rnd (calls + k)) = .ok rs) :
    ∃ ev calls', runSpread run env calls n = .ok (ev, calls') ∧ ev ≠ MenuEvent.farewell := by
  obtain ⟨rs, hrs⟩ := h
  refine ⟨MenuEvent.reveals rs, calls + randomCalls env.cards n, ?_, by simp⟩
  unfold runSpread
  rw [hrs]

theorem dailyReveal_ok (d : JsDate) (cards : List Card)
    (h : ∃ c, (dailyFortune d cards).card = some c) : ∃ r, dailyReveal d cards = .ok r := by
  obtain ⟨c, hc⟩ := h
  unfold dailyReveal
  rw [hc]
  exact ⟨_, rfl⟩

theorem menuChoice_exit (env : MenuEnv) (round calls : Nat) (choice : String)
    (h : choice ∈ exitWords) : menuChoice env round calls choice = .ok (MenuEvent.farewell, calls) := by
  simp only [exitWords, List.mem_cons, List.mem_singleton, List.not_mem_nil, or_false] at h
  rcases h with h | h | h | h <;> subst h <;> simp [menuChoice]

theorem menuChoice_unrecognized (env : MenuEnv) (round calls : Nat) (choice : String)
    (hx : choice ∉ exitWords) (hn : choice ∉ menuNumbers) :
    menuChoice env round calls choice = .ok (MenuEvent.unrecognized, calls) := by
  simp only [exitWords, menuNumbers, List.mem_cons, List.mem_singleton, List.not_mem_nil,
    or_false, not_or] at hx hn
  obtain ⟨x1, x2, x3, x4⟩ := hx
  obtain ⟨n1, n2, n3, n4, n5, n6, n7, n8⟩ := hn
  simp [menuChoice, x1, x2, x3, x4, n1, n2, n3, n4, n5, n6, n7, n8]

theorem majorEntries_ok (cards : List Card) (h : ∀ card ∈ cards, card.numeral ≠ none) :
    ∃ entries, majorEntries cards = .ok entries ∧ entries.length = cards.length := by
  induction cards with
  | nil => exact ⟨[], rfl, rfl⟩
  | cons card rest ih =>
    obtain ⟨entries, he, hl⟩ := ih fun c hc => h c (List.mem_cons_of_mem _ hc)
    cases hn : card.numeral with
    | none => exact absurd hn (h card (List.mem_cons_self _ _))
    | some numeral =>
      refine ⟨⟨padEnd numeral 4, card.name, ", ".intercalate card.upright.keywords,
        ", ".intercalate card.reversed.keywords⟩ :: entries, ?_,
        by rw [List.length_cons, List.length_cons, hl]⟩
      simp only [majorEntries, majorEntry, hn, he]

theorem showDeck_ok (deck : Deck) (h : ∀ card ∈ deck.majorArcana, card.numeral ≠ none) :
    ∃ listing, showDeck deck = .ok listing ∧ listing.major.length = deck.majorArcana.length ∧
      listing.total = (allCards deck).length := by
  obtain ⟨entries, he, hl⟩ := majorEntries_ok deck.majorArcana h
  refine ⟨⟨entries, [("wands", deck.wands.map minorEntry), ("cups", deck.cups.map minorEntry),
      ("swords", deck.swords.map minorEntry), ("pentacles", deck.pentacles.map minorEntry)],
    (allCards deck).length, deck.majorArcana.length,
    (allCards deck).length - deck.majorArcana.length⟩, ?_, hl, rfl⟩
  simp only [showDeck, he]

theorem menuChoice_continue (env : MenuEnv) (henv : env.WellFormed) (round calls : Nat)
    (choice : String) (hx : choice ∉ exitWords) :
    ∃ ev calls', menuChoice env round calls choice = .ok (ev, calls') ∧
      ev ≠ MenuEvent.farewell := by
  have hsp := spread_returns env.cards (fun k => env.rnd (calls + k))
  by_cases hn : choice ∈ menuNumbers
  · simp only [menuNumbers, List.mem_cons, List.mem_singleton, List.not_mem_nil, or_false] at hn
    rcases hn with h | h | h | h | h | h | h | h <;> subst h
    · simp only [menuChoice, if_true]
      obtain ⟨card, _, hrun⟩ := singleCard_eq env.cards (fun k => env.rnd (calls + k))
        (by rw [henv.1]; omega)
      exact runSpread_ok singleCard env calls 1 ⟨_, hrun⟩
    · simp only [menuChoice]
      exact runSpread_ok threeCardSpread env calls 3 hsp.1
    · simp only [menuChoice]
      exact runSpread_ok loveSpread env calls 5 hsp.2.1
    · simp only [menuChoice]
      exact runSpread_ok careerSpread env calls 4 hsp.2.2.1
    · simp only [menuChoice]
      exact runSpread_ok celticCross env calls 10 hsp.2.2.2
    · have hk := henv.2.1 round
      obtain ⟨_, _, c, hc, _⟩ := dailyFortune_hit (env.today round) env.cards henv.1 hk.1 hk.2.1 hk.2.2
      obtain ⟨r, hr⟩ := dailyReveal_ok (env.today round) env.cards ⟨c, hc⟩
      refine ⟨MenuEvent.reveals [r], calls, ?_, by simp⟩
      simp [menuChoice, hr]
    · obtain ⟨listing, hl, _⟩ := showDeck_ok env.deck henv.2.2
      exact ⟨MenuEvent.deck listing, calls, by simp [menuChoice, hl], by simp⟩
    · exact ⟨MenuEvent.guide, calls, by simp [menuChoice], by simp⟩
  · exact ⟨MenuEvent.unrecognized, calls, menuChoice_unrecognized env round calls choice hx hn,
      by simp⟩

theorem mainMenuLoop_spec (env : MenuEnv) (henv : env.WellFormed) (inputs : List String) :
    ∀ round calls, ∃ trace status, mainMenuLoop env round calls inputs = .ok (trace, status) ∧
      (status = MenuStatus.closed ↔ ∃ line ∈ choiceLines inputs, jsTrim line ∈ exitWords) := by
  induction inputs using choiceLines.induct with
  | case1 =>
    intro round calls
    exact ⟨[], MenuStatus.awaitingChoice, rfl, by simp [choiceLines]⟩
  | case2 line =>
    intro round calls
    by_cases hx : jsTrim line ∈ exitWords
    · refine ⟨[MenuEvent.farewell], MenuStatus.closed, ?_, by simp [choiceLines, hx]⟩
      rw [mainMenuLoop, menuChoice_exit env round calls _ hx]
    · obtain ⟨ev, calls', hev, hne⟩ := menuChoice_continue env henv round calls _ hx
      refine ⟨[ev], MenuStatus.awaitingEnter, ?_, by simp [choiceLines, hx]⟩
      rw [mainMenuLoop, hev]
      cases ev <;> first | rfl | exact absurd rfl hne
  | case3 line skipped rest ih =>
    intro round calls
    by_cases hx : jsTrim line ∈ exitWords
    · refine ⟨[MenuEvent.farewell], MenuStatus.closed, ?_, by simp [choiceLines, hx]⟩
      rw [mainMenuLoop, menuChoice_exit env round calls _ hx]
    · obtain ⟨ev, calls', hev, hne⟩ := menuChoice_continue env henv round calls _ hx
      obtain ⟨trace, status, hrun, hiff⟩ := ih (round + 1) calls'
      refine ⟨ev :: trace, status, ?_, ?_⟩
      · rw [mainMenuLoop, hev]
        cases ev <;> first | exact absurd rfl hne | (simp only [hrun])
      · rw [hiff]
        simp [choiceLines, hx]

/-- The hypothesis on the numerals is needed: over a 78-card deck whose first major card has
no numeral, the choice 7 makes `showDeck` throw and the menu loop fails with it. -/
theorem mainMenu_fails_without_numeral :
    unnumberedEnv.cards.length = 78 ∧
    showDeck unnumberedEnv.deck = .error "TypeError" ∧
    mainMenu unnumberedEnv ["7", "", "quit"] = .error "TypeError" := by
  refine ⟨by simp [MenuEnv.cards, unnumberedEnv, unnumberedDeck, allCards, sampleCards], rfl, ?_⟩
  have ht : jsTrim "7" = "7" := by decide
  have hs : showDeck unnumberedEnv.deck = .error "TypeError" := rfl
  have h : menuChoice unnumberedEnv 0 0 (jsTrim "7") = .error "TypeError" := by
    rw [ht]
    simp [menuChoice, hs]
  simp only [mainMenu, mainMenuLoop, h]

/-- C11. In a session over the 78-card catalog whose major cards carry their numeral, on
dates of the years 1 to 9999: a round whose trimmed choice is 0, q, quit or exit ends the
session; a round with any other choice returns normally with an event other than the
farewell; an unrecognized choice draws nothing (no call of `Math.random`) and only reports
itself; the choice 7 runs `showDeck`, which does not throw and lists every major card; and
over any typed lines the loop does not fail and has ended if and only if one of the lines
read at the choice prompt trims to an exit word, being otherwise back at a prompt. -/
theorem mainMenu_ends_on_exit_words (env : MenuEnv) (henv : env.WellFormed) :
    (∀ round calls choice, choice ∈ exitWords →
      menuChoice env round calls choice = .ok (MenuEvent.farewell, calls)) ∧
    (∀ round calls choice, choice ∉ exitWords →
      ∃ ev calls', menuChoice env round calls choice = .ok (ev, calls') ∧
        ev ≠ MenuEvent.farewell) ∧
    (∀ round calls choice, choice ∉ exitWords → choice ∉ menuNumbers →
      menuChoice env round calls choice = .ok (MenuEvent.unrecognized, calls)) ∧
    (∀ round calls, ∃ listing, showDeck env.deck = .ok listing ∧
      listing.major.length = env.deck.majorArcana.length ∧
      menuChoice env round calls "7" = .ok (MenuEvent.deck listing, calls)) ∧
    (∀ inputs, ∃ trace status, mainMenu env inputs = .ok (trace, status) ∧
      (status = MenuStatus.closed ↔ ∃ line ∈ choiceLines inputs, jsTrim line ∈ exitWords) ∧
      (status ≠ MenuStatus.closed →
        status = MenuStatus.awaitingChoice ∨ status = MenuStatus.awaitingEnter)) := by
  refine ⟨fun round calls choice h => menuChoice_exit env round calls choice h,
    fun round calls choice h => menuChoice_continue env henv round calls choice h,
    fun round calls choice hx hn => menuChoice_unrecognized env round calls choice hx hn,
    fun round calls => ?_, ?_⟩
  · obtain ⟨listing, hl, hlen, _⟩ := showDeck_ok env.deck henv.2.2
    exact ⟨listing, hl, hlen, by simp [menuChoice, hl]⟩
  intro inputs
  obtain ⟨trace, status, hrun, hiff⟩ := mainMenuLoop_spec env henv inputs 0 0
  refine ⟨trace, status, hrun, hiff, ?_⟩
  intro hne
  cases status
  · exact absurd rfl hne
  · exact Or.inl rfl
  · exact Or.inr rfl

theorem sampleEnv_wellFormed : sampleEnv.WellFormed := by
  refine ⟨length_sampleCatalog, fun _ => by simp [sampleEnv], ?_⟩
  intro card hc
  simp only [sampleEnv, sampleDeck, sampleCards, List.mem_map] at hc
  obtain ⟨i, _, rfl⟩ := hc
  simp [sampleCard]

/-- Witness of C11: the deck view, the line at the pause, an unrecognized line, the line at
the pause, then `quit`. -/
theorem mainMenu_ends_on_exit_words_witness :
    ∃ trace status, mainMenu sampleEnv ["7", "", "hello", "", " quit "] = .ok (trace, status) ∧
      (status = MenuStatus.closed ↔
        ∃ line ∈ choiceLines ["7", "", "hello", "", " quit "], jsTrim line ∈ exitWords) ∧
      (status ≠ MenuStatus.closed →
        status = MenuStatus.awaitingChoice ∨ status = MenuStatus.awaitingEnter) :=
  (mainMenu_ends_on_exit_words sampleEnv sampleEnv_wellFormed).2.2.2.2
    ["7", "", "hello", "", " quit "]

theorem lookup_cons_ite (k' : String) (v' : Json) (rest : List (String × Json)) (k : String) :
    ((k', v') :: rest).lookup k = if k = k' then some v' else rest.lookup k := by
  by_cases h : k = k'
  · subst h
    simp [List.lookup]
  · have hb : (k == k') = false := beq_eq_false_iff_ne.mpr h
    simp [List.lookup, hb, h]

theorem lookup_setKey (fields : List (String × Json)) (key : String) (value : Json) (k : String) :
    (setKey fields key value).lookup k = if k = key then some value else fields.lookup k := by
  induction fields with
  | nil =>
    unfold setKey
    rw [lookup_cons_ite]
  | cons p rest ih =>
    obtain ⟨k', v'⟩ := p
    unfold setKey
    by_cases h1 : k' = key
    · rw [if_pos h1, lookup_cons_ite, lookup_cons_ite, h1]
      split <;> rfl
    · rw [if_neg h1, lookup_cons_ite, lookup_cons_ite, ih]
      by_cases h2 : k = k'
      · have : k ≠ key := by rw [h2]; exact h1
        rw [if_pos h2, if_neg this, if_pos h2]
      · rw [if_neg h2, if_neg h2]

theorem mergeFields_cons (result : List (String × Json)) (key : String) (value : Json)
    (rest : List (String × Json)) :
    mergeFields result ((key, value) :: rest)
      = mergeFields (setKey result key (mergedValue (result.lookup key) value)) rest := by
  cases value <;> simp [mergeFields, mergedValue]

theorem lookup_eq_none_of_not_mem_keys (fields : List (String × Json)) (k : String)
    (h : k ∉ fields.map Prod.fst) : fields.lookup k = none := by
  induction fields with
  | nil => rfl
  | cons p rest ih =>
    obtain ⟨k', v'⟩ := p
    simp only [List.map_cons, List.mem_cons, not_or] at h
    rw [lookup_cons_ite, if_neg h.1, ih h.2]

theorem lookup_mergeFields (source result : List (String × Json)) (k : String)
    (hs : (source.map Prod.fst).Nodup) :
    (mergeFields result source).lookup k =
      match source.lookup k with
      | none => result.lookup k
      | some v => some (mergedValue (result.lookup k) v) := by
  induction source generalizing result with
  | nil => rfl
  | cons p rest ih =>
    obtain ⟨key, value⟩ := p
    rw [List.map_cons, List.nodup_cons] at hs
    rw [mergeFields_cons, ih _ hs.2]
    rw [lookup_cons_ite]
    by_cases h : k = key
    · subst h
      rw [lookup_eq_none_of_not_mem_keys rest k hs.1, if_pos rfl]
      simp only [lookup_setKey, if_true]
    · rw [if_neg h]
      simp only [lookup_setKey, if_neg h]

theorem plainFields_lookup (fields : List (String × Json)) (k : String) (v : Json)
    (hp : plainFields fields = true) (h : fields.lookup k = some v) : v.plain = true := by
  induction fields with
  | nil => simp [List.lookup] at h
  | cons p rest ih =>
    obtain ⟨k', v'⟩ := p
    simp only [plainFields, Bool.and_eq_true] at hp
    rw [lookup_cons_ite] at h
    by_cases hk : k = k'
    · rw [if_pos hk] at h
      cases h
      exact hp.1.2
    · rw [if_neg hk] at h
      exact ih hp.2 h

theorem plain_obj (fields : List (String × Json)) (h : (Json.obj fields).plain = true) :
    plainFields fields = true ∧ (fields.map Prod.fst).Nodup := by
  simp only [Json.plain, Bool.and_eq_true, decide_eq_true_eq] at h
  exact h

theorem get_deepMerge (target : Json) (sf : List (String × Json)) (k : String)
    (hs : (Json.obj sf).plain = true) :
    (deepMerge target (.obj sf)).get k =
      match sf.lookup k with
      | none => (ownProps target).lookup k
      | some v => some (mergedValue ((ownProps target).lookup k) v) := by
  simp only [deepMerge, Json.get]
  exact lookup_mergeFields sf (ownProps target) k (plain_obj sf hs).2

theorem getPath_deepMerge (path : List String) :
    ∀ (tf sf : List (String × Json)) (v : Json), (Json.obj sf).plain = true →
      Untouched (.obj sf) path → (Json.obj tf).getPath path = some v →
      (deepMerge (.obj tf) (.obj sf)).getPath path = some v := by
  induction path with
  | nil => intro tf sf v _ hu _; exact absurd hu (by simp [Untouched])
  | cons key rest ih =>
    intro tf sf v hs hu hv
    have hget := get_deepMerge (.obj tf) sf key hs
    simp only [ownProps] at hget
    simp only [Untouched, Json.get] at hu
    simp only [Json.getPath, Json.get] at hv
    simp only [Json.getPath]
    rw [hget]
    cases hsk : sf.lookup key with
    | none =>
      simp only [Json.get] at hv ⊢
      exact hv
    | some sv =>
      rw [hsk] at hu
      cases sv with
      | obj sub =>
        simp only at hu
        cases htk : tf.lookup key with
        | none => rw [htk] at hv; simp at hv
        | some tv =>
          rw [htk] at hv
          simp only at hv ⊢
          cases rest with
          | nil => exact absurd hu (by simp [Untouched])
          | cons key2 rest2 =>
            cases tv with
            | obj tsub =>
              have hsub : (Json.obj sub).plain = true :=
                plainFields_lookup sf key _ (plain_obj sf hs).1 hsk
              have := ih tsub sub v hsub hu hv
              simpa [mergedValue, orEmpty, Json.truthy] using this
            | null => simp [Json.getPath, Json.get] at hv
            | bool b => simp [Json.getPath, Json.get] at hv
            | num n => simp [Json.getPath, Json.get] at hv
            | str s => simp [Json.getPath, Json.get] at hv
            | arr items => simp [Json.getPath, Json.get] at hv
      | null => simp at hu
      | bool b => simp at hu
      | num n => simp at hu
      | str s => simp at hu
      | arr items => simp at hu

/-- C12. For a JSON object `target` and a plain JSON object `source`: every key of
`target` is a key of `deepMerge(target, source)`; every key that `source` does not define
reads in the result exactly as in `target`; and the same holds at every depth: a value of
`target` at a path of keys that `source` does not define (some key along the path is
absent from the objects of `source`) is the value of the result at that path. -/
theorem deepMerge_preserves (tf sf : List (String × Json)) (hs : (Json.obj sf).plain = true) :
    (∀ k, (Json.obj tf).get k ≠ none → (deepMerge (.obj tf) (.obj sf)).get k ≠ none) ∧
    (∀ k, (Json.obj sf).get k = none →
      (deepMerge (.obj tf) (.obj sf)).get k = (Json.obj tf).get k) ∧
    (∀ path v, Untouched (.obj sf) path → (Json.obj tf).getPath path = some v →
      (deepMerge (.obj tf) (.obj sf)).getPath path = some v) := by
  refine ⟨?_, ?_, fun path v hu hv => getPath_deepMerge path tf sf v hs hu hv⟩
  · intro k hk
    rw [get_deepMerge (.obj tf) sf k hs]
    cases sf.lookup k with
    | none => exact hk
    | some v => simp
  · intro k hk
    rw [get_deepMerge (.obj tf) sf k hs]
    simp only [Json.get] at hk
    rw [hk]
    rfl

/-- Witness of C12: the sample configuration merged with the sample skill entry keeps
`theme` and, two levels down, the `weather` entry and the `load` settings. -/
theorem deepMerge_preserves_witness :
    (∀ k, sampleConfig.get k ≠ none → (deepMerge sampleConfig sampleSkillConfig).get k ≠ none) ∧
    (∀ k, sampleSkillConfig.get k = none →
      (deepMerge sampleConfig sampleSkillConfig).get k = sampleConfig.get k) ∧
    (∀ path v, Untouched sampleSkillConfig path → sampleConfig.getPath path = some v →
      (deepMerge sampleConfig sampleSkillConfig).getPath path = some v) :=
  deepMerge_preserves _ _ (by decide)

/-- C13. For a JSON object `target`, a plain JSON object `source` and a key `k` of
`source`: when `source[k]` is a scalar, `null` or an array the result holds `source[k]`
itself at `k` (an array replaces, nothing is concatenated); when `source[k]` and
`target[k]` are both objects the result holds `deepMerge(target[k], source[k])` at `k`. -/
theorem deepMerge_source_keys (tf sf : List (String × Json)) (hs : (Json.obj sf).plain = true)
    (k : String) (v : Json) (hk : (Json.obj sf).get k = some v) :
    ((∀ sub, v ≠ .obj sub) → (deepMerge (.obj tf) (.obj sf)).get k = some v) ∧
    (∀ sub tsub, v = .obj sub → (Json.obj tf).get k = some (.obj tsub) →
      (deepMerge (.obj tf) (.obj sf)).get k = some (deepMerge (.obj tsub) (.obj sub))) := by
  simp only [Json.get] at hk
  constructor
  · intro hv
    rw [get_deepMerge (.obj tf) sf k hs, hk]
    cases v with
    | obj sub => exact absurd rfl (hv sub)
    | null => rfl
    | bool b => rfl
    | num n => rfl
    | str s => rfl
    | arr items => rfl
  · intro sub tsub hv ht
    subst hv
    simp only [Json.get] at ht
    rw [get_deepMerge (.obj tf) sf k hs, hk]
    simp [ownProps, ht, mergedValue, orEmpty, Json.truthy]

/-- Witness of C13: the key `skills` of the sample skill entry, an object on both sides. -/
theorem deepMerge_source_keys_witness :
    ((∀ sub, Json.obj [("entries", .obj [("clavtarot", .obj [("enabled", .bool true),
        ("apiKey", .str "key-0123456789"), ("env", .obj [("FAL_KEY", .str "key-0123456789")])])])]
          ≠ .obj sub) →
      (deepMerge sampleConfig sampleSkillConfig).get "skills"
        = some (.obj [("entries", .obj [("clavtarot", .obj [("enabled", .bool true),
          ("apiKey", .str "key-0123456789"),
          ("env", .obj [("FAL_KEY", .str "key-0123456789")])])])])) ∧
    (∀ sub tsub, Json.obj [("entries", .obj [("clavtarot", .obj [("enabled", .bool true),
        ("apiKey", .str "key-0123456789"), ("env", .obj [("FAL_KEY", .str "key-0123456789")])])])]
          = .obj sub →
      sampleConfig.get "skills" = some (.obj tsub) →
      (deepMerge sampleConfig sampleSkillConfig).get "skills"
        = some (deepMerge (.obj tsub) (.obj sub))) :=
  deepMerge_source_keys _ _ (by decide) "skills" _ rfl

theorem prefix_set_of_le {α : Type} (l0 l : List α) (a : Nat) (x : α) (h : l0 <+: l)
    (ha : l0.length ≤ a) : l0 <+: l.set a x := by
  obtain ⟨t, rfl⟩ := h
  rw [List.set_append_right _ _ ha]
  exact List.prefix_append _ _

theorem keeps_refl (st : Store) : st.Keeps st := ⟨List.prefix_refl _, List.prefix_refl _⟩

theorem keeps_newArray (base st : Store) (items : List Nat) (h : base.Keeps st) :
    base.Keeps (st.newArray items).1 :=
  ⟨h.1, h.2.trans (List.prefix_append _ _)⟩

theorem keeps_newObject (base st : Store) (o : CardObj) (h : base.Keeps st) :
    base.Keeps (st.newObject o).1 :=
  ⟨h.1.trans (List.prefix_append _ _), h.2⟩

theorem keeps_swapIn (base st : Store) (a i j : Nat) (h : base.Keeps st)
    (ha : base.arrs.length ≤ a) : base.Keeps (st.swapIn a i j) :=
  ⟨h.1, prefix_set_of_le _ _ a _ h.2 ha⟩

theorem keeps_setReversed (base st : Store) (o : Nat) (b : Bool) (h : base.Keeps st)
    (ho : base.objs.length ≤ o) : base.Keeps (st.setReversed o b) := by
  unfold Store.setReversed
  split
  · exact ⟨prefix_set_of_le _ _ o _ h.1 ho, h.2⟩
  · exact h

theorem keeps_shuffleLoopStore (choose : Nat → Nat) (i : Nat) (base st : Store) (a : Nat)
    (h : base.Keeps st) (ha : base.arrs.length ≤ a) :
    base.Keeps (shuffleLoopStore choose i st a) := by
  induction i generalizing st with
  | zero => exact h
  | succ i ih => exact ih _ (keeps_swapIn base st a _ _ h ha)

theorem keeps_shuffleStore (rnd : Nat → ℚ) (st : Store) (arr : Nat) :
    st.Keeps (shuffleStore rnd st arr).1 := by
  unfold shuffleStore
  exact keeps_shuffleLoopStore _ _ st _ _ (keeps_newArray st st _ (keeps_refl st))
    (Nat.le_refl _)

theorem keeps_mapDrawn (rnd : Nat → ℚ) (offset : Nat) (refs : List Nat) (t : Nat)
    (base st : Store) (h : base.Keeps st) : base.Keeps (mapDrawn rnd offset refs t st).1 := by
  induction refs generalizing t st with
  | nil => exact h
  | cons ref rest ih => exact ih _ _ (keeps_newObject base st _ h)

theorem keeps_drawCardsStore (rnd : Nat → ℚ) (st : Store) (allCards : Nat) (n : Int) :
    st.Keeps (drawCardsStore rnd st allCards n).1 := by
  unfold drawCardsStore
  exact keeps_newArray st _ _ (keeps_mapDrawn rnd _ _ 0 st _
    (keeps_newArray st _ _ (keeps_shuffleStore rnd st allCards)))

theorem keeps_dailyFortuneStore (today : JsDate) (st : Store) (allCards : Nat) :
    st.Keeps (dailyFortuneStore today st allCards).1 := by
  unfold dailyFortuneStore
  exact keeps_setReversed st _ _ _ (keeps_newObject st st _ (keeps_refl st)) (Nat.le_refl _)

theorem getElem?_of_initial {α : Type} (l0 l : List α) (i : Nat) (h : l0 <+: l)
    (hi : i < l0.length) : l[i]? = l0[i]? := by
  obtain ⟨t, rfl⟩ := h
  exact List.getElem?_append_left hi

theorem cardsOf_of_keeps (base st : Store) (a : Nat) (h : base.Keeps st)
    (ha : a < base.arrs.length) (hrefs : ∀ r ∈ base.array a, r < base.objs.length) :
    st.cardsOf a = base.cardsOf a := by
  have harr : st.array a = base.array a := by
    unfold Store.array
    rw [getElem?_of_initial _ _ a h.2 ha]
  unfold Store.cardsOf
  rw [harr]
  apply List.map_congr_left
  intro r hr
  exact getElem?_of_initial _ _ r h.1 (hrefs r hr)

/-- C14. Over a store whose catalog array `allCards` refers to existing objects, for every
`n` and every sequence of random values `drawCards(n)` leaves every object and array that
existed before as it was, and so does the daily selection for every date; hence after
either `allCards` holds the same card objects in the same order with the same fields, none
with a new `isReversed` (orientation is written to new objects only). -/
theorem catalog_unchanged (st : Store) (allCards : Nat) (rnd : Nat → ℚ) (n : Int)
    (today : JsDate) (ha : allCards < st.arrs.length)
    (hrefs : ∀ r ∈ st.array allCards, r < st.objs.length) :
    (st.Keeps (drawCardsStore rnd st allCards n).1 ∧
      (drawCardsStore rnd st allCards n).1.cardsOf allCards = st.cardsOf allCards) ∧
    (st.Keeps (dailyFortuneStore today st allCards).1 ∧
      (dailyFortuneStore today st allCards).1.cardsOf allCards = st.cardsOf allCards) :=
  ⟨⟨keeps_drawCardsStore rnd st allCards n,
      cardsOf_of_keeps st _ allCards (keeps_drawCardsStore rnd st allCards n) ha hrefs⟩,
    ⟨keeps_dailyFortuneStore today st allCards,
      cardsOf_of_keeps st _ allCards (keeps_dailyFortuneStore today st allCards) ha hrefs⟩⟩

theorem swapAt_map {α β : Type} (f : α → β) (a : List α) (i j : Nat) :
    (swapAt a i j).map f = swapAt (a.map f) i j := by
  unfold swapAt
  simp only [List.getElem?_map]
  cases a[i]? <;> cases a[j]? <;> simp [List.map_set]

theorem shuffleLoop_map {α β : Type} (f : α → β) (c : Nat → Nat) (i : Nat) (a : List α) :
    (shuffleLoop c i a).map f = shuffleLoop c i (a.map f) := by
  induction i generalizing a with
  | zero => rfl
  | succ i ih => rw [shuffleLoop, shuffleLoop, ih, swapAt_map]

theorem shuffle_map {α β : Type} (f : α → β) (rnd : Nat → ℚ) (a : List α) :
    (shuffle rnd a).map f = shuffle rnd (a.map f) := by
  unfold shuffle shuffleBy
  rw [shuffleLoop_map, List.length_map]

theorem slice0_map {α β : Type} (f : α → β) (a : List α) (n : Int) :
    (slice0 a n).map f = slice0 (a.map f) n := by
  unfold slice0
  split <;> simp [List.map_take]

theorem array_swapIn (st : Store) (a i j : Nat) (ha : a < st.arrs.length) :
    (st.swapIn a i j).array a = swapAt (st.array a) i j := by
  simp [Store.swapIn, Store.array, ha]

theorem shuffleLoopStore_spec (c : Nat → Nat) (i : Nat) (st : Store) (a : Nat)
    (ha : a < st.arrs.length) :
    (shuffleLoopStore c i st a).array a = shuffleLoop c i (st.array a) ∧
      (shuffleLoopStore c i st a).objs = st.objs ∧
      (shuffleLoopStore c i st a).arrs.length = st.arrs.length := by
  induction i generalizing st with
  | zero => exact ⟨rfl, rfl, rfl⟩
  | succ i ih =>
    have hlen : (st.swapIn a (i + 1) (c (i + 1))).arrs.length = st.arrs.length := by
      simp [Store.swapIn]
    obtain ⟨h1, h2, h3⟩ := ih (st.swapIn a (i + 1) (c (i + 1))) (by rw [hlen]; exact ha)
    refine ⟨?_, ?_, ?_⟩
    · rw [shuffleLoopStore, h1, array_swapIn st a _ _ ha, shuffleLoop]
    · rw [shuffleLoopStore, h2]; rfl
    · rw [shuffleLoopStore, h3, hlen]

theorem array_newArray (st : Store) (items : List Nat) :
    (st.newArray items).1.array (st.newArray items).2 = items := by
  simp [Store.newArray, Store.array]

theorem shuffleStore_spec (rnd : Nat → ℚ) (st : Store) (arr : Nat) :
    (shuffleStore rnd st arr).1.array (shuffleStore rnd st arr).2 = shuffle rnd (st.array arr) ∧
      (shuffleStore rnd st arr).1.objs = st.objs := by
  have hlt : (st.newArray (st.array arr)).2 < (st.newArray (st.array arr)).1.arrs.length := by
    simp [Store.newArray]
  obtain ⟨h1, h2, _⟩ := shuffleLoopStore_spec
    (fun i => randomIndex (rnd ((st.array arr).length - 1 - i)) i) ((st.array arr).length - 1)
    (st.newArray (st.array arr)).1 (st.newArray (st.array arr)).2 hlt
  refine ⟨?_, ?_⟩
  · unfold shuffleStore
    simp only
    rw [h1, array_newArray]
    rfl
  · unfold shuffleStore
    simp only
    rw [h2]
    rfl

theorem mapDrawn_spec (rnd : Nat → ℚ) (offset : Nat) (refs : List Nat) :
    ∀ (t : Nat) (st : Store), (∀ r ∈ refs, r < st.objs.length) →
      (mapDrawn rnd offset refs t st).1.arrs = st.arrs ∧
      (mapDrawn rnd offset refs t st).1.objs = st.objs ++ (refs.enumFrom t).map (fun p =>
        (⟨(st.objs[p.2]?).bind fun o => o.fields,
          some (decide (rnd (offset + p.1) > 1 / 2))⟩ : CardObj)) ∧
      (mapDrawn rnd offset refs t st).2 = List.range' st.objs.length refs.length := by
  induction refs with
  | nil => intro t st _; simp [mapDrawn]
  | cons ref rest ih =>
    intro t st h
    have hrest : ∀ r ∈ rest, r < (st.newObject
        { fields := (st.objs[ref]?).bind fun o => o.fields,
          isReversed := some (decide (rnd (offset + t) > 1 / 2)) }).1.objs.length := by
      intro r hr
      have := h r (List.mem_cons_of_mem _ hr)
      simp [Store.newObject]
      omega
    obtain ⟨h1, h2, h3⟩ := ih (t + 1) _ hrest
    refine ⟨?_, ?_, ?_⟩
    · rw [mapDrawn]; simp only; rw [h1]; rfl
    · rw [mapDrawn]; simp only; rw [h2]
      simp only [Store.newObject, List.enumFrom_cons, List.map_cons, List.append_assoc,
        List.singleton_append]
      congr 2
      apply List.map_congr_left
      intro p hp
      have hp2 : p.2 ∈ rest := by
        obtain ⟨k, x⟩ := p
        exact (List.mem_enumFrom hp).2.2 ▸ List.getElem_mem _
      have := h p.2 (List.mem_cons_of_mem _ hp2)
      rw [List.getElem?_append_left this]
    · rw [mapDrawn]; simp only; rw [h3]
      simp [Store.newObject, List.range'_succ]

theorem enumFrom_map_congr {α β γ δ : Type} (f : α → γ) (g : β → γ) (F : Nat → γ → δ) :
    ∀ (l1 : List α) (l2 : List β) (t : Nat), l1.map f = l2.map g →
      (l1.enumFrom t).map (fun p => F p.1 (f p.2)) = (l2.enumFrom t).map (fun p => F p.1 (g p.2)) := by
  intro l1
  induction l1 with
  | nil =>
    intro l2 t h
    cases l2 with
    | nil => rfl
    | cons b l2 => simp at h
  | cons a l1 ih =>
    intro l2 t h
    cases l2 with
    | nil => simp at h
    | cons b l2 =>
      simp only [List.map_cons, List.cons.injEq] at h
      simp only [List.enumFrom_cons, List.map_cons, h.1, ih l2 (t + 1) h.2]

theorem map_getElem?_range' {α : Type} (l m : List α) :
    (List.range' l.length m.length).map (fun r => (l ++ m)[r]?) = m.map some := by
  apply List.ext_getElem?
  intro i
  by_cases hi : i < m.length
  · rw [List.getElem?_map, List.getElem?_map, List.getElem?_range' _ _ hi]
    simp only [Nat.one_mul, Option.map_some']
    rw [List.getElem?_append_right (by omega)]
    simp [List.getElem?_eq_getElem hi]
  · rw [List.getElem?_eq_none (by simpa using hi), List.getElem?_eq_none (by simpa using hi)]

theorem objs_newArray (st : Store) (items : List Nat) : (st.newArray items).1.objs = st.objs := rfl

theorem cardsOf_mapDrawn (rnd : Nat → ℚ) (offset : Nat) (refs : List Nat) (st : Store)
    (hin : ∀ r ∈ refs, r < st.objs.length) :
    ((mapDrawn rnd offset refs 0 st).1.newArray (mapDrawn rnd offset refs 0 st).2).1.cardsOf
        ((mapDrawn rnd offset refs 0 st).1.newArray (mapDrawn rnd offset refs 0 st).2).2
      = (refs.enumFrom 0).map (fun p => some (CardObj.mk ((st.objs[p.2]?).bind fun o => o.fields)
          (some (decide (rnd (offset + p.1) > 1 / 2))))) := by
  obtain ⟨_, hmo, hmr⟩ := mapDrawn_spec rnd offset refs 0 st hin
  unfold Store.cardsOf
  rw [array_newArray, objs_newArray, hmr, hmo]
  have hk : refs.length = ((refs.enumFrom 0).map (fun p =>
      (⟨(st.objs[p.2]?).bind fun o => o.fields,
        some (decide (rnd (offset + p.1) > 1 / 2))⟩ : CardObj))).length := by
    simp
  rw [hk, map_getElem?_range', List.map_map]
  rfl

theorem drawCardsStore_refines (rnd : Nat → ℚ) (st : Store) (allCards : Nat) (n : Int)
    (cards : List Card) (hrefs : ∀ r ∈ st.array allCards, r < st.objs.length)
    (hcards : (st.array allCards).map (fun r => (st.objs[r]?).bind fun o => o.fields)
      = cards.map some) :
    ∃ drawn, drawCards cards rnd n = .ok drawn ∧
      (drawCardsStore rnd st allCards n).1.cardsOf (drawCardsStore rnd st allCards n).2
        = drawn.map fun d => some (CardObj.mk (some d.card) (some d.isReversed)) := by
  refine ⟨_, rfl, ?_⟩
  obtain ⟨hsh, hso⟩ := shuffleStore_spec rnd st allCards
  have hlen : (st.array allCards).length = cards.length := by
    have := congrArg List.length hcards
    simpa using this
  have hin : ∀ r ∈ slice0 (shuffle rnd (st.array allCards)) n, r < st.objs.length := by
    intro r hr
    exact hrefs r ((shuffle_perm rnd _).mem_iff.mp ((slice0_sublist _ n).subset hr))
  have hmap : (slice0 (shuffle rnd (st.array allCards)) n).map
      (fun r => (st.objs[r]?).bind fun o => o.fields)
      = (slice0 (shuffle rnd cards) n).map some := by
    rw [slice0_map, shuffle_map, hcards, ← shuffle_map, ← slice0_map]
  have key := cardsOf_mapDrawn rnd ((st.array allCards).length - 1)
    (((shuffleStore rnd st allCards).1.newArray
      (slice0 ((shuffleStore rnd st allCards).1.array (shuffleStore rnd st allCards).2) n)).1.array
      ((shuffleStore rnd st allCards).1.newArray
      (slice0 ((shuffleStore rnd st allCards).1.array (shuffleStore rnd st allCards).2) n)).2)
    ((shuffleStore rnd st allCards).1.newArray
      (slice0 ((shuffleStore rnd st allCards).1.array (shuffleStore rnd st allCards).2) n)).1
    (by rw [array_newArray, hsh, objs_newArray, hso]; exact hin)
  refine (show _ = _ from key).trans ?_
  rw [array_newArray, hsh, objs_newArray, hso, hlen]
  rw [List.map_map]
  exact enumFrom_map_congr (fun r : Nat => (st.objs[r]?).bind fun o : CardObj => o.fields) some
    (fun k oc => some (CardObj.mk oc (some (decide (rnd (cards.length - 1 + k) > 1 / 2))))) _ _ 0 hmap

theorem sampleStore_refs : ∀ r ∈ sampleStore.array 0, r < sampleStore.objs.length := by
  intro r hr
  have h1 : sampleStore.array 0 = List.range 78 := rfl
  have h2 : sampleStore.objs.length = 78 := by
    simp [sampleStore, length_sampleCatalog]
  rw [h1] at hr
  rw [h2]
  exact List.mem_range.mp hr

/-- Witness of C14: three cards drawn, and the daily selection of 15 March 2024, over the
sample store. -/
theorem catalog_unchanged_witness :
    (sampleStore.Keeps (drawCardsStore sampleRnd sampleStore 0 3).1 ∧
      (drawCardsStore sampleRnd sampleStore 0 3).1.cardsOf 0 = sampleStore.cardsOf 0) ∧
    (sampleStore.Keeps (dailyFortuneStore ⟨2024, 2, 15, 9, 0, 0, 0⟩ sampleStore 0).1 ∧
      (dailyFortuneStore ⟨2024, 2, 15, 9, 0, 0, 0⟩ sampleStore 0).1.cardsOf 0
        = sampleStore.cardsOf 0) :=
  catalog_unchanged sampleStore 0 sampleRnd 3 ⟨2024, 2, 15, 9, 0, 0, 0⟩ (by decide)
    sampleStore_refs

theorem isPrefixOf_append_self (p s : List Char) : p.isPrefixOf (p ++ s) = true := by
  rw [List.isPrefixOf_iff_prefix]
  exact List.prefix_append _ _

theorem includesChars_append (needle pre suf : List Char) :
    includesChars needle (pre ++ (needle ++ suf)) = true := by
  induction pre with
  | nil =>
    cases h : needle ++ suf with
    | nil =>
      have : needle = [] := (List.append_eq_nil.mp h).1
      subst this
      rfl
    | cons c cs =>
      rw [List.nil_append, includesChars, ← h, isPrefixOf_append_self]
      rfl
  | cons c cs ih =>
    rw [List.cons_append, includesChars, ih, Bool.or_true]

theorem removeSection_first (before rest : List Char)
    (h : noHeaderInside before (sectionHeader ++ rest) = true) :
    removeSection (before ++ (sectionHeader ++ rest)) = before ++ skipSection rest := by
  induction before with
  | nil =>
    have hd : (sectionHeader ++ rest).drop 13 = rest := List.drop_left' rfl
    have hp := isPrefixOf_append_self sectionHeader rest
    rw [List.nil_append, List.nil_append]
    cases hc : sectionHeader ++ rest with
    | nil => exact absurd (congrArg List.length hc) (by simp [sectionHeader])
    | cons c cs =>
      rw [hc] at hp hd
      rw [removeSection, if_pos hp, hd]
  | cons c cs ih =>
    simp only [noHeaderInside, Bool.and_eq_true, Bool.not_eq_true'] at h
    rw [List.cons_append, removeSection, if_neg (by rw [← List.cons_append, h.1]; simp),
      ih h.2]
    rfl

theorem skipSection_body (body after : List Char) (hb : noEndInside body after = true)
    (ha : atSectionEnd after = true) : skipSection (body ++ after) = after := by
  induction body with
  | nil =>
    cases after with
    | nil => rfl
    | cons c cs => rw [List.nil_append, skipSection, if_pos ha]
  | cons c cs ih =>
    simp only [noEndInside, Bool.and_eq_true, Bool.not_eq_true'] at hb
    rw [List.cons_append, skipSection, if_neg (by rw [← List.cons_append, hb.1]; simp), ih hb.2]

/-- C15 as stated fails: in the sample document the section is followed by `## Other`;
after a confirmed update the new text stands after that section, at the end of the
document, not where the old section stood (the document no longer ends with the part that
followed the section). -/
theorem injectPersona_appends_at_end :
    (injectPersona (String.mk (sampleSoulBefore ++ (sectionHeader ++ (sampleSoulBody ++ sampleSoulAfter))))
        "## ClavTarot\nnew text\n" "y")
      = "# Agent Soul\n\n## Other\nkeep\n\n## ClavTarot\nnew text\n" ∧
    ¬ sampleSoulAfter <:+ (injectPersona
        (String.mk (sampleSoulBefore ++ (sectionHeader ++ (sampleSoulBody ++ sampleSoulAfter))))
        "## ClavTarot\nnew text\n" "y").data := by
  have h : (injectPersona (String.mk (sampleSoulBefore ++ (sectionHeader ++ (sampleSoulBody ++ sampleSoulAfter))))
        "## ClavTarot\nnew text\n" "y")
      = "# Agent Soul\n\n## Other\nkeep\n\n## ClavTarot\nnew text\n" := by decide
  refine ⟨h, ?_⟩
  rw [h]
  decide

/-- C15 amended. When the document holds the section header `## ClavTarot` at the start of
a line (first at the end of `before`), `body` runs to the next header of the same or a
higher level or to the end of the document, and the user confirms the update, the section
is removed and the trimmed new persona text is appended at the end of the document, after
a line break and followed by one; the parts before and after the section are unchanged and
keep their order; a `### ` header does not end the section. -/
theorem injectPersona_replaces (before body after : List Char) (personaText answer : String)
    (hfirst : noHeaderInside before (sectionHeader ++ (body ++ after)) = true)
    (hbody : noEndInside body after = true) (hafter : atSectionEnd after = true)
    (hans : jsTrim answer = "y" ∨ jsTrim answer = "Y") :
    (injectPersona (String.mk (before ++ (sectionHeader ++ (body ++ after)))) personaText answer).data
        = before ++ after ++ '\n' :: trimChars personaText.data ++ ['\n'] ∧
      ∀ t, atSectionEnd ("\n### ".data ++ t) = false := by
  constructor
  · unfold injectPersona
    have hinc : includesChars "ClavTarot".data
        (String.mk (before ++ (sectionHeader ++ (body ++ after)))).data = true := by
      have := includesChars_append "ClavTarot".data (before ++ "\n## ".data) (body ++ after)
      have he : before ++ "\n## ".data ++ ("ClavTarot".data ++ (body ++ after))
          = before ++ (sectionHeader ++ (body ++ after)) := by
        simp [sectionHeader]
      rw [he] at this
      exact this
    rw [if_pos hinc, if_pos hans]
    show removeSection (before ++ (sectionHeader ++ (body ++ after)))
      ++ '\n' :: trimChars personaText.data ++ ['\n'] = _
    rw [removeSection_first before _ hfirst, skipSection_body body after hbody hafter]
  · intro t
    simp [atSectionEnd, List.isPrefixOf]

/-- Witness of C15 amended: the sample document, whose section holds a `### ` subsection
and is followed by `## Other`. -/
theorem injectPersona_replaces_witness :
    (injectPersona (String.mk (sampleSoulBefore ++ (sectionHeader ++ (sampleSoulBody ++ sampleSoulAfter))))
        "\n## ClavTarot — new\nnew text\n" " Y ").data
      = sampleSoulBefore ++ sampleSoulAfter ++
          '\n' :: trimChars "\n## ClavTarot — new\nnew text\n".data ++ ['\n'] ∧
      ∀ t, atSectionEnd ("\n### ".data ++ t) = false :=
  injectPersona_replaces sampleSoulBefore sampleSoulBody sampleSoulAfter _ " Y "
    (by decide) (by decide) (by decide) (by decide)

theorem after_seededRandom (seed : Int) (k : Nat) :
    (seededRandom seed).after k = ⟨lehmerState seed k⟩ := by
  induction k with
  | zero => rfl
  | succ k ih => rw [Rng.after, ih]; rfl

theorem output_seededRandom (seed : Int) (k : Nat) (hk : 1 ≤ k) :
    (seededRandom seed).output k = (((lehmerState seed k : Int) : ℚ) - 1) / 2147483646 := by
  obtain ⟨j, rfl⟩ : ∃ j, k = j + 1 := ⟨k - 1, by omega⟩
  unfold Rng.output
  rw [Nat.add_sub_cancel, after_seededRandom]
  rfl

theorem lehmerState_eq_spec (seed : Int) (hseed : 0 ≤ seed) (k : Nat) :
    lehmerState seed k = lehmerSpec seed k ∧ 0 ≤ lehmerState seed k := by
  induction k with
  | zero => exact ⟨rfl, hseed⟩
  | succ k ih =>
    have h : lehmerState seed (k + 1) = (lehmerState seed k * 16807) % 2147483647 := by
      rw [lehmerState, Int.tmod_eq_emod (by have := ih.2; positivity) (by norm_num)]
    refine ⟨?_, ?_⟩
    · rw [h, lehmerSpec, ih.1]
    · rw [h]; omega

/-- C16. For every date and catalog the daily selector's index is `floor(r1 * len)`, its
card is the catalog entry read at that index and its `isReversed` is `r2 > 0.5`, where
`r1` and `r2` are the first and second outputs of `seededRandom(year*10000 + month*100 +
day)`; the `k`-th output of `seededRandom(seed)` is `(s_k - 1)/2147483646` with `s_0 =
seed` and `s_k = (s_(k-1) * 16807) % 2147483647` (for a seed from 0 on, the mathematical
`mod`); two generators made from the same seed give the same outputs. -/
theorem dailyFortune_formula (today : JsDate) (cards : List Card) :
    (dailyFortune today cards).cardIndex
        = ⌊(seededRandom (dateSeed today)).output 1 * (cards.length : ℚ)⌋ ∧
    (dailyFortune today cards).card
        = jsGet cards ⌊(seededRandom (dateSeed today)).output 1 * (cards.length : ℚ)⌋ ∧
    (dailyFortune today cards).isReversed
        = decide ((seededRandom (dateSeed today)).output 2 > 1 / 2) ∧
    dateSeed today = today.fullYear * 10000 + (today.month + 1) * 100 + today.date ∧
    (∀ seed k, 1 ≤ k →
      (seededRandom seed).output k = (((lehmerState seed k : Int) : ℚ) - 1) / 2147483646) ∧
    (∀ seed k, lehmerState seed 0 = seed ∧
      lehmerState seed (k + 1) = Int.tmod (lehmerState seed k * 16807) 2147483647) ∧
    (∀ seed k, 0 ≤ seed → lehmerState seed k = lehmerSpec seed k) ∧
    (∀ seed (g1 g2 : Rng), g1 = seededRandom seed → g2 = seededRandom seed →
      g1.output 1 = g2.output 1 ∧ g1.output 2 = g2.output 2) :=
  ⟨rfl, rfl, rfl, rfl, fun seed k hk => output_seededRandom seed k hk, fun _ _ => ⟨rfl, rfl⟩,
    fun seed k h => (lehmerState_eq_spec seed h k).1,
    fun _ g1 g2 h1 h2 => by rw [h1, h2]; exact ⟨rfl, rfl⟩⟩

theorem seededStep_pos (s : Int) (h0 : 0 < s) (hnd : ¬ (2147483647 : Int) ∣ s) :
    1 ≤ Int.tmod (s * 16807) 2147483647 ∧ Int.tmod (s * 16807) 2147483647 ≤ 2147483646 := by
  rw [Int.tmod_eq_emod (by positivity) (by norm_num)]
  have hne : (s * 16807) % 2147483647 ≠ 0 := by
    intro h
    have hd : (2147483647 : Int) ∣ s * 16807 := Int.dvd_of_emod_eq_zero h
    have hc : IsCoprime (2147483647 : Int) 16807 := by
      rw [Int.isCoprime_iff_gcd_eq_one]
      decide
    exact hnd (hc.dvd_of_dvd_mul_right hd)
  omega

theorem lehmerState_range (seed : Int) (h0 : 0 < seed) (hnd : ¬ (2147483647 : Int) ∣ seed)
    (k : Nat) (hk : 1 ≤ k ∨ seed ≤ 2147483646) :
    1 ≤ lehmerState seed k ∧ lehmerState seed k ≤ 2147483646 := by
  induction k with
  | zero =>
    rcases hk with hk | hk
    · omega
    · exact ⟨by rw [lehmerState]; omega, by rw [lehmerState]; exact hk⟩
  | succ k ih =>
    rw [lehmerState]
    by_cases hz : k = 0
    · subst hz
      exact seededStep_pos seed h0 hnd
    · have := ih (Or.inl (by omega))
      apply seededStep_pos _ (by omega)
      intro hd
      have := Int.le_of_dvd (by omega) hd
      omega

/-! ## The generator on doubles: where the exact product is the code's product -/

theorem droppedBits_of_lt (fuel n : Nat) (h : n < 2 ^ 53) : droppedBits fuel n = 0 := by
  cases fuel with
  | zero => rfl
  | succ f => rw [droppedBits, if_pos h]

theorem roundToDouble_of_lt (x : Int) (h : x.natAbs < 2 ^ 53) : roundToDouble x = x := by
  unfold roundToDouble
  simp only [droppedBits_of_lt _ _ h]
  simp [Nat.mod_one]
  exact Int.sign_mul_abs x

theorem callDouble_eq_call (g : Rng) (h : (g.s * 16807).natAbs < 2 ^ 53) :
    g.callDouble = g.call := by
  unfold Rng.callDouble Rng.call
  rw [roundToDouble_of_lt _ h]

theorem natAbs_tmod_lt (a : Int) : (Int.tmod a 2147483647).natAbs < 2147483647 := by
  cases a with
  | ofNat m =>
    show m % 2147483647 < 2147483647
    exact Nat.mod_lt _ (by norm_num)
  | negSucc m =>
    show (-Int.ofNat (Nat.succ m % 2147483647)).natAbs < 2147483647
    rw [Int.natAbs_neg]
    show Nat.succ m % 2147483647 < 2147483647
    exact Nat.mod_lt _ (by norm_num)

theorem lehmerState_product_small (seed : Int) (h : (seed * 16807).natAbs < 2 ^ 53) (k : Nat) :
    (lehmerState seed k * 16807).natAbs < 2 ^ 53 := by
  cases k with
  | zero => exact h
  | succ j =>
    have hb := natAbs_tmod_lt (lehmerState seed j * 16807)
    rw [lehmerState, Int.natAbs_mul]
    have h2 : (16807 : Int).natAbs = 16807 := rfl
    rw [h2]
    calc (Int.tmod (lehmerState seed j * 16807) 2147483647).natAbs * 16807
        < 2147483647 * 16807 := by omega
      _ < 2 ^ 53 := by norm_num

theorem afterDouble_eq_after (seed : Int) (h : (seed * 16807).natAbs < 2 ^ 53) (k : Nat) :
    (seededRandom seed).afterDouble k = (seededRandom seed).after k := by
  induction k with
  | zero => rfl
  | succ k ih =>
    rw [Rng.afterDouble, Rng.after, ih, callDouble_eq_call]
    rw [after_seededRandom]
    exact lehmerState_product_small seed h k

theorem outputDouble_eq_output (seed : Int) (h : (seed * 16807).natAbs < 2 ^ 53) (k : Nat) :
    (seededRandom seed).outputDouble k = (seededRandom seed).output k := by
  unfold Rng.outputDouble Rng.output
  rw [afterDouble_eq_after seed h, callDouble_eq_call]
  rw [after_seededRandom]
  exact lehmerState_product_small seed h (k - 1)

theorem product_small_of_le (seed : Int) (hlo : -535919512985 ≤ seed)
    (hhi : seed ≤ 535919512985) : (seed * 16807).natAbs < 2 ^ 53 := by
  have h2 : (2 : Nat) ^ 53 = 9007199254740992 := by norm_num
  rw [h2]
  omega

theorem dateSeed_exact (today : JsDate)
    (hy : -275760 ≤ today.fullYear ∧ today.fullYear ≤ 275760)
    (hm : 0 ≤ today.month ∧ today.month ≤ 11) (hd : 1 ≤ today.date ∧ today.date ≤ 31)
    (k : Nat) :
    (seededRandom (dateSeed today)).afterDouble k = (seededRandom (dateSeed today)).after k ∧
    (seededRandom (dateSeed today)).outputDouble k
      = (seededRandom (dateSeed today)).output k := by
  have hsmall : (dateSeed today * 16807).natAbs < 2 ^ 53 := by
    apply product_small_of_le <;> unfold dateSeed <;> omega
  exact ⟨afterDouble_eq_after _ hsmall k, outputDouble_eq_output _ hsmall k⟩

/-- C19 as stated fails: the seed 536131105103 is positive and no multiple of 2147483647,
but its product with 16807, 9010755483466121, is no double and is rounded to
9010755483466120, a multiple of 2147483647, so the state after the first call is 0, it
stays 0, and the outputs are negative; and the state before the first call is the seed
itself, which for the seed 2147483648 is above the range. -/
theorem seededRandom_large_seed_leaves_range :
    (0 : Int) < 536131105103 ∧ ¬ (2147483647 : Int) ∣ 536131105103 ∧
    roundToDouble (536131105103 * 16807) = 9010755483466120 ∧
    ((seededRandom 536131105103).afterDouble 1).s = 0 ∧
    ((seededRandom 536131105103).afterDouble 2).s = 0 ∧
    (seededRandom 536131105103).outputDouble 1 = -1 / 2147483646 ∧
    (seededRandom 536131105103).outputDouble 1 < 0 ∧
    ((seededRandom 2147483648).afterDouble 0).s = 2147483648 := by
  have h1 : ((seededRandom 536131105103).afterDouble 1).s = 0 := by decide
  refine ⟨by decide, by decide, by decide, h1, by decide, ?_, ?_, rfl⟩
  · show ((((seededRandom 536131105103).afterDouble 1).s : ℚ) - 1) / 2147483646 = _
    rw [h1]
    norm_num
  · show ((((seededRandom 536131105103).afterDouble 1).s : ℚ) - 1) / 2147483646 < 0
    rw [h1]
    norm_num

/-- C19 amended. For every positive integer seed up to 535919512985 (the seeds whose
product with 16807 is below `2^53`) that is not a multiple of 2147483647, the state of
`seededRandom(seed)` after every number of calls from one on lies in `[1, 2147483646]`,
as does the state before the first call when the seed is at most 2147483646, and every
output lies in `[0, 1)`. -/
theorem seededRandom_state_in_range (seed : Int) (h0 : 0 < seed) (hb : seed ≤ 535919512985)
    (hnd : ¬ (2147483647 : Int) ∣ seed) :
    (∀ k, 1 ≤ k ∨ seed ≤ 2147483646 →
      1 ≤ ((seededRandom seed).afterDouble k).s ∧
        ((seededRandom seed).afterDouble k).s ≤ 2147483646) ∧
    (∀ k, 1 ≤ k →
      0 ≤ (seededRandom seed).outputDouble k ∧ (seededRandom seed).outputDouble k < 1) := by
  have hsmall := product_small_of_le seed (by omega) hb
  constructor
  · intro k hk
    rw [afterDouble_eq_after seed hsmall, after_seededRandom]
    exact lehmerState_range seed h0 hnd k hk
  · intro k hk
    rw [outputDouble_eq_output seed hsmall, output_seededRandom seed k hk]
    obtain ⟨hlo, hhi⟩ := lehmerState_range seed h0 hnd k (Or.inl hk)
    have hlo' : (1 : ℚ) ≤ ((lehmerState seed k : Int) : ℚ) := by exact_mod_cast hlo
    have hhi' : ((lehmerState seed k : Int) : ℚ) ≤ 2147483646 := by exact_mod_cast hhi
    constructor
    · apply div_nonneg
      · linarith
      · norm_num
    · rw [div_lt_one (by norm_num)]
      linarith

/-- Witness of C19 amended: the seed of 15 March 2024. -/
theorem seededRandom_state_in_range_witness :
    (∀ k, 1 ≤ k ∨ (20240315 : Int) ≤ 2147483646 →
      1 ≤ ((seededRandom 20240315).afterDouble k).s ∧
        ((seededRandom 20240315).afterDouble k).s ≤ 2147483646) ∧
    (∀ k, 1 ≤ k →
      0 ≤ (seededRandom 20240315).outputDouble k ∧ (seededRandom 20240315).outputDouble k < 1) :=
  seededRandom_state_in_range 20240315 (by decide) (by decide) (by decide)

/-- Witness of C16: 15 March 2024 over the sample catalog. -/
theorem dailyFortune_formula_witness :
    (dailyFortune ⟨2024, 2, 15, 9, 0, 0, 0⟩ (allCards sampleDeck)).isReversed
      = decide ((seededRandom (dateSeed ⟨2024, 2, 15, 9, 0, 0, 0⟩)).output 2 > 1 / 2) :=
  (dailyFortune_formula ⟨2024, 2, 15, 9, 0, 0, 0⟩ (allCards sampleDeck)).2.2.1

theorem floor_index (s : Int) :
    ⌊((s : ℚ) - 1) / 2147483646 * 78⌋ = (s - 1) * 78 / 2147483646 := by
  rw [Int.floor_eq_iff]
  have h1 : 2147483646 * ((s - 1) * 78 / 2147483646) ≤ (s - 1) * 78 := by omega
  have h2 : (s - 1) * 78 < 2147483646 * ((s - 1) * 78 / 2147483646) + 2147483646 := by omega
  have h1' : (2147483646 : ℚ) * (((s - 1) * 78 / 2147483646 : Int) : ℚ) ≤ ((s : ℚ) - 1) * 78 := by
    exact_mod_cast h1
  have h2' : ((s : ℚ) - 1) * 78
      < (2147483646 : ℚ) * (((s - 1) * 78 / 2147483646 : Int) : ℚ) + 2147483646 := by
    exact_mod_cast h2
  constructor
  · rw [div_mul_eq_mul_div, le_div_iff₀ (by norm_num)]
    linarith
  · rw [div_mul_eq_mul_div, div_lt_iff₀ (by norm_num)]
    linarith

theorem cardIndex_eq (d : JsDate) (cards : List Card) (hlen : cards.length = 78)
    (hs : 0 ≤ dateSeed d) :
    (dailyFortune d cards).cardIndex = ((dateSeed d * 16807) % 2147483647 - 1) * 78 / 2147483646 := by
  rw [dailyFortune_eq, hlen, Int.tmod_eq_emod (by positivity) (by norm_num)]
  exact floor_index _

theorem two_indices_core (x0 t : Int) (hx : 0 ≤ x0 ∧ x0 < 2147483647)
    (ht : 0 ≤ t ∧ t ≤ 18991910) (hpos : 1 ≤ (x0 + t) % 2147483647) :
    ((x0 + t) % 2147483647 - 1) * 78 / 2147483646
      = (if x0 + 18991910 < 2147483647 then (x0 - 1) * 78 / 2147483646 else 77) ∨
    ((x0 + t) % 2147483647 - 1) * 78 / 2147483646
      = (if x0 + 18991910 < 2147483647 then (x0 - 1) * 78 / 2147483646 + 1 else 0) := by
  by_cases hw : x0 + t < 2147483647
  · have hmod : (x0 + t) % 2147483647 = x0 + t := Int.emod_eq_of_lt (by omega) hw
    rw [hmod] at hpos ⊢
    split <;> omega
  · have hmod : (x0 + t) % 2147483647 = x0 + t - 2147483647 := by omega
    rw [hmod] at hpos ⊢
    split <;> omega

/-- C20 as stated fails in its reason: in the year 51 the first generator output moves by
more than 1/78 between 31 October and 1 November (the state wraps past the modulus); the
index goes from 77 to 0. -/
theorem first_output_wraps_in_year_51 :
    (1 : ℚ) / 78 ≤ (seededRandom (dateSeed ⟨51, 9, 31, 0, 0, 0, 0⟩)).output 1
        - (seededRandom (dateSeed ⟨51, 10, 1, 0, 0, 0, 0⟩)).output 1 ∧
    (dailyFortune ⟨51, 9, 31, 0, 0, 0, 0⟩ (allCards sampleDeck)).cardIndex = 77 ∧
    (dailyFortune ⟨51, 10, 1, 0, 0, 0, 0⟩ (allCards sampleDeck)).cardIndex = 0 := by
  have e1 : Int.tmod ((51 * 10000 + (9 + 1) * 100 + 31) * 16807) 2147483647 = 2146447076 := by
    decide
  have e2 : Int.tmod ((51 * 10000 + (10 + 1) * 100 + 1) * 16807) 2147483647 = 139919 := by
    decide
  have h1 : (seededRandom (dateSeed ⟨51, 9, 31, 0, 0, 0, 0⟩)).output 1
      = (((2146447076 : Int) : ℚ) - 1) / 2147483646 := by
    show (((Int.tmod ((51 * 10000 + (9 + 1) * 100 + 31) * 16807) 2147483647 : Int) : ℚ) - 1)
      / 2147483646 = _
    rw [e1]
  have h2 : (seededRandom (dateSeed ⟨51, 10, 1, 0, 0, 0, 0⟩)).output 1
      = (((139919 : Int) : ℚ) - 1) / 2147483646 := by
    show (((Int.tmod ((51 * 10000 + (10 + 1) * 100 + 1) * 16807) 2147483647 : Int) : ℚ) - 1)
      / 2147483646 = _
    rw [e2]
  refine ⟨?_, ?_, ?_⟩
  · rw [h1, h2]
    norm_num
  · rw [cardIndex_eq _ _ length_sampleCatalog (by decide)]
    decide
  · rw [cardIndex_eq _ _ length_sampleCatalog (by decide)]
    decide

/-- C20 amended. Over a 78-card catalog, for every year from 1 to 9999 the daily
selector's card index takes at most two distinct values over all dates of that year
(month 1-12, day 1-31), two adjacent values or 77 and 0, and the seeds of two such dates
differ by at most 1130. -/
theorem dailyFortune_two_indices (year : Int) (hy : 1 ≤ year ∧ year ≤ 9999) :
    (∃ a b : Int, (b = a + 1 ∨ (a = 77 ∧ b = 0)) ∧
      ∀ (d : JsDate) (cards : List Card), cards.length = 78 → d.fullYear = year →
      (0 ≤ d.month ∧ d.month ≤ 11) → (1 ≤ d.date ∧ d.date ≤ 31) →
      (dailyFortune d cards).cardIndex = a ∨ (dailyFortune d cards).cardIndex = b) ∧
    (∀ d1 d2 : JsDate, d1.fullYear = year → d2.fullYear = year →
      (0 ≤ d1.month ∧ d1.month ≤ 11) → (1 ≤ d1.date ∧ d1.date ≤ 31) →
      (0 ≤ d2.month ∧ d2.month ≤ 11) → (1 ≤ d2.date ∧ d2.date ≤ 31) →
      dateSeed d1 - dateSeed d2 ≤ 1130) := by
  constructor
  · refine ⟨if ((year * 10000 + 101) * 16807) % 2147483647 + 18991910 < 2147483647
        then (((year * 10000 + 101) * 16807) % 2147483647 - 1) * 78 / 2147483646 else 77,
      if ((year * 10000 + 101) * 16807) % 2147483647 + 18991910 < 2147483647
        then (((year * 10000 + 101) * 16807) % 2147483647 - 1) * 78 / 2147483646 + 1 else 0,
      ?_, ?_⟩
    · split
      · exact Or.inl rfl
      · exact Or.inr ⟨rfl, rfl⟩
    intro d cards hlen hyear hm hd
    have hs0 : 0 < dateSeed d := by unfold dateSeed; omega
    have hs1 : dateSeed d < 2147483647 := by unfold dateSeed; omega
    have hstep := (seededStep_range (dateSeed d) hs0 hs1).1
    rw [Int.tmod_eq_emod (by positivity) (by norm_num)] at hstep
    have hsplit : dateSeed d * 16807
        = (year * 10000 + 101) * 16807 + (d.month * 100 + d.date - 1) * 16807 := by
      unfold dateSeed
      rw [hyear]
      ring
    rw [cardIndex_eq d cards hlen (by omega)]
    rw [hsplit, ← Int.emod_add_emod] at hstep ⊢
    exact two_indices_core _ _
      ⟨Int.emod_nonneg _ (by norm_num), Int.emod_lt_of_pos _ (by norm_num)⟩
      ⟨by omega, by omega⟩ hstep
  · intro d1 d2 h1 h2 hm1 hd1 hm2 hd2
    unfold dateSeed
    omega

/-- Witness of C20 amended: the year 2024. -/
theorem dailyFortune_two_indices_witness :
    (∃ a b : Int, (b = a + 1 ∨ (a = 77 ∧ b = 0)) ∧
      ∀ (d : JsDate) (cards : List Card), cards.length = 78 → d.fullYear = 2024 →
      (0 ≤ d.month ∧ d.month ≤ 11) → (1 ≤ d.date ∧ d.date ≤ 31) →
      (dailyFortune d cards).cardIndex = a ∨ (dailyFortune d cards).cardIndex = b) ∧
    (∀ d1 d2 : JsDate, d1.fullYear = 2024 → d2.fullYear = 2024 →
      (0 ≤ d1.month ∧ d1.month ≤ 11) → (1 ≤ d1.date ∧ d1.date ≤ 31) →
      (0 ≤ d2.month ∧ d2.month ≤ 11) → (1 ≤ d2.date ∧ d2.date ≤ 31) →
      dateSeed d1 - dateSeed d2 ≤ 1130) :=
  dailyFortune_two_indices 2024 (by decide)

theorem length_trimChars_le (cs : List Char) : (trimChars cs).length ≤ cs.length := by
  unfold trimChars
  rw [List.length_reverse]
  have h1 := (List.dropWhile_sublist isJsWhitespace
    (l := (cs.dropWhile isJsWhitespace).reverse)).length_le
  have h2 := (List.dropWhile_sublist isJsWhitespace (l := cs)).length_le
  rw [List.length_reverse] at h1
  omega

theorem wrapLoop_length_le (words : List (List Char)) (line : List Char)
    (hw : ∀ w ∈ words, w.length ≤ 60) (hl : line.length ≤ 62) :
    ∀ l ∈ wrapLoop words line, l.length ≤ 62 := by
  induction words generalizing line with
  | nil =>
    intro l hmem
    unfold wrapLoop at hmem
    split at hmem
    · rw [List.mem_singleton] at hmem
      rw [hmem]
      exact (length_trimChars_le line).trans hl
    · simp at hmem
  | cons word rest ih =>
    intro l hmem
    have hrest : ∀ w ∈ rest, w.length ≤ 60 := fun w h => hw w (List.mem_cons_of_mem _ h)
    unfold wrapLoop at hmem
    split at hmem
    · rcases List.mem_cons.mp hmem with h | h
      · rw [h]
        exact (length_trimChars_le line).trans hl
      · exact ih word hrest ((hw word (List.mem_cons_self _ _)).trans (by omega)) l h
    · rename_i hlen
      exact ih _ hrest (by omega) l hmem

/-- C17 (the code at the failing input). For the meaning of three words of 60, 30 and 31
characters the second line `revealCard` prints holds the last two words and has 62
characters, more than 60. -/
theorem wrapMeaning_emits_62 :
    (wrapMeaning longMeaning).map String.length = [60, 62] ∧
    ∀ w ∈ splitSpaces longMeaning.data, w.length ≤ 60 := by
  decide

/-- C18 (the code at the failing input). With the hour entered as `0` and the minute as
`30`, `setupDailyFortune` returns the hour 8 and the cron string `30 8 * * *`: the entered
hour 0 is taken for a blank. -/
theorem setupDailyFortune_hour_zero :
    setupDailyFortune "y" "0" "30" "#general"
      = some ⟨true, "30 8 * * *", some "#general", 8, 30⟩ ∧
    setupDailyFortune "y" "" "" "" = some ⟨true, "0 8 * * *", none, 8, 0⟩ ∧
    setupDailyFortune "y" "23" "0" "" = some ⟨true, "0 23 * * *", none, 23, 0⟩ := by
  decide

set_option maxRecDepth 100000 in
theorem setupDailyFortune_nonzero_hours :
    ∀ h ∈ List.range 24, h ≠ 0 → ∀ m ∈ List.range 60,
      setupDailyFortune "" (toString h) (toString m) ""
        = some ⟨true, toString m ++ " " ++ toString h ++ " * * *", none, (h : Int), (m : Int)⟩ := by
  decide

theorem setKey_self (fields : List (String × Json)) (key : String) (value : Json)
    (h : fields.lookup key = some value) : setKey fields key value = fields := by
  induction fields with
  | nil => simp [List.lookup] at h
  | cons p rest ih =>
    obtain ⟨k', v'⟩ := p
    rw [lookup_cons_ite] at h
    unfold setKey
    by_cases hk : key = k'
    · rw [if_pos hk] at h
      cases h
      rw [if_pos hk.symm, hk]
    · rw [if_neg hk] at h
      rw [if_neg (Ne.symm hk), ih h]

theorem mergeFields_stable (source result : List (String × Json))
    (h : ∀ p ∈ source, ∃ m, result.lookup p.1 = some m ∧ mergedValue (some m) p.2 = m) :
    mergeFields result source = result := by
  induction source with
  | nil => rfl
  | cons p rest ih =>
    obtain ⟨key, value⟩ := p
    obtain ⟨m, hm, hv⟩ := h (key, value) (List.mem_cons_self _ _)
    rw [mergeFields_cons, hm, hv, setKey_self result key m hm]
    exact ih fun q hq => h q (List.mem_cons_of_mem _ hq)

theorem lookup_of_mem_of_nodup (fields : List (String × Json)) (key : String) (value : Json)
    (hn : (fields.map Prod.fst).Nodup) (hm : (key, value) ∈ fields) :
    fields.lookup key = some value := by
  induction fields with
  | nil => simp at hm
  | cons p rest ih =>
    obtain ⟨k', v'⟩ := p
    rw [List.map_cons, List.nodup_cons] at hn
    rw [lookup_cons_ite]
    rcases List.mem_cons.mp hm with h | h
    · cases h
      rw [if_pos rfl]
    · have hne : key ≠ k' := by
        intro he
        apply hn.1
        rw [← he]
        exact List.mem_map.mpr ⟨(key, value), h, rfl⟩
      rw [if_neg hne]
      exact ih hn.2 h

theorem plainFields_mem (fields : List (String × Json)) (p : String × Json)
    (hp : plainFields fields = true) (h : p ∈ fields) : p.2.plain = true := by
  induction fields with
  | nil => simp at h
  | cons q rest ih =>
    obtain ⟨k', v'⟩ := q
    simp only [plainFields, Bool.and_eq_true] at hp
    rcases List.mem_cons.mp h with h | h
    · rw [h]; exact hp.1.2
    · exact ih hp.2 h

theorem orEmpty_obj (fields : List (String × Json)) :
    orEmpty (some (Json.obj fields)) = Json.obj fields := rfl

theorem deepMerge_obj_idem (n : Nat) :
    ∀ (sf : List (String × Json)), sizeOf sf ≤ n → (Json.obj sf).plain = true →
      ∀ target, deepMerge (deepMerge target (.obj sf)) (.obj sf) = deepMerge target (.obj sf) := by
  induction n with
  | zero =>
    intro sf hsize
    cases sf with
    | nil => intro _ target; simp [deepMerge, mergeFields, ownProps]
    | cons p rest => simp at hsize
  | succ n ih =>
    intro sf hsize hplain target
    obtain ⟨hpf, hnd⟩ := plain_obj sf hplain
    have hstable : mergeFields (mergeFields (ownProps target) sf) sf
        = mergeFields (ownProps target) sf := by
      apply mergeFields_stable
      intro p hp
      obtain ⟨key, value⟩ := p
      have hl := lookup_mergeFields sf (ownProps target) key hnd
      rw [lookup_of_mem_of_nodup sf key value hnd hp] at hl
      refine ⟨_, hl, ?_⟩
      cases value with
      | obj sub =>
        have hsub : (Json.obj sub).plain = true := plainFields_mem sf _ hpf hp
        have hlt : sizeOf sub ≤ n := by
          have h1 := List.sizeOf_lt_of_mem hp
          simp only [Prod.mk.sizeOf_spec, Json.obj.sizeOf_spec] at h1
          omega
        show deepMerge (orEmpty (some (deepMerge (orEmpty ((ownProps target).lookup key))
          (.obj sub)))) (.obj sub) = _
        have hobj : ∀ t, orEmpty (some (deepMerge t (.obj sub))) = deepMerge t (.obj sub) := by
          intro t
          simp [deepMerge, orEmpty, Json.truthy]
        rw [hobj]
        exact ih sub hlt hsub _
      | null => rfl
      | bool b => rfl
      | num k => rfl
      | str s => rfl
      | arr items => rfl
    have e : ∀ t, deepMerge t (.obj sf) = .obj (mergeFields (ownProps t) sf) := fun t => by
      simp only [deepMerge]
    rw [e, e]
    show Json.obj (mergeFields (mergeFields (ownProps target) sf) sf) = _
    rw [hstable]

/-- C21. For a JSON value `target` and a plain JSON object `source`, merging `source` a
second time changes nothing: `deepMerge(deepMerge(target, source), source)` is
`deepMerge(target, source)`, key for key and in the same order. -/
theorem deepMerge_idempotent (target : Json) (sf : List (String × Json))
    (hs : (Json.obj sf).plain = true) :
    deepMerge (deepMerge target (.obj sf)) (.obj sf) = deepMerge target (.obj sf) :=
  deepMerge_obj_idem (sizeOf sf) sf (Nat.le_refl _) hs target

/-- Witness of C21: the sample configuration and the sample skill entry. -/
theorem deepMerge_idempotent_witness :
    deepMerge (deepMerge sampleConfig sampleSkillConfig) sampleSkillConfig
      = deepMerge sampleConfig sampleSkillConfig :=
  deepMerge_idempotent sampleConfig _ (by decide)

theorem splitSpaces_ne_nil (cs : List Char) : splitSpaces cs ≠ [] := by
  cases cs with
  | nil => simp [splitSpaces]
  | cons c cs =>
    unfold splitSpaces
    split
    · simp
    · split <;> simp

theorem splitSpaces_append_space (l1 l2 : List Char) :
    splitSpaces (l1 ++ ' ' :: l2) = splitSpaces l1 ++ splitSpaces l2 := by
  induction l1 with
  | nil => simp [splitSpaces]
  | cons c cs ih =>
    rw [List.cons_append, splitSpaces, splitSpaces, ih]
    by_cases hc : c = ' '
    · simp [hc]
    · rw [if_neg hc, if_neg hc]
      cases h : splitSpaces cs with
      | nil => exact absurd h (splitSpaces_ne_nil cs)
      | cons w ws => rfl

theorem splitSpaces_word (w : List Char) (h : ∀ c ∈ w, c ≠ ' ') : splitSpaces w = [w] := by
  induction w with
  | nil => rfl
  | cons c cs ih =>
    rw [splitSpaces, if_neg (h c (List.mem_cons_self _ _)),
      ih fun x hx => h x (List.mem_cons_of_mem _ hx)]

theorem mem_splitSpaces_no_space (cs : List Char) :
    ∀ w ∈ splitSpaces cs, ∀ c ∈ w, c ≠ ' ' ∧ c ∈ cs := by
  induction cs with
  | nil => intro w hw c hc; simp [splitSpaces] at hw; subst hw; simp at hc
  | cons a cs ih =>
    intro w hw c hc
    rw [splitSpaces] at hw
    by_cases ha : a = ' '
    · rw [if_pos ha] at hw
      rcases List.mem_cons.mp hw with h | h
      · subst h; simp at hc
      · have := ih w h c hc
        exact ⟨this.1, List.mem_cons_of_mem _ this.2⟩
    · rw [if_neg ha] at hw
      cases hs : splitSpaces cs with
      | nil => exact absurd hs (splitSpaces_ne_nil cs)
      | cons w0 ws =>
        rw [hs] at hw ih
        rcases List.mem_cons.mp hw with h | h
        · subst h
          rcases List.mem_cons.mp hc with h2 | h2
          · subst h2; exact ⟨ha, List.mem_cons_self _ _⟩
          · have := ih w0 (List.mem_cons_self _ _) c h2
            exact ⟨this.1, List.mem_cons_of_mem _ this.2⟩
        · have := ih w (List.mem_cons_of_mem _ h) c hc
          exact ⟨this.1, List.mem_cons_of_mem _ this.2⟩

theorem wordsOf_append_space (l1 l2 : List Char) :
    wordsOf (l1 ++ ' ' :: l2) = wordsOf l1 ++ wordsOf l2 := by
  unfold wordsOf
  rw [splitSpaces_append_space, List.filter_append]

theorem wordsOf_cons_space (l : List Char) : wordsOf (' ' :: l) = wordsOf l := by
  have := wordsOf_append_space [] l
  have hn : wordsOf ([] : List Char) = [] := rfl
  rw [hn] at this
  exact this

theorem wordsOf_concat_space (l : List Char) : wordsOf (l ++ [' ']) = wordsOf l := by
  have := wordsOf_append_space l []
  simpa [wordsOf, splitSpaces] using this

theorem wordsOf_word (w : List Char) (h : ∀ c ∈ w, c ≠ ' ') :
    wordsOf w = [w].filter fun x => !x.isEmpty := by
  unfold wordsOf
  rw [splitSpaces_word w h]

theorem onlySpaces_of_sublist (l1 l2 : List Char) (hs : l1.Sublist l2) (h : OnlySpaces l2) :
    OnlySpaces l1 := fun c hc => h c (hs.subset hc)

theorem wordsOf_dropWhile (l : List Char) (h : OnlySpaces l) :
    wordsOf (l.dropWhile isJsWhitespace) = wordsOf l := by
  induction l with
  | nil => rfl
  | cons c cs ih =>
    have hcs : OnlySpaces cs := fun x hx => h x (List.mem_cons_of_mem _ hx)
    by_cases hw : isJsWhitespace c = true
    · have hc : c = ' ' := h c (List.mem_cons_self _ _) hw
      rw [List.dropWhile_cons_of_pos hw, ih hcs, hc, wordsOf_cons_space]
    · rw [List.dropWhile_cons_of_neg hw]

theorem wordsOf_rdropWhile (l : List Char) (h : OnlySpaces l) :
    wordsOf (l.rdropWhile isJsWhitespace) = wordsOf l := by
  induction l using List.reverseRecOn with
  | nil => rfl
  | append_singleton cs c ih =>
    have hcs : OnlySpaces cs := fun x hx => h x (List.mem_append_left _ hx)
    by_cases hw : isJsWhitespace c = true
    · have hc : c = ' ' := h c (List.mem_append_right _ (List.mem_singleton_self _)) hw
      rw [List.rdropWhile_concat_pos _ _ _ hw, ih hcs, hc, wordsOf_concat_space]
    · rw [List.rdropWhile_concat_neg _ _ _ hw]

theorem wordsOf_trimChars (l : List Char) (h : OnlySpaces l) :
    wordsOf (trimChars l) = wordsOf l := by
  have e : trimChars l = (l.dropWhile isJsWhitespace).rdropWhile isJsWhitespace := rfl
  rw [e, wordsOf_rdropWhile _ (onlySpaces_of_sublist _ _ (List.dropWhile_sublist _) h),
    wordsOf_dropWhile l h]

theorem onlySpaces_append_word (line word : List Char) (hl : OnlySpaces line)
    (hw : ∀ c ∈ word, isJsWhitespace c = false) : OnlySpaces (line ++ ' ' :: word) := by
  intro c hc hws
  rcases List.mem_append.mp hc with h | h
  · exact hl c h hws
  · rcases List.mem_cons.mp h with h2 | h2
    · exact h2
    · rw [hw c h2] at hws
      exact absurd hws (by simp)

theorem wrapLoop_words (words : List (List Char)) (line : List Char)
    (hw : ∀ w ∈ words, ∀ c ∈ w, c ≠ ' ' ∧ isJsWhitespace c = false) (hl : OnlySpaces line) :
    (wrapLoop words line).flatMap wordsOf = wordsOf line ++ words.filter fun w => !w.isEmpty := by
  induction words generalizing line with
  | nil =>
    unfold wrapLoop
    split
    · simp [wordsOf_trimChars line hl]
    · rename_i hne
      have hnil : trimChars line = [] := by simpa using hne
      have := wordsOf_trimChars line hl
      rw [hnil] at this
      have hn : wordsOf ([] : List Char) = [] := rfl
      simp only [List.flatMap_nil, List.filter_nil, List.append_nil]
      rw [← this, hn]
  | cons word rest ih =>
    have hrest : ∀ w ∈ rest, ∀ c ∈ w, c ≠ ' ' ∧ isJsWhitespace c = false :=
      fun w h => hw w (List.mem_cons_of_mem _ h)
    have hword := hw word (List.mem_cons_self _ _)
    have hwordOnly : OnlySpaces word := by
      intro c hc hws
      rw [(hword c hc).2] at hws
      exact absurd hws (by simp)
    have hww : wordsOf word = [word].filter fun x => !x.isEmpty :=
      wordsOf_word word fun c hc => (hword c hc).1
    unfold wrapLoop
    split
    · rw [List.flatMap_cons, ih word hrest hwordOnly, wordsOf_trimChars line hl, hww]
      by_cases hwe : word = [] <;> simp [List.filter_cons, hwe]
    · rw [ih _ hrest (onlySpaces_append_word line word hl fun c hc => (hword c hc).2),
        wordsOf_append_space, hww]
      by_cases hwe : word = [] <;> simp [List.filter_cons, hwe]

/-- C22. For every meaning whose only white space is the space (words separated by
spaces), splitting the lines the wrap loop of `revealCard` prints on spaces, in the order
printed and dropping the empty pieces, gives exactly the meaning's sequence of non-empty
words: no word is lost, split, doubled or moved. -/
theorem wrapMeaning_keeps_words (meaning : String) (h : OnlySpaces meaning.data) :
    ((wrapMeaning meaning).flatMap fun line => wordsOf line.data) = wordsOf meaning.data := by
  have hw : ∀ w ∈ splitSpaces meaning.data, ∀ c ∈ w, c ≠ ' ' ∧ isJsWhitespace c = false := by
    intro w hmem c hc
    obtain ⟨h1, h2⟩ := mem_splitSpaces_no_space meaning.data w hmem c hc
    refine ⟨h1, ?_⟩
    cases hws : isJsWhitespace c with
    | false => rfl
    | true => exact absurd (h c h2 hws) h1
  have key := wrapLoop_words (splitSpaces meaning.data) [] hw (fun c hc => by simp at hc)
  have hn : wordsOf ([] : List Char) = [] := rfl
  rw [hn, List.nil_append] at key
  unfold wrapMeaning
  rw [List.flatMap_map]
  exact key

/-- Witness of C22: a meaning of twelve words that wraps into two lines. -/
theorem wrapMeaning_keeps_words_witness :
    ((wrapMeaning "The Fool steps into the unknown with trust and an open heart today").flatMap
        fun line => wordsOf line.data)
      = wordsOf "The Fool steps into the unknown with trust and an open heart today".data :=
  wrapMeaning_keeps_words _ (by unfold OnlySpaces; decide)

theorem lehmerState_multiple (seed : Int) (h : (2147483647 : Int) ∣ seed) (k : Nat)
    (hk : 1 ≤ k) : lehmerState seed k = 0 := by
  induction k with
  | zero => omega
  | succ k ih =>
    rw [lehmerState]
    by_cases hz : k = 0
    · subst hz
      rw [lehmerState]
      obtain ⟨q, rfl⟩ := h
      rw [Int.mul_assoc]
      exact Int.mul_tmod_right _ _
    · rw [ih (by omega)]
      rfl

/-- C24 as stated fails: the seed 539018395397 is 251 times 2147483647, but its product
with 16807, 9059282171437379, is no double and is rounded to 9059282171437380, one above
a multiple of 2147483647, so the state after the first call is 1, the first output is 0
and the index is 0. -/
theorem seededRandom_multiple_251_gives_index_0 :
    (539018395397 : Int) = 251 * 2147483647 ∧
    roundToDouble (539018395397 * 16807) = 9059282171437380 ∧
    ((seededRandom 539018395397).afterDouble 1).s = 1 ∧
    (seededRandom 539018395397).outputDouble 1 = 0 ∧
    ⌊(seededRandom 539018395397).outputDouble 1 * 78⌋ = 0 := by
  have h1 : ((seededRandom 539018395397).afterDouble 1).s = 1 := by decide
  have h2 : (seededRandom 539018395397).outputDouble 1 = 0 := by
    show ((((seededRandom 539018395397).afterDouble 1).s : ℚ) - 1) / 2147483646 = 0
    rw [h1]
    norm_num
  refine ⟨by decide, by decide, h1, h2, ?_⟩
  rw [h2]
  norm_num

/-- C24 amended. For every seed that is a multiple of 2147483647 between -535919512985 and
535919512985 (the seeds whose product with 16807 is below `2^53` in size: the multiples
from -249 to 249 times, 0 included), the state of `seededRandom(seed)` is 0 after every
call and every output equals `-1/2147483646`, which is negative and so outside `[0, 1)`;
the index `floor(output * 78)` is -1. -/
theorem seededRandom_multiple_seed (seed : Int) (h : (2147483647 : Int) ∣ seed)
    (hlo : -535919512985 ≤ seed) (hhi : seed ≤ 535919512985) (k : Nat) (hk : 1 ≤ k) :
    ((seededRandom seed).afterDouble k).s = 0 ∧
    (seededRandom seed).outputDouble k = -1 / 2147483646 ∧
    (seededRandom seed).outputDouble k < 0 ∧
    ⌊(seededRandom seed).outputDouble k * 78⌋ = -1 := by
  have hsmall := product_small_of_le seed hlo hhi
  have hs := lehmerState_multiple seed h k hk
  have hout : (seededRandom seed).outputDouble k = -1 / 2147483646 := by
    rw [outputDouble_eq_output seed hsmall, output_seededRandom seed k hk, hs]
    norm_num
  refine ⟨?_, hout, ?_, ?_⟩
  · rw [afterDouble_eq_after seed hsmall, after_seededRandom, hs]
  · rw [hout]; norm_num
  · rw [hout, Int.floor_eq_iff]
    norm_num

/-- Witness of C24 amended: the seed 0 and the seed 2147483647, third call. -/
theorem seededRandom_multiple_seed_witness :
    (((seededRandom 0).afterDouble 1).s = 0 ∧
      (seededRandom 0).outputDouble 1 = -1 / 2147483646 ∧
      (seededRandom 0).outputDouble 1 < 0 ∧
      ⌊(seededRandom 0).outputDouble 1 * 78⌋ = -1) ∧
    jsGet (allCards sampleDeck) ⌊(seededRandom 2147483647).outputDouble 3 * 78⌋ = none :=
  ⟨seededRandom_multiple_seed 0 (by decide) (by decide) (by decide) 1 (by decide),
    by rw [(seededRandom_multiple_seed 2147483647 (by decide) (by decide) (by decide) 3
      (by decide)).2.2.2]; rfl⟩

/-! ## The configuration update: a second run changes nothing -/

theorem deepMerge_skillConfig (target : Json) (falKey : String) :
    deepMerge target (skillConfig falKey) =
      .obj (setKey (ownProps target) "skills"
        (.obj (setKey (ownProps (orEmpty ((ownProps target).lookup "skills"))) "entries"
          (deepMerge
            (orEmpty ((ownProps (orEmpty ((ownProps target).lookup "skills"))).lookup "entries"))
            (entriesConfig falKey))))) := by
  simp [skillConfig, entriesConfig, deepMerge, mergeFields]

theorem deepMerge_entriesConfig_idem (target : Json) (falKey : String) :
    deepMerge (deepMerge target (entriesConfig falKey)) (entriesConfig falKey)
      = deepMerge target (entriesConfig falKey) := by
  unfold entriesConfig
  exact deepMerge_obj_idem _ _ le_rfl (by simp [Json.plain, plainFields]) target

theorem deepMerge_entriesConfig_truthy (target : Json) (falKey : String) :
    (deepMerge target (entriesConfig falKey)).truthy = true := by
  simp [entriesConfig, deepMerge, Json.truthy]

theorem orDefault_of_truthy (v fallback : Json) (h : v.truthy = true) :
    orDefault (some v) fallback = v := by
  simp [orDefault, h]

theorem orDefault_truthy (v : Option Json) (fallback : Json) (h : fallback.truthy = true) :
    (orDefault v fallback).truthy = true := by
  unfold orDefault
  cases v with
  | none => exact h
  | some x =>
    by_cases hx : x.truthy = true
    · simp [hx]
    · simp [hx, h]

theorem orEmpty_of_truthy (v : Json) (h : v.truthy = true) : orEmpty (some v) = v := by
  simp [orEmpty, h]

theorem dirsStep_fix (dirs out : Json) (dir : String) (ht : dirs.truthy = true)
    (h : dirsStep dirs dir = .ok out) : out.truthy = true ∧ dirsStep out dir = .ok out := by
  cases dirs with
  | arr items =>
    by_cases hany : (items.any fun x => x.isStr dir) = true
    · simp only [dirsStep, hany, if_true] at h
      cases h
      exact ⟨rfl, by simp only [dirsStep, hany, if_true]⟩
    · simp only [dirsStep, hany] at h
      cases h
      refine ⟨rfl, ?_⟩
      have : ((items ++ [Json.str dir]).any fun x => x.isStr dir) = true := by
        simp [Json.isStr]
      simp only [dirsStep, this, if_true]
  | str text =>
    by_cases hin : includesChars dir.data text.data = true
    · simp only [dirsStep, hin, if_true] at h
      cases h
      exact ⟨ht, by simp only [dirsStep, hin, if_true]⟩
    · simp [dirsStep, hin] at h
  | null => simp [dirsStep] at h
  | bool b => simp [dirsStep] at h
  | num n => simp [dirsStep] at h
  | obj fields => simp [dirsStep] at h

theorem setKey_setKey (fields : List (String × Json)) (key : String) (value : Json) :
    setKey (setKey fields key value) key value = setKey fields key value :=
  setKey_self _ _ _ (by rw [lookup_setKey, if_pos rfl])

theorem loadStep_fix (load out : Json) (dir : String) (h : loadStep load dir = .ok out) :
    out.truthy = true ∧ loadStep out dir = .ok out := by
  cases load with
  | obj fields =>
    simp only [loadStep] at h
    cases hd : dirsStep (orDefault (fields.lookup "extraDirs") (.arr [])) dir with
    | error e => rw [hd] at h; cases h
    | ok dirs =>
      rw [hd] at h
      cases h
      obtain ⟨ht, hfix⟩ := dirsStep_fix _ _ _
        (orDefault_truthy (fields.lookup "extraDirs") (.arr []) rfl) hd
      refine ⟨rfl, ?_⟩
      simp only [loadStep, lookup_setKey, if_true, orDefault_of_truthy _ _ ht, hfix,
        setKey_setKey]
  | arr items =>
    simp only [loadStep] at h
    cases h
    exact ⟨rfl, rfl⟩
  | null => simp [loadStep] at h
  | bool b => simp [loadStep] at h
  | num n => simp [loadStep] at h
  | str s => simp [loadStep] at h

theorem ensureExtraDirs_fix (skills out : List (String × Json)) (dir : String)
    (h : ensureExtraDirs skills dir = .ok out) :
    ensureExtraDirs out dir = .ok out ∧ ∀ k, k ≠ "load" → out.lookup k = skills.lookup k := by
  unfold ensureExtraDirs at h
  cases hl : loadStep (orDefault (skills.lookup "load") (.obj [])) dir with
  | error e => rw [hl] at h; cases h
  | ok load =>
    rw [hl] at h
    cases h
    obtain ⟨ht, hfix⟩ := loadStep_fix _ _ _ hl
    constructor
    · simp only [ensureExtraDirs, lookup_setKey, if_true, orDefault_of_truthy _ _ ht, hfix,
        setKey_setKey]
    · intro k hk
      rw [lookup_setKey, if_neg hk]

theorem jobsStep_fix (jobs job : Json) (ht : jobs.truthy = true) :
    (jobsStep jobs job).truthy = true ∧ jobsStep (jobsStep jobs job) job = jobsStep jobs job := by
  cases jobs with
  | obj fields => exact ⟨rfl, by simp only [jobsStep, setKey_setKey]⟩
  | arr items => exact ⟨rfl, rfl⟩
  | null => exact ⟨ht, rfl⟩
  | bool b => exact ⟨ht, rfl⟩
  | num n => exact ⟨ht, rfl⟩
  | str s => exact ⟨ht, rfl⟩

theorem cronStep_fix (cron out job : Json) (h : cronStep cron job = .ok out) :
    out.truthy = true ∧ cronStep out job = .ok out := by
  cases cron with
  | obj fields =>
    simp only [cronStep] at h
    cases h
    obtain ⟨ht, hfix⟩ := jobsStep_fix (orDefault (fields.lookup "jobs") (.obj [])) job
      (orDefault_truthy (fields.lookup "jobs") (.obj []) rfl)
    refine ⟨rfl, ?_⟩
    simp only [cronStep, lookup_setKey, if_true, orDefault_of_truthy _ _ ht, hfix,
      setKey_setKey]
  | arr items =>
    simp only [cronStep] at h
    cases h
    exact ⟨rfl, rfl⟩
  | null => simp [cronStep] at h
  | bool b => simp [cronStep] at h
  | num n => simp [cronStep] at h
  | str s => simp [cronStep] at h

theorem ensureCronJob_fix (config out : List (String × Json)) (schedule : FortuneSchedule)
    (h : ensureCronJob config schedule = .ok out) :
    ensureCronJob out schedule = .ok out ∧
      ∀ k, k ≠ "cron" → out.lookup k = config.lookup k := by
  unfold ensureCronJob at h
  cases hl : cronStep (orDefault (config.lookup "cron") (.obj [])) (fortuneJob schedule) with
  | error e => rw [hl] at h; cases h
  | ok cron =>
    rw [hl] at h
    cases h
    obtain ⟨ht, hfix⟩ := cronStep_fix _ _ _ hl
    constructor
    · simp only [ensureCronJob, lookup_setKey, if_true, orDefault_of_truthy _ _ ht, hfix,
        setKey_setKey]
    · intro k hk
      rw [lookup_setKey, if_neg hk]

theorem updateOpenClawConfig_of_fix (config skills : List (String × Json)) (entries : Json)
    (falKey : String) (dailyFortune : Option FortuneSchedule) (dir : String)
    (hs : config.lookup "skills" = some (.obj skills))
    (he : skills.lookup "entries" = some entries)
    (het : entries.truthy = true)
    (hee : deepMerge entries (entriesConfig falKey) = entries)
    (hd : ensureExtraDirs skills dir = .ok skills)
    (hc : ∀ schedule, dailyFortune = some schedule → schedule.enabled = true →
      ensureCronJob config schedule = .ok config) :
    updateOpenClawConfig (some (.obj config)) falKey dailyFortune dir = .ok (.obj config) := by
  have hm : deepMerge (orEmpty (some (.obj config))) (skillConfig falKey) = .obj config := by
    rw [deepMerge_skillConfig, orEmpty_obj]
    simp only [ownProps]
    rw [hs, orEmpty_obj]
    simp only [ownProps]
    rw [he, orEmpty_of_truthy _ het, hee, setKey_self _ _ _ he, setKey_self _ _ _ hs]
  unfold updateOpenClawConfig
  rw [hm]
  simp only [hs, hd, setKey_self _ _ _ hs]
  cases dailyFortune with
  | none => rfl
  | some schedule =>
    by_cases hen : schedule.enabled = true
    · simp only [hen, if_true, hc schedule rfl hen]
    · simp only [hen]
      rfl

theorem updateOpenClawConfig_again (existing : Option Json) (falKey : String)
    (dailyFortune : Option FortuneSchedule) (dir : String) (out : Json)
    (h : updateOpenClawConfig existing falKey dailyFortune dir = .ok out) :
    updateOpenClawConfig (some out) falKey dailyFortune dir = .ok out := by
  unfold updateOpenClawConfig at h
  rw [deepMerge_skillConfig] at h
  simp only [lookup_setKey, if_true] at h
  generalize hsk : ownProps (orEmpty ((ownProps (orEmpty existing)).lookup "skills")) = sk at h
  generalize htop : ownProps (orEmpty existing) = top at h
  generalize hen : deepMerge (orEmpty (sk.lookup "entries")) (entriesConfig falKey) = entries at h
  have het : entries.truthy = true := by
    rw [← hen]
    exact deepMerge_entriesConfig_truthy _ _
  have hee : deepMerge entries (entriesConfig falKey) = entries := by
    rw [← hen]
    exact deepMerge_entriesConfig_idem _ _
  cases hx : ensureExtraDirs (setKey sk "entries" entries) dir with
  | error e => rw [hx] at h; simp at h
  | ok skills1 =>
    rw [hx] at h
    obtain ⟨hfix, hkeep⟩ := ensureExtraDirs_fix _ _ _ hx
    have he : skills1.lookup "entries" = some entries := by
      rw [hkeep "entries" (by decide), lookup_setKey, if_pos rfl]
    have hs : (setKey (setKey top "skills" (.obj (setKey sk "entries" entries))) "skills"
        (.obj skills1)).lookup "skills" = some (.obj skills1) := by
      rw [lookup_setKey, if_pos rfl]
    cases dailyFortune with
    | none =>
      simp only [Except.ok.injEq] at h
      rw [← h]
      exact updateOpenClawConfig_of_fix _ skills1 entries falKey none dir hs he het hee hfix
        (fun _ hn => by cases hn)
    | some schedule =>
      by_cases hon : schedule.enabled = true
      · simp only [hon, if_true] at h
        cases hc : ensureCronJob (setKey (setKey top "skills"
            (.obj (setKey sk "entries" entries))) "skills" (.obj skills1)) schedule with
        | error e => rw [hc] at h; simp at h
        | ok config1 =>
          rw [hc] at h
          simp only [Except.ok.injEq] at h
          rw [← h]
          obtain ⟨hcfix, hckeep⟩ := ensureCronJob_fix _ _ _ hc
          refine updateOpenClawConfig_of_fix config1 skills1 entries falKey (some schedule) dir
            ?_ he het hee hfix ?_
          · rw [hckeep "skills" (by decide), hs]
          · intro s hs2 _
            cases hs2
            exact hcfix
      · simp only [hon] at h
        simp only [Bool.false_eq_true, if_false, Except.ok.injEq] at h
        rw [← h]
        exact updateOpenClawConfig_of_fix _ skills1 entries falKey (some schedule) dir hs he
          het hee hfix (fun s hs2 hs3 => by cases hs2; exact absurd hs3 hon)

theorem ensureExtraDirs_of_shape (skills fields : List (String × Json)) (old : List Json)
    (dir : String) (hl : orDefault (skills.lookup "load") (.obj []) = .obj fields)
    (hd : orDefault (fields.lookup "extraDirs") (.arr []) = .arr old) :
    ensureExtraDirs skills dir = .ok (setKey skills "load" (.obj (setKey fields "extraDirs"
      (.arr (if old.any (fun x => x.isStr dir) then old else old ++ [.str dir]))))) := by
  unfold ensureExtraDirs
  rw [hl]
  simp only [loadStep]
  rw [hd]
  by_cases hany : (old.any fun x => x.isStr dir) = true
  · simp only [dirsStep, hany, if_true]
  · simp only [dirsStep, hany]
    rfl

theorem getPath_extraDirs (config skills fields : List (String × Json)) (dirs : Json)
    (hs : config.lookup "skills" = some (.obj skills))
    (hl : skills.lookup "load" = some (.obj fields))
    (hd : fields.lookup "extraDirs" = some dirs) :
    (Json.obj config).getPath ["skills", "load", "extraDirs"] = some dirs := by
  simp only [Json.getPath, Json.get, hs, hl, hd]

theorem updateOpenClawConfig_of_shape (existing : Option Json) (falKey : String)
    (dailyFortune : Option FortuneSchedule) (dir : String) (old : List Json)
    (hd : existingDirs existing = some old)
    (hc : ∀ schedule, dailyFortune = some schedule → schedule.enabled = true →
      cronShape existing = true) :
    ∃ out, updateOpenClawConfig existing falKey dailyFortune dir = .ok out ∧
      out.getPath ["skills", "load", "extraDirs"]
        = some (.arr (if old.any (fun x => x.isStr dir) then old else old ++ [.str dir])) := by
  unfold existingDirs existingLoad at hd
  unfold cronShape at hc
  unfold updateOpenClawConfig
  rw [deepMerge_skillConfig]
  simp only [lookup_setKey, if_true]
  generalize ownProps (orEmpty ((ownProps (orEmpty existing)).lookup "skills")) = sk at hd ⊢
  generalize ownProps (orEmpty existing) = top at hc ⊢
  generalize deepMerge (orEmpty (sk.lookup "entries")) (entriesConfig falKey) = entries
  cases hL : orDefault (sk.lookup "load") (.obj []) with
  | obj fields =>
    rw [hL] at hd
    simp only at hd
    cases hD : orDefault (fields.lookup "extraDirs") (.arr []) with
    | arr items =>
      rw [hD] at hd
      simp only [Option.some.injEq] at hd
      subst hd
      have hl2 : orDefault ((setKey sk "entries" entries).lookup "load") (.obj [])
          = .obj fields := by
        rw [lookup_setKey, if_neg (by decide)]
        exact hL
      rw [ensureExtraDirs_of_shape _ fields items dir hl2 hD]
      simp only
      have hpath : ∀ config : List (String × Json),
          config.lookup "skills" = some (.obj (setKey (setKey sk "entries" entries) "load"
            (.obj (setKey fields "extraDirs" (.arr (if items.any (fun x => x.isStr dir)
              then items else items ++ [.str dir])))))) →
          (Json.obj config).getPath ["skills", "load", "extraDirs"]
            = some (.arr (if items.any (fun x => x.isStr dir) then items
                else items ++ [.str dir])) := by
        intro config hcfg
        exact getPath_extraDirs config _ _ _ hcfg (by rw [lookup_setKey, if_pos rfl])
          (by rw [lookup_setKey, if_pos rfl])
      cases dailyFortune with
      | none => exact ⟨_, rfl, hpath _ (by rw [lookup_setKey, if_pos rfl])⟩
      | some schedule =>
        by_cases hon : schedule.enabled = true
        · simp only [hon, if_true]
          have hshape := hc schedule rfl hon
          unfold ensureCronJob
          simp only [lookup_setKey]
          rw [if_neg (by decide), if_neg (by decide)]
          cases hC : orDefault (top.lookup "cron") (.obj []) with
          | obj cron =>
            simp only [cronStep]
            exact ⟨_, rfl, hpath _ (by
              rw [lookup_setKey, if_neg (by decide), lookup_setKey, if_pos rfl])⟩
          | arr cron =>
            simp only [cronStep]
            exact ⟨_, rfl, hpath _ (by
              rw [lookup_setKey, if_neg (by decide), lookup_setKey, if_pos rfl])⟩
          | null => rw [hC] at hshape; simp at hshape
          | bool b => rw [hC] at hshape; simp at hshape
          | num n => rw [hC] at hshape; simp at hshape
          | str s => rw [hC] at hshape; simp at hshape
        · simp only [hon]
          exact ⟨_, rfl, hpath _ (by rw [lookup_setKey, if_pos rfl])⟩
    | null => rw [hD] at hd; simp at hd
    | bool b => rw [hD] at hd; simp at hd
    | num n => rw [hD] at hd; simp at hd
    | str s => rw [hD] at hd; simp at hd
    | obj f => rw [hD] at hd; simp at hd
  | null => rw [hL] at hd; simp at hd
  | bool b => rw [hL] at hd; simp at hd
  | num n => rw [hL] at hd; simp at hd
  | str s => rw [hL] at hd; simp at hd
  | arr items => rw [hL] at hd; simp at hd

theorem isStr_eq_true (j : Json) (s : String) (h : j.isStr s = true) : j = .str s := by
  cases j with
  | str t =>
    simp only [Json.isStr, decide_eq_true_eq] at h
    rw [h]
  | null => simp [Json.isStr] at h
  | bool b => simp [Json.isStr] at h
  | num n => simp [Json.isStr] at h
  | arr items => simp [Json.isStr] at h
  | obj fields => simp [Json.isStr] at h

theorem mem_pushed_dirs (old : List Json) (dir : String) :
    Json.str dir ∈ (if old.any (fun x => x.isStr dir) then old else old ++ [.str dir]) := by
  by_cases hany : (old.any fun x => x.isStr dir) = true
  · rw [if_pos hany]
    obtain ⟨x, hx, hs⟩ := List.any_eq_true.mp hany
    rw [← isStr_eq_true x dir hs]
    exact hx
  · rw [if_neg hany]
    simp

/-- C23 as stated fails: on the configuration `{"skills":{"load":{"extraDirs":"elsewhere"}}}`
the update yields no configuration at all, with or without a daily fortune: the string
`extraDirs` does not include the skills directory and has no `push`, so the edit throws
before the write. -/
theorem updateOpenClawConfig_throws_on_string_dirs :
    updateOpenClawConfig (some stringDirsConfig) "key" none "/home/u/.openclaw/skills"
      = .error "TypeError" ∧
    updateOpenClawConfig (some stringDirsConfig) "key" (some sampleSchedule)
      "/home/u/.openclaw/skills" = .error "TypeError" :=
  ⟨rfl, rfl⟩

/-- C23 amended. For every existing configuration (or none), API key, daily-fortune setting
and skills directory: whenever the update yields a configuration, the update of that
configuration yields the same configuration again; and when `skills.load` is missing, falsy
or an object whose `extraDirs` is missing, falsy or an array with the items `old`, and
`cron` is missing, falsy, an object or an array in case a daily fortune is enabled, the
update does yield a configuration, whose `skills.load.extraDirs` is `old` if that includes
the skills directory and `old` followed by the skills directory otherwise, so it contains
the directory, and the second update returns the same configuration. -/
theorem updateOpenClawConfig_idempotent (existing : Option Json) (falKey : String)
    (dailyFortune : Option FortuneSchedule) (skillsDir : String) :
    (∀ out, updateOpenClawConfig existing falKey dailyFortune skillsDir = .ok out →
      updateOpenClawConfig (some out) falKey dailyFortune skillsDir = .ok out) ∧
    (∀ old, existingDirs existing = some old →
      (∀ schedule, dailyFortune = some schedule → schedule.enabled = true →
        cronShape existing = true) →
      ∃ out dirs, updateOpenClawConfig existing falKey dailyFortune skillsDir = .ok out ∧
        out.getPath ["skills", "load", "extraDirs"] = some (.arr dirs) ∧
        dirs = (if old.any (fun x => x.isStr skillsDir) then old
          else old ++ [.str skillsDir]) ∧
        Json.str skillsDir ∈ dirs ∧
        updateOpenClawConfig (some out) falKey dailyFortune skillsDir = .ok out) := by
  refine ⟨fun out h => updateOpenClawConfig_again existing falKey dailyFortune skillsDir out h,
    fun old hd hc => ?_⟩
  obtain ⟨out, h1, h2⟩ :=
    updateOpenClawConfig_of_shape existing falKey dailyFortune skillsDir old hd hc
  exact ⟨out, _, h1, h2, rfl, mem_pushed_dirs old skillsDir,
    updateOpenClawConfig_again existing falKey dailyFortune skillsDir out h1⟩

/-- Witness of C23 amended: a first installation with no configuration file, and the sample
configuration, whose `extraDirs` lists `/opt/skills`, updated with a daily fortune. -/
theorem updateOpenClawConfig_idempotent_witness :
    (∃ out, updateOpenClawConfig none "key" none "/home/u/.openclaw/skills" = .ok out ∧
      updateOpenClawConfig (some out) "key" none "/home/u/.openclaw/skills" = .ok out) ∧
    existingDirs (some sampleConfig) = some [.str "/opt/skills"] ∧
    cronShape (some sampleConfig) = true ∧
    ∃ out dirs, updateOpenClawConfig (some sampleConfig) "key" (some sampleSchedule)
        "/home/u/.openclaw/skills" = .ok out ∧
      out.getPath ["skills", "load", "extraDirs"] = some (.arr dirs) ∧
      dirs = [.str "/opt/skills", .str "/home/u/.openclaw/skills"] ∧
      Json.str "/home/u/.openclaw/skills" ∈ dirs ∧
      updateOpenClawConfig (some out) "key" (some sampleSchedule) "/home/u/.openclaw/skills"
        = .ok out :=
  ⟨⟨_, rfl, (updateOpenClawConfig_idempotent none "key" none "/home/u/.openclaw/skills").1 _ rfl⟩,
    rfl, rfl,
    (updateOpenClawConfig_idempotent (some sampleConfig) "key" (some sampleSchedule)
      "/home/u/.openclaw/skills").2 _ rfl (fun _ _ _ => rfl)⟩

end ClavTarot
